import Mathlib

/-! # Show_BOctTree: culled / level-of-detail octree traversals and ray selection

A shallow embedding of `include/show/show_Boctree.h` (3dtk 1.2).

* The values of the scalar type `T` of the source (float or double) are
  rationals `ℚ`; a C conversion `(int)x` is truncation toward zero (`toInt`).
  The traversals of the first part compute with them exactly; the part *The
  arithmetic of the scalar type* repeats the sub-sampling loop, the mode 1
  budget and the traversals that use them with the rounding of every operation.
* `glVertex3f` calls are collected, in call order, in the list a traversal
  returns.  The colour manager `cm` only sets the current colour before a
  vertex and never changes which vertices are sent, so it is left out.
* The camera dependent helpers of `show/viewcull.h` (`CubeInFrustum2`,
  `CubeInFrustum`, `LOD`, `LOD2`, `HitBoundingBox`, `RayDist`, `ScreenDist`) are
  parameters of the traversals (black-box oracles).
-/

/-- The centre of a cell, `T center[3]` in the source. -/
abbrev Vec3 : Type := ℚ × ℚ × ℚ

/-! ## The octree store

In the source a `bitoct` carries two 8-bit masks, `valid` and `leaf`, and a
pointer to the packed array of its present children (`bitunion<T>`); the loops
walk `i = 0 .. 7`, test bit `i` of `valid`, then bit `i` of `leaf`, use
`children->points` or `children->node` accordingly and step `++children`.

Here a node is given by its eight octant entries, indexed by `i`: entry `i` is
`absent` when bit `i` of `valid` is clear, `points pts` when bits `i` of `valid`
and of `leaf` are set (`pts` lists the `length` points of the bucket, in storage
order: the point at index `j` is the pointer `point + j * POINTDIM`), and
`node n` when bit `i` of `valid` is set and bit `i` of `leaf` is clear.  The
masks are recovered by `bitoct.valid` and `bitoct.leaf`.
-/

mutual
/-- An internal octree node: its eight octant entries. -/
inductive bitoct (P : Type) : Type where
  | mk (child : Fin 8 → bitunion P)
/-- One octant entry of a node: nothing, a point bucket, or a subtree. -/
inductive bitunion (P : Type) : Type where
  | absent
  | points (pts : List P)
  | node (n : bitoct P)
end

/-- The loop range `for (short i = 0; i < 8; i++)`. -/
def octants : List (Fin 8) := [0, 1, 2, 3, 4, 5, 6, 7]

/-- Whether an octant entry is present (its `valid` bit). -/
def bitunion.isValid {P : Type} : bitunion P → Bool
  | .absent => false
  | .points _ => true
  | .node _ => true

/-- Whether an octant entry is a point bucket (its `leaf` bit). -/
def bitunion.isLeaf {P : Type} : bitunion P → Bool
  | .absent => false
  | .points _ => true
  | .node _ => false

/-- The `valid` mask of a node: bit `i` is set iff octant `i` has a child. -/
def bitoct.valid {P : Type} : bitoct P → Nat
  | .mk child => (octants.map fun i => if (child i).isValid then 2 ^ i.val else 0).sum

/-- The `leaf` mask of a node: bit `i` is set iff octant `i` is a point bucket. -/
def bitoct.leaf {P : Type} : bitoct P → Nat
  | .mk child => (octants.map fun i => if (child i).isLeaf then 2 ^ i.val else 0).sum

/-- Modelled from the spec: the macro `POPCOUNT` (defined outside this header),
the number of set bits of an 8-bit mask. -/
def POPCOUNT (mask : Nat) : Nat :=
  (List.range 8).countP fun i => mask.testBit i

/-- Modelled from the spec: `childcenter` (declared in `slam6d/Boctree.h`), the
centre of octant `i` of the cell `(pcenter, size)`: parent centre plus or minus
`size / 2` on each axis, the sign of axis `k` given by bit `k` of `i`. -/
def childcenter (pcenter : Vec3) (size : ℚ) (i : Fin 8) : Vec3 :=
  (if i.val.testBit 0 then pcenter.1 + size / 2 else pcenter.1 - size / 2,
   if i.val.testBit 1 then pcenter.2.1 + size / 2 else pcenter.2.1 - size / 2,
   if i.val.testBit 2 then pcenter.2.2 + size / 2 else pcenter.2.2 - size / 2)

/-- The C conversion of a scalar to an integer type: truncation toward zero. -/
def toInt (q : ℚ) : Int := q.num.tdiv q.den

/-- The constant `FLT_MAX` of `<cfloat>`: `(2 - 2^-23) * 2^127`. -/
def FLT_MAX : ℚ := 340282346638528859811704183484516925440

/-- The constant `INT_MAX` of `<climits>` for a 32-bit `int`. -/
def INT_MAX : Int := 2147483647

/-- The sub-sampling loop that occurs, letter for letter, at lines 225-233,
288-296, 448-457 and 502-511:
`each = POINTDIM * (length / l)`, and for `iterator = 0 .. l - 1`,
`index = (int)(iterator * each)`, `p = point + index - index % POINTDIM`, then
`glVertex3f(p[0], p[1], p[2])`.  The pointer `p` is the bucket point number
`(index - index % POINTDIM) / POINTDIM`; a step whose number falls outside the
bucket sends nothing here (`length_strideSample` shows that none does when
`0 < l < length`).  The operations are exact here; `Rounded.strideSample` is the
same loop with the rounding of `T`. -/
def strideSample {P : Type} (POINTDIM : Nat) (pts : List P) (l : Int) : List P :=
  let each : ℚ := (POINTDIM : ℚ) * ((pts.length : ℚ) / (l : ℚ))
  (List.range l.toNat).flatMap fun iterator =>
    let index : Int := toInt ((iterator : ℚ) * each)
    (pts[((index - index.tmod POINTDIM).tdiv POINTDIM).toNat]?).toList

/-- The statement `glVertex3f(point[0], point[1], point[2])` on the first point
of a bucket (lines 245-246, 304-305, 438-439, 492-493); on an empty bucket,
where the source reads past the bucket, nothing is sent here. -/
def firstPoint {P : Type} (pts : List P) : List P := (pts[0]?).toList

/-- A `showCube(center, size)` call (lines 753-793): the six quads of the cube
with the given centre and half-size, in fixed colours. -/
abbrev Cube : Type := Vec3 × ℚ

/-- What the sprite traversals send: a bucket point drawn after
`glPointSize(1.0)`, or one vertex at a cell centre drawn after
`glPointSize(pointsize)`. -/
inductive Sprite (P : Type) : Type where
  | point (p : P)
  | cell (ccenter : Vec3) (pointsize : ℚ)
  deriving DecidableEq

/-- The state of a `Show_BOctTree<T>` object: the members `root`, `center`,
`size` and `max_depth` of the base class `BOctTree<T>`, and the two members
declared at lines 863-865. -/
structure Show_BOctTree (P : Type) where
  root : bitoct P
  center : Vec3
  size : ℚ
  max_depth : Int
  maxtargetpoints : Nat
  current_lod_mode : Nat

namespace Show_BOctTree

variable {P : Type}

/-! ### `maxTargetPoints` (lines 124-145) -/

mutual
/-- `maxTargetPoints(node)`, over `unsigned long` (64 bits). -/
def maxTargetPoints : bitoct P → Nat
  | .mk child =>
    (octants.foldl (fun max i => maxTargetPoints.child (child i) max) 0
      * POPCOUNT (bitoct.valid (.mk child))) % 2 ^ 64
/-- The loop body of `maxTargetPoints` for one octant entry: the new `max`. -/
def maxTargetPoints.child : bitunion P → Nat → Nat
  | .absent, max => max
  | .points pts, max => if pts.length > max then pts.length else max
  | .node n, max => if maxTargetPoints n > max then maxTargetPoints n else max
end

/-! ### `displayOctTreeAll` (lines 147-169) -/

mutual
/-- `displayOctTreeAll(node)`: the vertices sent, in order. -/
def displayOctTreeAll : bitoct P → List P
  | .mk child => octants.flatMap fun i => displayOctTreeAll.child (child i)
/-- The loop body of `displayOctTreeAll` for one octant entry. -/
def displayOctTreeAll.child : bitunion P → List P
  | .absent => []
  | .points pts => pts
  | .node n => displayOctTreeAll n
end

/-! ### `displayOctTreeAllCulled` (lines 171-205) -/

mutual
/-- `displayOctTreeAllCulled(node, center, size)`. -/
def displayOctTreeAllCulled (CubeInFrustum2 : Vec3 → ℚ → Int) :
    bitoct P → Vec3 → ℚ → List P
  | .mk child, center, size =>
    if CubeInFrustum2 center size = 0 then []
    else if CubeInFrustum2 center size = 2 then displayOctTreeAll (.mk child)
    else octants.flatMap fun i =>
      displayOctTreeAllCulled.child CubeInFrustum2 (child i) (childcenter center size i) size
/-- The loop body of `displayOctTreeAllCulled`; the leaf test is commented out
in the source (line 189). -/
def displayOctTreeAllCulled.child (CubeInFrustum2 : Vec3 → ℚ → Int) :
    bitunion P → Vec3 → ℚ → List P
  | .absent, _, _ => []
  | .points pts, _, _ => pts
  | .node n, ccenter, size => displayOctTreeAllCulled CubeInFrustum2 n ccenter (size / 2)
end

/-! ### `displayOctTreeLOD2` and `displayOctTreeCulledLOD2` (lines 207-319)

The two functions call each other: the recursion of `displayOctTreeLOD2`
(line 252) goes to `displayOctTreeCulledLOD2`.  The product `l*l` is taken over
the integers (no `int` overflow). -/

/-- Lines 221-222, 249-250 and 284-285: `l = LOD2(...); l = max((int)(l*l*ratio), 0)`,
with exact operations; `Rounded.scaledLOD2` has the 32-bit `int` product and the
rounding of `float`. -/
def scaledLOD2 (LOD2 : Vec3 → ℚ → Int) ( ratio : ℚ) (ccenter : Vec3) (size : ℚ) : Int :=
  max (toInt (((LOD2 ccenter (size / 2) * LOD2 ccenter (size / 2) : Int) : ℚ) * ratio)) 0

mutual
/-- `displayOctTreeLOD2(ratio, node, center, size)`. -/
def displayOctTreeLOD2 (POINTDIM : Nat) (CubeInFrustum2 : Vec3 → ℚ → Int)
    (CubeInFrustum : Vec3 → ℚ → Bool) (LOD2 : Vec3 → ℚ → Int) ( ratio : ℚ) :
    bitoct P → Vec3 → ℚ → List P
  | .mk child, center, size =>
    octants.flatMap fun i =>
      displayOctTreeLOD2.child POINTDIM CubeInFrustum2 CubeInFrustum LOD2 ratio
        (child i) (childcenter center size i) size
/-- The loop body of `displayOctTreeLOD2` (lines 216-254). -/
def displayOctTreeLOD2.child (POINTDIM : Nat) (CubeInFrustum2 : Vec3 → ℚ → Int)
    (CubeInFrustum : Vec3 → ℚ → Bool) (LOD2 : Vec3 → ℚ → Int) ( ratio : ℚ) :
    bitunion P → Vec3 → ℚ → List P
  | .absent, _, _ => []
  | .points pts, ccenter, size =>
    let l := scaledLOD2 LOD2 ratio ccenter size
    if l > 1 then
      if (pts.length : Int) > l then strideSample POINTDIM pts l
      else if (pts.length : Int) ≤ l then pts
      else []
    else firstPoint pts
  | .node n, ccenter, size =>
    let l := scaledLOD2 LOD2 ratio ccenter size
    if l > 0 then
      displayOctTreeCulledLOD2 POINTDIM CubeInFrustum2 CubeInFrustum LOD2 ratio n ccenter (size / 2)
    else []
/-- `displayOctTreeCulledLOD2(ratio, node, center, size)`.  The call
`displayOctTreeLOD2(ratio, node, center, size)` of line 266, on the same node,
is written out as the body of `displayOctTreeLOD2` (see
`displayOctTreeCulledLOD2_eq`). -/
def displayOctTreeCulledLOD2 (POINTDIM : Nat) (CubeInFrustum2 : Vec3 → ℚ → Int)
    (CubeInFrustum : Vec3 → ℚ → Bool) (LOD2 : Vec3 → ℚ → Int) ( ratio : ℚ) :
    bitoct P → Vec3 → ℚ → List P
  | .mk child, center, size =>
    if CubeInFrustum2 center size = 0 then []
    else if CubeInFrustum2 center size = 2 then
      octants.flatMap fun i =>
        displayOctTreeLOD2.child POINTDIM CubeInFrustum2 CubeInFrustum LOD2 ratio
          (child i) (childcenter center size i) size
    else octants.flatMap fun i =>
      displayOctTreeCulledLOD2.child POINTDIM CubeInFrustum2 CubeInFrustum LOD2 ratio
        (child i) (childcenter center size i) size
/-- The loop body of `displayOctTreeCulledLOD2` (lines 277-315). -/
def displayOctTreeCulledLOD2.child (POINTDIM : Nat) (CubeInFrustum2 : Vec3 → ℚ → Int)
    (CubeInFrustum : Vec3 → ℚ → Bool) (LOD2 : Vec3 → ℚ → Int) ( ratio : ℚ) :
    bitunion P → Vec3 → ℚ → List P
  | .absent, _, _ => []
  | .points pts, ccenter, size =>
    if CubeInFrustum ccenter (size / 2) then
      let l := scaledLOD2 LOD2 ratio ccenter size
      if l ≠ 0 then
        if (pts.length : Int) > l then strideSample POINTDIM pts l
        else if (pts.length : Int) ≤ l then pts
        else if l = 1 then firstPoint pts
        else []
      else []
    else []
  | .node n, ccenter, size =>
    displayOctTreeCulledLOD2 POINTDIM CubeInFrustum2 CubeInFrustum LOD2 ratio n ccenter (size / 2)
end

/-! ### `displayOctTreeLOD` and `displayOctTreeCulledLOD` (lines 405-519) -/

mutual
/-- `displayOctTreeLOD(targetpts, node, center, size)`. -/
def displayOctTreeLOD (POINTDIM : Nat) (LOD : Vec3 → ℚ → Bool) :
    bitoct P → Int → Vec3 → ℚ → List P
  | .mk child, targetpts, center, size =>
    if targetpts ≤ 0 then []
    else
      let nc := POPCOUNT (bitoct.valid (.mk child))
      let newtargetpts : Int := if nc > 0 then targetpts.tdiv nc else targetpts
      if nc > 0 ∧ newtargetpts ≤ 0 then []
      else octants.flatMap fun i =>
        displayOctTreeLOD.child POINTDIM LOD (child i) newtargetpts (childcenter center size i) size
/-- The loop body of `displayOctTreeLOD` (lines 486-516). -/
def displayOctTreeLOD.child (POINTDIM : Nat) (LOD : Vec3 → ℚ → Bool) :
    bitunion P → Int → Vec3 → ℚ → List P
  | .absent, _, _, _ => []
  | .points pts, newtargetpts, ccenter, size =>
    if pts.length > 10 ∧ ¬ LOD ccenter (size / 2) then firstPoint pts
    else if (pts.length : Int) ≤ newtargetpts then pts
    else strideSample POINTDIM pts newtargetpts
  | .node n, newtargetpts, ccenter, size =>
    displayOctTreeLOD POINTDIM LOD n newtargetpts ccenter (size / 2)
end

mutual
/-- `displayOctTreeCulledLOD(targetpts, node, center, size)`. -/
def displayOctTreeCulledLOD (POINTDIM : Nat) (CubeInFrustum2 : Vec3 → ℚ → Int)
    (CubeInFrustum : Vec3 → ℚ → Bool) (LOD : Vec3 → ℚ → Bool) :
    bitoct P → Int → Vec3 → ℚ → List P
  | .mk child, targetpts, center, size =>
    if targetpts ≤ 0 then []
    else if CubeInFrustum2 center size = 0 then []
    else if CubeInFrustum2 center size = 2 then
      displayOctTreeLOD POINTDIM LOD (.mk child) targetpts center size
    else
      let nc := POPCOUNT (bitoct.valid (.mk child))
      let newtargetpts : Int := if nc > 0 then targetpts.tdiv nc else targetpts
      if nc > 0 ∧ newtargetpts ≤ 0 then []
      else octants.flatMap fun i =>
        displayOctTreeCulledLOD.child POINTDIM CubeInFrustum2 CubeInFrustum LOD
          (child i) newtargetpts (childcenter center size i) size
/-- The loop body of `displayOctTreeCulledLOD` (lines 428-465). -/
def displayOctTreeCulledLOD.child (POINTDIM : Nat) (CubeInFrustum2 : Vec3 → ℚ → Int)
    (CubeInFrustum : Vec3 → ℚ → Bool) (LOD : Vec3 → ℚ → Bool) :
    bitunion P → Int → Vec3 → ℚ → List P
  | .absent, _, _, _ => []
  | .points pts, newtargetpts, ccenter, size =>
    if CubeInFrustum ccenter (size / 2) then
      if pts.length > 10 ∧ ¬ LOD ccenter (size / 2) then firstPoint pts
      else if (pts.length : Int) ≤ newtargetpts then pts
      else strideSample POINTDIM pts newtargetpts
    else []
  | .node n, newtargetpts, ccenter, size =>
    displayOctTreeCulledLOD POINTDIM CubeInFrustum2 CubeInFrustum LOD n newtargetpts ccenter
      (size / 2)
end

/-! ### Ray selection (lines 520-608)

A `set<T *>` is a finite set of points; the pointer `T * &selpoint` is an
optional point (`none` for a null pointer). -/

section selection
variable [DecidableEq P]

mutual
/-- `selectRay(selpoints, node, center, size, max_depth, depth)` (line 520):
the set after the call. -/
def selectRay (HitBoundingBox : Vec3 → ℚ → Bool) :
    bitoct P → Finset P → Vec3 → ℚ → Int → Int → Finset P
  | .mk child, selpoints, center, size, max_depth, depth =>
    if depth < max_depth ∧ ¬ HitBoundingBox center size then selpoints
    else octants.foldl (fun sel i =>
      selectRay.child HitBoundingBox (child i) sel (childcenter center size i) size
        max_depth depth) selpoints
/-- The loop body of `selectRay` (lines 528-545). -/
def selectRay.child (HitBoundingBox : Vec3 → ℚ → Bool) :
    bitunion P → Finset P → Vec3 → ℚ → Int → Int → Finset P
  | .absent, selpoints, _, _, _, _ => selpoints
  | .points pts, selpoints, ccenter, size, max_depth, depth =>
    if ¬ (depth + 1 < max_depth) ∨ HitBoundingBox ccenter size then
      pts.foldl (fun sel point => insert point sel) selpoints
    else selpoints
  | .node n, selpoints, ccenter, size, max_depth, depth =>
    selectRay HitBoundingBox n selpoints ccenter (size / 2) max_depth (depth + 1)
end

mutual
/-- `selectRayBS(selpoints, node, center, size, brushsize)` (line 549). -/
def selectRayBS (HitBoundingBox : Vec3 → ℚ → Bool) (ScreenDist RayDist : P → ℚ) :
    bitoct P → Finset P → Vec3 → ℚ → Int → Finset P
  | .mk child, selpoints, center, size, brushsize =>
    octants.foldl (fun sel i =>
      selectRayBS.child HitBoundingBox ScreenDist RayDist (child i) sel
        (childcenter center size i) size brushsize) selpoints
/-- The loop body of `selectRayBS` (lines 555-573). -/
def selectRayBS.child (HitBoundingBox : Vec3 → ℚ → Bool) (ScreenDist RayDist : P → ℚ) :
    bitunion P → Finset P → Vec3 → ℚ → Int → Finset P
  | .absent, selpoints, _, _, _ => selpoints
  | .points pts, selpoints, ccenter, size, brushsize =>
    if HitBoundingBox ccenter size then
      pts.foldl (fun sel point =>
        if ScreenDist point < (brushsize : ℚ) ∧ RayDist point > 100 then insert point sel
        else sel) selpoints
    else selpoints
  | .node n, selpoints, ccenter, size, brushsize =>
    selectRayBS HitBoundingBox ScreenDist RayDist n selpoints ccenter (size / 2) brushsize
end

end selection

mutual
/-- `selectRay(selpoint, node, center, size, min)` (line 577), called
`selectRayPoint` here: the value of `selpoint` after the call.  `selpoint` is
passed by reference and `min` by value, so the caller gets the new `selpoint`
and keeps its own `min`. -/
def selectRayPoint (HitBoundingBox : Vec3 → ℚ → Bool) (ScreenDist RayDist : P → ℚ) :
    bitoct P → Option P → Vec3 → ℚ → ℚ → Option P
  | .mk child, selpoint, center, size, min =>
    if ¬ HitBoundingBox center size then selpoint
    else (octants.foldl (fun (st : Option P × ℚ) i =>
      selectRayPoint.child HitBoundingBox ScreenDist RayDist (child i) st.1
        (childcenter center size i) size st.2) (selpoint, min)).1
/-- The loop body of `selectRayPoint` (lines 585-606): the new values of
`selpoint` and of the local `min`. -/
def selectRayPoint.child (HitBoundingBox : Vec3 → ℚ → Bool) (ScreenDist RayDist : P → ℚ) :
    bitunion P → Option P → Vec3 → ℚ → ℚ → Option P × ℚ
  | .absent, selpoint, _, _, min => (selpoint, min)
  | .points pts, selpoint, ccenter, size, min =>
    if HitBoundingBox ccenter size then
      pts.foldl (fun (st : Option P × ℚ) point =>
        let dist := RayDist point
        if st.2 > dist ∧ ScreenDist point < 5 ∧ dist > 100 then (some point, dist)
        else st) (selpoint, min)
    else (selpoint, min)
  | .node n, selpoint, ccenter, size, min =>
    (selectRayPoint HitBoundingBox ScreenDist RayDist n selpoint ccenter (size / 2) min, min)
end

/-! ### Cell outlines: `displayOctTreeCAllCulled` and `displayOctTreeCAll` (lines 610-655) -/

mutual
/-- `displayOctTreeCAll(node, center, size, minsize)`: the `showCube` calls. -/
def displayOctTreeCAll : bitoct P → Vec3 → ℚ → ℚ → List Cube
  | .mk child, center, size, minsize =>
    octants.flatMap fun i =>
      displayOctTreeCAll.child (child i) (childcenter center size i) size minsize
/-- The loop body of `displayOctTreeCAll` (lines 645-653). -/
def displayOctTreeCAll.child : bitunion P → Vec3 → ℚ → ℚ → List Cube
  | .absent, _, _, _ => []
  | .points _, ccenter, size, _ => [(ccenter, size / 2)]
  | .node n, ccenter, size, minsize =>
    if minsize > size then [(ccenter, size / 2)]
    else displayOctTreeCAll n ccenter (size / 2) minsize
end

mutual
/-- `displayOctTreeCAllCulled(node, center, size, minsize)`. -/
def displayOctTreeCAllCulled (CubeInFrustum2 : Vec3 → ℚ → Int)
    (CubeInFrustum : Vec3 → ℚ → Bool) : bitoct P → Vec3 → ℚ → ℚ → List Cube
  | .mk child, center, size, minsize =>
    if CubeInFrustum2 center size = 0 then []
    else if CubeInFrustum2 center size = 2 then
      displayOctTreeCAll (.mk child) center size minsize
    else octants.flatMap fun i =>
      displayOctTreeCAllCulled.child CubeInFrustum2 CubeInFrustum (child i)
        (childcenter center size i) size minsize
/-- The loop body of `displayOctTreeCAllCulled` (lines 624-635). -/
def displayOctTreeCAllCulled.child (CubeInFrustum2 : Vec3 → ℚ → Int)
    (CubeInFrustum : Vec3 → ℚ → Bool) : bitunion P → Vec3 → ℚ → ℚ → List Cube
  | .absent, _, _, _ => []
  | .points _, ccenter, size, _ =>
    if CubeInFrustum ccenter (size / 2) then [(ccenter, size / 2)] else []
  | .node n, ccenter, size, minsize =>
    if minsize > size then
      if CubeInFrustum ccenter (size / 2) then [(ccenter, size / 2)] else []
    else displayOctTreeCAllCulled CubeInFrustum2 CubeInFrustum n ccenter (size / 2) minsize
end

/-! ### Sprites: `displayOctTreeCPAllCulled` and `displayOctTreeCPAll` (lines 658-751) -/

mutual
/-- `displayOctTreeCPAll(node, center, size, minsize)`. -/
def displayOctTreeCPAll (CubeInFrustum : Vec3 → ℚ → Bool) :
    bitoct P → Vec3 → ℚ → ℚ → List (Sprite P)
  | .mk child, center, size, minsize =>
    octants.flatMap fun i =>
      displayOctTreeCPAll.child CubeInFrustum (child i) (childcenter center size i) size minsize
/-- The loop body of `displayOctTreeCPAll` (lines 716-749). -/
def displayOctTreeCPAll.child (CubeInFrustum : Vec3 → ℚ → Bool) :
    bitunion P → Vec3 → ℚ → ℚ → List (Sprite P)
  | .absent, _, _, _ => []
  | .points pts, ccenter, size, minsize =>
    if minsize > size then
      if CubeInFrustum ccenter (size / 2) then [Sprite.cell ccenter (size / 2)] else []
    else pts.map Sprite.point
  | .node n, ccenter, size, minsize =>
    if minsize > size then
      if CubeInFrustum ccenter (size / 2) then [Sprite.cell ccenter (size / 2)] else []
    else displayOctTreeCPAll CubeInFrustum n ccenter (size / 2) minsize
end

mutual
/-- `displayOctTreeCPAllCulled(node, center, size, minsize)`. -/
def displayOctTreeCPAllCulled (CubeInFrustum2 : Vec3 → ℚ → Int)
    (CubeInFrustum : Vec3 → ℚ → Bool) : bitoct P → Vec3 → ℚ → ℚ → List (Sprite P)
  | .mk child, center, size, minsize =>
    if CubeInFrustum2 center size = 0 then []
    else if CubeInFrustum2 center size = 2 then
      displayOctTreeCPAll CubeInFrustum (.mk child) center size minsize
    else octants.flatMap fun i =>
      displayOctTreeCPAllCulled.child CubeInFrustum2 CubeInFrustum (child i)
        (childcenter center size i) size minsize
/-- The loop body of `displayOctTreeCPAllCulled` (lines 672-706). -/
def displayOctTreeCPAllCulled.child (CubeInFrustum2 : Vec3 → ℚ → Int)
    (CubeInFrustum : Vec3 → ℚ → Bool) : bitunion P → Vec3 → ℚ → ℚ → List (Sprite P)
  | .absent, _, _, _ => []
  | .points pts, ccenter, size, minsize =>
    if minsize > size then
      if CubeInFrustum ccenter (size / 2) then [Sprite.cell ccenter (size / 2)] else []
    else if CubeInFrustum ccenter (size / 2) then pts.map Sprite.point
    else []
  | .node n, ccenter, size, minsize =>
    if minsize > size then
      if CubeInFrustum ccenter (size / 2) then [Sprite.cell ccenter (size / 2)] else []
    else displayOctTreeCPAllCulled CubeInFrustum2 CubeInFrustum n ccenter (size / 2) minsize
end

/-! ### The public members (lines 35-120) -/

/-- The constructors (lines 35-58): on top of the base-class members they set
`maxtargetpoints = maxTargetPoints(*root)` and `current_lod_mode = 0`. -/
def create (root : bitoct P) (center : Vec3) (size : ℚ) (max_depth : Int) : Show_BOctTree P :=
  { root := root, center := center, size := size, max_depth := max_depth,
    maxtargetpoints := maxTargetPoints root, current_lod_mode := 0 }

/-- `displayOctTreeCulled(targetpts)` (lines 60-64). -/
def displayOctTreeCulled (POINTDIM : Nat) (CubeInFrustum2 : Vec3 → ℚ → Int)
    (CubeInFrustum : Vec3 → ℚ → Bool) (LOD : Vec3 → ℚ → Bool)
    (t : Show_BOctTree P) (targetpts : Int) : List P :=
  displayOctTreeCulledLOD POINTDIM CubeInFrustum2 CubeInFrustum LOD t.root targetpts t.center t.size

/-- `drawLOD(ratio)` (lines 66-95).  `glee` says whether the branch under
`#ifdef WITH_GLEE` / `if (GLEE_ARB_point_parameters)` is compiled in and taken.
The mode 0 budget `maxtargetpoints * ratio`, a `float` product converted to
`long` in the source, is the truncation of the exact product here. -/
def drawLOD (POINTDIM : Nat) (glee : Bool) (CubeInFrustum2 : Vec3 → ℚ → Int)
    (CubeInFrustum : Vec3 → ℚ → Bool) (LOD : Vec3 → ℚ → Bool) (LOD2 : Vec3 → ℚ → Int)
    (t : Show_BOctTree P) ( ratio : ℚ) : List (Sprite P) :=
  if t.current_lod_mode = 0 then
    (displayOctTreeCulledLOD POINTDIM CubeInFrustum2 CubeInFrustum LOD t.root
      (toInt ((t.maxtargetpoints : ℚ) * ratio)) t.center t.size).map Sprite.point
  else if t.current_lod_mode = 1 then
    (displayOctTreeCulledLOD2 POINTDIM CubeInFrustum2 CubeInFrustum LOD2 ratio t.root
      t.center t.size).map Sprite.point
  else if t.current_lod_mode = 2 then
    if glee then
      displayOctTreeCPAllCulled CubeInFrustum2 CubeInFrustum t.root t.center t.size
        (t.size / (2 : ℚ) ^ (min (toInt ( ratio * (t.max_depth : ℚ))) (t.max_depth - 3)))
    else []
  else []

/-- `draw()` (lines 97-101). -/
def draw (CubeInFrustum2 : Vec3 → ℚ → Int) (t : Show_BOctTree P) : List P :=
  displayOctTreeAllCulled CubeInFrustum2 t.root t.center t.size

/-- `displayOctTree(minsize)` (lines 103-105). -/
def displayOctTree (CubeInFrustum2 : Vec3 → ℚ → Int) (CubeInFrustum : Vec3 → ℚ → Bool)
    (t : Show_BOctTree P) (minsize : ℚ) : List Cube :=
  displayOctTreeCAllCulled CubeInFrustum2 CubeInFrustum t.root t.center t.size minsize

/-- `selectRayBrushSize(points, brushsize)` (lines 107-109). -/
def selectRayBrushSize [DecidableEq P] (HitBoundingBox : Vec3 → ℚ → Bool)
    (ScreenDist RayDist : P → ℚ) (t : Show_BOctTree P) (points : Finset P) (brushsize : Int) :
    Finset P :=
  selectRayBS HitBoundingBox ScreenDist RayDist t.root points t.center t.size brushsize

/-- The public `selectRay(points, depth)` (lines 110-112); the default value of
`depth` is `INT_MAX`. -/
def selectRayRoot [DecidableEq P] (HitBoundingBox : Vec3 → ℚ → Bool) (t : Show_BOctTree P)
    (points : Finset P) (depth : Int) : Finset P :=
  selectRay HitBoundingBox t.root points t.center t.size depth 0

/-- The public `selectRay(point)` (lines 113-115). -/
def selectRayPointRoot (HitBoundingBox : Vec3 → ℚ → Bool) (ScreenDist RayDist : P → ℚ)
    (t : Show_BOctTree P) (point : Option P) : Option P :=
  selectRayPoint HitBoundingBox ScreenDist RayDist t.root point t.center t.size FLT_MAX

/-- `cycleLOD()` (lines 118-120), over `unsigned int` (32 bits). -/
def cycleLOD (t : Show_BOctTree P) : Show_BOctTree P :=
  { t with current_lod_mode := ((t.current_lod_mode + 1) % 2 ^ 32) % 3 }

end Show_BOctTree

/-! ## The cells of a tree

Two listings used to state properties: the internal nodes and the leaf buckets
of a subtree, each with its depth and its place in the geometric frame, as the
traversals derive them (`childcenter`, halving of the half-size).
-/

/-- An internal node met at depth `depth` with the box `(center, size)`. -/
structure NodeCell where
  depth : Int
  center : Vec3
  size : ℚ
  deriving DecidableEq

/-- A leaf bucket: child of a node of depth `depth - 1` and half-size `psize`,
with centre `ccenter`; its own half-size is `psize / 2`. -/
structure LeafCell (P : Type) where
  depth : Int
  ccenter : Vec3
  psize : ℚ
  pts : List P

mutual
/-- The internal nodes of the subtree at `node`, `node` itself first. -/
def octNodes {P : Type} : bitoct P → Vec3 → ℚ → Int → List NodeCell
  | .mk child, center, size, depth =>
    { depth := depth, center := center, size := size } ::
      octants.flatMap fun i => octNodes.child (child i) (childcenter center size i) size depth
/-- The internal nodes below one octant entry. -/
def octNodes.child {P : Type} : bitunion P → Vec3 → ℚ → Int → List NodeCell
  | .absent, _, _, _ => []
  | .points _, _, _, _ => []
  | .node n, ccenter, size, depth => octNodes n ccenter (size / 2) (depth + 1)
end

mutual
/-- The leaf buckets of the subtree at `node`, in depth-first, increasing-octant order. -/
def octLeaves {P : Type} : bitoct P → Vec3 → ℚ → Int → List (LeafCell P)
  | .mk child, center, size, depth =>
    octants.flatMap fun i => octLeaves.child (child i) (childcenter center size i) size depth
/-- The leaf buckets below one octant entry. -/
def octLeaves.child {P : Type} : bitunion P → Vec3 → ℚ → Int → List (LeafCell P)
  | .absent, _, _, _ => []
  | .points pts, ccenter, size, depth =>
    [{ depth := depth + 1, ccenter := ccenter, psize := size, pts := pts }]
  | .node n, ccenter, size, depth => octLeaves n ccenter (size / 2) (depth + 1)
end

/-- The box handed to `HitBoundingBox` for a leaf by the selection traversals
(lines 532, 559, 589): the centre of the leaf with the half-size of its parent. -/
def LeafCell.rayBox {P : Type} (l : LeafCell P) : Vec3 × ℚ := (l.ccenter, l.psize)

/-- The own box of a leaf in the geometric frame: its centre with half of the
half-size of its parent. -/
def LeafCell.ownBox {P : Type} (l : LeafCell P) : Vec3 × ℚ := (l.ccenter, l.psize / 2)

/-- All points stored in a list of leaf buckets. -/
def leafPoints {P : Type} (ls : List (LeafCell P)) : List P := ls.flatMap fun l => l.pts

/-! ## Example trees -/

/-- A node with no child. -/
def emptyOct {P : Type} : bitoct P := .mk fun _ => .absent

/-- A node whose only child, in octant `i`, is `c`. -/
def singleOct {P : Type} (i : Fin 8) (c : bitunion P) : bitoct P :=
  .mk fun j => if j = i then c else .absent

/-- A node with the two children `c0` (octant 0) and `c1` (octant 1). -/
def pairOct {P : Type} (c0 c1 : bitunion P) : bitoct P :=
  .mk fun j => if j = 0 then c0 else if j = 1 then c1 else .absent

/-- A root with eight leaves of five points each: leaf `i` holds `5 i .. 5 i + 4`. -/
def eightLeaves : bitoct Nat :=
  .mk fun i => .points [5 * i.val, 5 * i.val + 1, 5 * i.val + 2, 5 * i.val + 3, 5 * i.val + 4]

/-- Point 0 sits one level deeper (octant 0, below an internal node) than point 1
(a leaf in octant 1 of the root). -/
def nearDeepFarShallow : bitoct Nat :=
  pairOct (.node (singleOct 0 (.points [0]))) (.points [1])

/-- Ray distances for `nearDeepFarShallow`: point 0 at 200, every other point at 300. -/
def rayDist200_300 (p : Nat) : ℚ := if p = 0 then 200 else 300

/-- The leaf holding point 7 lies two levels below the root. -/
def deepLeaf : bitoct Nat := singleOct 0 (.node (singleOct 0 (.points [7])))

/-- The pick ray `(t, 1, 1)`, parallel to the x axis: it meets the box
`(center, size)` iff the box covers `y = 1` and `z = 1`. -/
def axisRay (center : Vec3) (size : ℚ) : Bool :=
  decide (|1 - center.2.1| ≤ size ∧ |1 - center.2.2| ≤ size)

/-- A visibility oracle for a root of half-size 1: the root is fully inside
(answer 2), every smaller box fully outside (answer 0). -/
def insideRootOnly (_ : Vec3) (size : ℚ) : Int := if size = 1 then 2 else 0

/-- A footprint oracle that answers 0 on the boxes of half-size 1/2 and 5 on
every other box. -/
def footprintZeroAtHalf (_ : Vec3) (size : ℚ) : Int := if size = 1 / 2 then 0 else 5

/-! ## The calibration bound over unbounded naturals -/

mutual
/-- The bound of `maxTargetPoints` as section 4.4 words it, over unbounded
naturals: the number of present children times the maximum, over the present
children, of the bucket size (leaf) or of the bound of the child (subtree). -/
def maxTargetPointsNat {P : Type} : bitoct P → Nat
  | .mk child =>
    (octants.filter fun i => (child i).isValid).length
      * (octants.map fun i => maxTargetPointsNat.child (child i)).foldl max 0
/-- The value one octant entry contributes to the maximum. -/
def maxTargetPointsNat.child {P : Type} : bitunion P → Nat
  | .absent => 0
  | .points pts => pts.length
  | .node n => maxTargetPointsNat n
end

/-- The size of the bucket of a leaf entry, 0 for the other entries. -/
def bitunion.leafSize {P : Type} : bitunion P → Nat
  | .absent => 0
  | .points pts => pts.length
  | .node _ => 0

mutual
/-- The calibration value as the data model words it: the maximum, over all
internal nodes of the subtree, of the largest leaf-bucket size among the node's
own children times the node's number of present children. -/
def maxLeafProduct {P : Type} : bitoct P → Nat
  | .mk child =>
    max ((octants.map fun i => (child i).leafSize).foldl max 0
          * (octants.filter fun i => (child i).isValid).length)
      ((octants.map fun i => maxLeafProduct.child (child i)).foldl max 0)
/-- The maximum over the internal nodes below one octant entry. -/
def maxLeafProduct.child {P : Type} : bitunion P → Nat
  | .absent => 0
  | .points _ => 0
  | .node n => maxLeafProduct n
end

/-- A root with a leaf of one point and an internal node with two leaves of
three points. -/
def twoLevelOct : bitoct Nat :=
  pairOct (.node (pairOct (.points [0, 1, 2]) (.points [3, 4, 5]))) (.points [6])

/-- A chain of `n + 1` nodes with eight children each: octant 0 holds the next
node of the chain (eight leaves at the bottom), the other octants a leaf of one
point. -/
def fullChain : Nat → bitoct Nat
  | 0 => .mk fun i => .points [i.val]
  | n + 1 => .mk fun i => if i = 0 then .node (fullChain n) else .points [i.val]

/-! ## The arithmetic of the scalar type

The traversals above compute `each`, `index` and the mode 1 budget over the
exact rationals.  In the source `each` and `index` are computed in the scalar
type `T` (the template parameter, `float` or `double`), and the mode 1 budget
`l*l*ratio` is a 32-bit `int` product converted to `float` and multiplied by the
`float ratio`, whatever `T` is.

This part repeats the sub-sampling loop, the mode 1 budget and the four
traversals that use them with every rounding made explicit: the parameter `rnd`
is the rounding of one operation of the scalar type, `roundFloat` for `float`
(IEEE binary32) and `roundDouble` for `double` (IEEE binary64); the mode 1
budget is always rounded by `roundFloat`.  Every operation is rounded to its
type (no excess precision).  With `rnd = id` the loop is `strideSample` again
(`rounded_strideSample_id`) and the mode 0 traversals are those of the first
part (`rounded_displayOctTreeLOD_id`, `rounded_displayOctTreeCulledLOD_id`).
The mode 0 budget `maxtargetpoints * ratio` of `drawLOD`, a `float` product in
the source, is taken exactly in this file. -/

/-- The number of halvings that bring `n` below 2, at most `fuel` of them. -/
def log2Fuel : Nat → Nat → Nat
  | 0, _ => 0
  | fuel + 1, n => if 2 ≤ n then log2Fuel fuel (n / 2) + 1 else 0

/-- The position of the leading bit of `n`, that is `⌊log₂ n⌋` (`0` for
`n = 0`); `n` halvings are always enough. -/
def floorLog2 (n : Nat) : Nat := log2Fuel n n

/-- The binary exponent of `q ≠ 0`: the integer `e` with
`2 ^ e ≤ |q| < 2 ^ (e + 1)`. -/
def ilog2 (q : ℚ) : Int :=
  if (2 : ℚ) ^ ((floorLog2 q.num.natAbs : Int) - (floorLog2 q.den : Int)) ≤ |q|
    then (floorLog2 q.num.natAbs : Int) - (floorLog2 q.den : Int)
    else (floorLog2 q.num.natAbs : Int) - (floorLog2 q.den : Int) - 1

/-- Rounding to the nearest integer, a tie going to the even one. -/
def roundNearestEven (x : ℚ) : Int :=
  if x - (⌊x⌋ : ℚ) < 1 / 2 then ⌊x⌋
  else if x - (⌊x⌋ : ℚ) > 1 / 2 then ⌊x⌋ + 1
  else if ⌊x⌋ % 2 = 0 then ⌊x⌋ else ⌊x⌋ + 1

/-- Rounding of a real value to the binary floating-point format with `p`
significant bits and least normal exponent `emin` (IEEE 754, round to nearest,
ties to even, subnormal numbers included): the nearest multiple of
`2 ^ (max e emin - (p - 1))`, `e` the binary exponent of the value.  Overflow
to infinity is not represented: a value beyond the largest finite number of the
format is rounded as if the exponent range had no upper end. -/
def roundBinary (p : Nat) (emin : Int) (q : ℚ) : ℚ :=
  if q = 0 then 0
  else (roundNearestEven (q / (2 : ℚ) ^ (max (ilog2 q) emin - ((p : Int) - 1))) : ℚ)
    * (2 : ℚ) ^ (max (ilog2 q) emin - ((p : Int) - 1))

/-- The rounding of one `float` operation (IEEE binary32). -/
def roundFloat (q : ℚ) : ℚ := roundBinary 24 (-126) q

/-- The rounding of one `double` operation (IEEE binary64). -/
def roundDouble (q : ℚ) : ℚ := roundBinary 53 (-1022) q

/-- The value of a 32-bit `int` product: the exact product reduced to the range
`-2^31 .. 2^31 - 1` (two's complement wrap-around). -/
def wrapInt32 (x : Int) : Int := (x + 2 ^ 31) % 2 ^ 32 - 2 ^ 31

namespace Show_BOctTree

namespace Rounded

variable {P : Type}

/-- The variable `index` at step `iterator` of the sub-sampling loop:
`each = (T)POINTDIM * (T)((T)length / (T)l)` and
`index = (int)((T)iterator * each)`, every conversion to `T` and every operation
of `T` rounded by `rnd`. -/
def strideIndex (rnd : ℚ → ℚ) (POINTDIM length : Nat) (l : Int) (iterator : Nat) : Int :=
  toInt (rnd (rnd (iterator : ℚ)
    * rnd (rnd (POINTDIM : ℚ) * rnd (rnd (length : ℚ) / rnd (l : ℚ)))))

/-- The sub-sampling loop of lines 225-233, 288-296, 448-457 and 502-511 in the
arithmetic of `T`: for `iterator = 0 .. l - 1` the vertex
`p = point + index - index % POINTDIM`, the bucket point number
`(index - index % POINTDIM) / POINTDIM`.  A step whose `index` is negative or
beyond `INT_MAX`, or whose point number falls outside the bucket, sends nothing
here. -/
def strideSample (rnd : ℚ → ℚ) (POINTDIM : Nat) (pts : List P) (l : Int) : List P :=
  (List.range l.toNat).flatMap fun iterator =>
    if 0 ≤ strideIndex rnd POINTDIM pts.length l iterator
        ∧ strideIndex rnd POINTDIM pts.length l iterator ≤ INT_MAX then
      (pts[((strideIndex rnd POINTDIM pts.length l iterator
        - (strideIndex rnd POINTDIM pts.length l iterator).tmod POINTDIM).tdiv
          POINTDIM).toNat]?).toList
    else []

/-- Lines 221-222, 249-250 and 284-285:
`l = LOD2(...); l = max((int)(l*l*ratio), 0)` with `float ratio`: the 32-bit
`int` product `l*l`, its conversion to `float`, the `float` product with `ratio`
and the conversion `(int)` of the result, which truncates.  For a ratio in
`[0, 1]` and a product `l*l` that does not overflow the `float` product is in
the range of `int` (`rounded_scaledLOD2_le_INT_MAX`); outside that domain the C++
program has no defined result: the `int` product is taken with wrap-around
(`wrapInt32`) and the truncated value is kept as it is. -/
def scaledLOD2 (LOD2 : Vec3 → ℚ → Int) ( ratio : ℚ) (ccenter : Vec3) (size : ℚ) : Int :=
  max (toInt (roundFloat
    (roundFloat ((wrapInt32 (LOD2 ccenter (size / 2) * LOD2 ccenter (size / 2)) : Int) : ℚ)
      * ratio))) 0

mutual
/-- `displayOctTreeLOD2(ratio, node, center, size)` in the arithmetic of `T`. -/
def displayOctTreeLOD2 (rnd : ℚ → ℚ) (POINTDIM : Nat) (CubeInFrustum2 : Vec3 → ℚ → Int)
    (CubeInFrustum : Vec3 → ℚ → Bool) (LOD2 : Vec3 → ℚ → Int) ( ratio : ℚ) :
    bitoct P → Vec3 → ℚ → List P
  | .mk child, center, size =>
    octants.flatMap fun i =>
      displayOctTreeLOD2.child rnd POINTDIM CubeInFrustum2 CubeInFrustum LOD2 ratio
        (child i) (childcenter center size i) size
/-- The loop body of `displayOctTreeLOD2` (lines 216-254). -/
def displayOctTreeLOD2.child (rnd : ℚ → ℚ) (POINTDIM : Nat)
    (CubeInFrustum2 : Vec3 → ℚ → Int) (CubeInFrustum : Vec3 → ℚ → Bool)
    (LOD2 : Vec3 → ℚ → Int) ( ratio : ℚ) :
    bitunion P → Vec3 → ℚ → List P
  | .absent, _, _ => []
  | .points pts, ccenter, size =>
    let l := scaledLOD2 LOD2 ratio ccenter size
    if l > 1 then
      if (pts.length : Int) > l then strideSample rnd POINTDIM pts l
      else if (pts.length : Int) ≤ l then pts
      else []
    else firstPoint pts
  | .node n, ccenter, size =>
    let l := scaledLOD2 LOD2 ratio ccenter size
    if l > 0 then
      displayOctTreeCulledLOD2 rnd POINTDIM CubeInFrustum2 CubeInFrustum LOD2 ratio n ccenter
        (size / 2)
    else []
/-- `displayOctTreeCulledLOD2(ratio, node, center, size)` in the arithmetic of
`T`; the call of line 266 is written out as the body of `displayOctTreeLOD2`. -/
def displayOctTreeCulledLOD2 (rnd : ℚ → ℚ) (POINTDIM : Nat)
    (CubeInFrustum2 : Vec3 → ℚ → Int) (CubeInFrustum : Vec3 → ℚ → Bool)
    (LOD2 : Vec3 → ℚ → Int) ( ratio : ℚ) :
    bitoct P → Vec3 → ℚ → List P
  | .mk child, center, size =>
    if CubeInFrustum2 center size = 0 then []
    else if CubeInFrustum2 center size = 2 then
      octants.flatMap fun i =>
        displayOctTreeLOD2.child rnd POINTDIM CubeInFrustum2 CubeInFrustum LOD2 ratio
          (child i) (childcenter center size i) size
    else octants.flatMap fun i =>
      displayOctTreeCulledLOD2.child rnd POINTDIM CubeInFrustum2 CubeInFrustum LOD2 ratio
        (child i) (childcenter center size i) size
/-- The loop body of `displayOctTreeCulledLOD2` (lines 277-315). -/
def displayOctTreeCulledLOD2.child (rnd : ℚ → ℚ) (POINTDIM : Nat)
    (CubeInFrustum2 : Vec3 → ℚ → Int) (CubeInFrustum : Vec3 → ℚ → Bool)
    (LOD2 : Vec3 → ℚ → Int) ( ratio : ℚ) :
    bitunion P → Vec3 → ℚ → List P
  | .absent, _, _ => []
  | .points pts, ccenter, size =>
    if CubeInFrustum ccenter (size / 2) then
      let l := scaledLOD2 LOD2 ratio ccenter size
      if l ≠ 0 then
        if (pts.length : Int) > l then strideSample rnd POINTDIM pts l
        else if (pts.length : Int) ≤ l then pts
        else if l = 1 then firstPoint pts
        else []
      else []
    else []
  | .node n, ccenter, size =>
    displayOctTreeCulledLOD2 rnd POINTDIM CubeInFrustum2 CubeInFrustum LOD2 ratio n ccenter
      (size / 2)
end

mutual
/-- `displayOctTreeLOD(targetpts, node, center, size)` in the arithmetic of `T`. -/
def displayOctTreeLOD (rnd : ℚ → ℚ) (POINTDIM : Nat) (LOD : Vec3 → ℚ → Bool) :
    bitoct P → Int → Vec3 → ℚ → List P
  | .mk child, targetpts, center, size =>
    if targetpts ≤ 0 then []
    else
      let nc := POPCOUNT (bitoct.valid (.mk child))
      let newtargetpts : Int := if nc > 0 then targetpts.tdiv nc else targetpts
      if nc > 0 ∧ newtargetpts ≤ 0 then []
      else octants.flatMap fun i =>
        displayOctTreeLOD.child rnd POINTDIM LOD (child i) newtargetpts
          (childcenter center size i) size
/-- The loop body of `displayOctTreeLOD` (lines 486-516). -/
def displayOctTreeLOD.child (rnd : ℚ → ℚ) (POINTDIM : Nat) (LOD : Vec3 → ℚ → Bool) :
    bitunion P → Int → Vec3 → ℚ → List P
  | .absent, _, _, _ => []
  | .points pts, newtargetpts, ccenter, size =>
    if pts.length > 10 ∧ ¬ LOD ccenter (size / 2) then firstPoint pts
    else if (pts.length : Int) ≤ newtargetpts then pts
    else strideSample rnd POINTDIM pts newtargetpts
  | .node n, newtargetpts, ccenter, size =>
    displayOctTreeLOD rnd POINTDIM LOD n newtargetpts ccenter (size / 2)
end

mutual
/-- `displayOctTreeCulledLOD(targetpts, node, center, size)` in the arithmetic
of `T`. -/
def displayOctTreeCulledLOD (rnd : ℚ → ℚ) (POINTDIM : Nat)
    (CubeInFrustum2 : Vec3 → ℚ → Int) (CubeInFrustum : Vec3 → ℚ → Bool)
    (LOD : Vec3 → ℚ → Bool) :
    bitoct P → Int → Vec3 → ℚ → List P
  | .mk child, targetpts, center, size =>
    if targetpts ≤ 0 then []
    else if CubeInFrustum2 center size = 0 then []
    else if CubeInFrustum2 center size = 2 then
      displayOctTreeLOD rnd POINTDIM LOD (.mk child) targetpts center size
    else
      let nc := POPCOUNT (bitoct.valid (.mk child))
      let newtargetpts : Int := if nc > 0 then targetpts.tdiv nc else targetpts
      if nc > 0 ∧ newtargetpts ≤ 0 then []
      else octants.flatMap fun i =>
        displayOctTreeCulledLOD.child rnd POINTDIM CubeInFrustum2 CubeInFrustum LOD
          (child i) newtargetpts (childcenter center size i) size
/-- The loop body of `displayOctTreeCulledLOD` (lines 428-465). -/
def displayOctTreeCulledLOD.child (rnd : ℚ → ℚ) (POINTDIM : Nat)
    (CubeInFrustum2 : Vec3 → ℚ → Int) (CubeInFrustum : Vec3 → ℚ → Bool)
    (LOD : Vec3 → ℚ → Bool) :
    bitunion P → Int → Vec3 → ℚ → List P
  | .absent, _, _, _ => []
  | .points pts, newtargetpts, ccenter, size =>
    if CubeInFrustum ccenter (size / 2) then
      if pts.length > 10 ∧ ¬ LOD ccenter (size / 2) then firstPoint pts
      else if (pts.length : Int) ≤ newtargetpts then pts
      else strideSample rnd POINTDIM pts newtargetpts
    else []
  | .node n, newtargetpts, ccenter, size =>
    displayOctTreeCulledLOD rnd POINTDIM CubeInFrustum2 CubeInFrustum LOD n newtargetpts ccenter
      (size / 2)
end

end Rounded

end Show_BOctTree

/-! ## General lemmas -/

section lemmas
variable {P : Type}


theorem leafPoints_append (l₁ l₂ : List (LeafCell P)) :
    leafPoints (l₁ ++ l₂) = leafPoints l₁ ++ leafPoints l₂ := by
  simp [leafPoints]

theorem leafPoints_flatMap {ι : Type} (l : List ι) (g : ι → List (LeafCell P)) :
    leafPoints (l.flatMap g) = l.flatMap fun i => leafPoints (g i) := by
  induction l with
  | nil => rfl
  | cons a l ih => simp [List.flatMap_cons, leafPoints_append, ih]

theorem foldl_insert_eq [DecidableEq P] (pts : List P) (sel : Finset P) :
    pts.foldl (fun sel point => insert point sel) sel = sel ∪ pts.toFinset := by
  induction pts generalizing sel with
  | nil => simp
  | cons p ps ih =>
    rw [List.foldl_cons, ih]
    ext x
    simp only [Finset.mem_union, Finset.mem_insert, List.mem_toFinset, List.mem_cons]
    tauto

theorem foldl_union_flatMap [DecidableEq P] {ι : Type} (l : List ι)
    (f : Finset P → ι → Finset P) (g : ι → List P)
    (h : ∀ i sel, f sel i = sel ∪ (g i).toFinset) (sel : Finset P) :
    l.foldl f sel = sel ∪ (l.flatMap g).toFinset := by
  induction l generalizing sel with
  | nil => simp
  | cons a l ih =>
    rw [List.foldl_cons, ih, h]
    ext x
    simp only [Finset.mem_union, List.mem_toFinset, List.flatMap_cons, List.mem_append]
    tauto


theorem mem_foldl_iff [DecidableEq P] {ι : Type} (l : List ι) (f : Finset P → ι → Finset P)
    (G : ι → P → Prop) (h : ∀ i sel p, p ∈ f sel i ↔ p ∈ sel ∨ G i p)
    (sel : Finset P) (p : P) :
    p ∈ l.foldl f sel ↔ p ∈ sel ∨ ∃ i ∈ l, G i p := by
  induction l generalizing sel with
  | nil => simp
  | cons a l ih =>
    rw [List.foldl_cons, ih, h]
    simp only [List.mem_cons, exists_eq_or_imp]
    tauto

theorem mem_foldl_insert_if [DecidableEq P] (pts : List P) (c : P → Prop) [DecidablePred c]
    (sel : Finset P) (p : P) :
    p ∈ pts.foldl (fun sel point => if c point then insert point sel else sel) sel
      ↔ p ∈ sel ∨ (p ∈ pts ∧ c p) := by
  induction pts generalizing sel with
  | nil => simp
  | cons a l ih =>
    rw [List.foldl_cons, ih]
    by_cases ha : c a
    · simp only [ha, if_true, Finset.mem_insert, List.mem_cons]
      constructor
      · rintro ((rfl | h) | h)
        · exact Or.inr ⟨Or.inl rfl, ha⟩
        · exact Or.inl h
        · exact Or.inr ⟨Or.inr h.1, h.2⟩
      · rintro (h | ⟨rfl | h, hc⟩)
        · exact Or.inl (Or.inr h)
        · exact Or.inl (Or.inl rfl)
        · exact Or.inr ⟨h, hc⟩
    · simp only [ha, if_false, List.mem_cons]
      constructor
      · rintro (h | h)
        · exact Or.inl h
        · exact Or.inr ⟨Or.inr h.1, h.2⟩
      · rintro (h | ⟨rfl | h, hc⟩)
        · exact Or.inl h
        · exact absurd hc ha
        · exact Or.inr ⟨h, hc⟩

theorem flatMap_congr_mem {α β : Type} (l : List α) (f g : α → List β) (h : ∀ i ∈ l, f i = g i) :
    l.flatMap f = l.flatMap g := by
  induction l with
  | nil => rfl
  | cons a l ih =>
    rw [List.flatMap_cons, List.flatMap_cons, h a (List.mem_cons_self a l),
      ih fun i hi => h i (List.mem_cons_of_mem a hi)]

theorem length_flatMap_const_one {α β : Type} (l : List α) (f : α → List β)
    (h : ∀ a ∈ l, (f a).length = 1) : (l.flatMap f).length = l.length := by
  induction l with
  | nil => rfl
  | cons a l ih =>
    rw [List.flatMap_cons, List.length_append, h a (List.mem_cons_self a l),
      ih fun b hb => h b (List.mem_cons_of_mem a hb), List.length_cons]
    omega

theorem length_flatMap_le {α β γ : Type} (l : List α) (f : α → List β) (g : α → List γ)
    (h : ∀ a ∈ l, (f a).length ≤ (g a).length) :
    (l.flatMap f).length ≤ (l.flatMap g).length := by
  induction l with
  | nil => simp
  | cons a l ih =>
    rw [List.flatMap_cons, List.flatMap_cons, List.length_append, List.length_append]
    exact Nat.add_le_add (h a (List.mem_cons_self a l))
      (ih fun b hb => h b (List.mem_cons_of_mem a hb))


theorem mem_octants (i : Fin 8) : i ∈ octants := by
  revert i
  decide

theorem POPCOUNT_mask (b : Fin 8 → Bool) :
    POPCOUNT ((octants.map fun i => if b i then 2 ^ i.val else 0).sum)
      = (octants.filter fun i => b i).length := by
  have key : ∀ b0 b1 b2 b3 b4 b5 b6 b7 : Bool,
      POPCOUNT (([(0 : Fin 8), 1, 2, 3, 4, 5, 6, 7].map fun i =>
          if (![b0, b1, b2, b3, b4, b5, b6, b7] i) then 2 ^ i.val else 0).sum)
      = ([(0 : Fin 8), 1, 2, 3, 4, 5, 6, 7].filter fun i =>
          ![b0, b1, b2, b3, b4, b5, b6, b7] i).length := by
    decide
  have hb : b = ![b 0, b 1, b 2, b 3, b 4, b 5, b 6, b 7] := by
    funext i
    fin_cases i <;> rfl
  rw [hb]
  exact key (b 0) (b 1) (b 2) (b 3) (b 4) (b 5) (b 6) (b 7)

/-- `POPCOUNT(node.valid)` is the number of present children. -/
theorem POPCOUNT_valid {P : Type} (child : Fin 8 → bitunion P) :
    POPCOUNT (bitoct.valid (.mk child))
      = (octants.filter fun i => (child i).isValid).length := by
  rw [bitoct.valid]
  exact POPCOUNT_mask fun i => (child i).isValid


theorem toInt_eq_floor {q : ℚ} (hq : 0 ≤ q) : toInt q = ⌊q⌋ := by
  rw [toInt, Rat.floor_def, Int.tdiv_eq_ediv (Rat.num_nonneg.mpr hq) (Int.natCast_nonneg _)]

/-- The point number read by the sub-sampling loop at step `iterator`. -/
theorem strideSample_index_lt (POINTDIM L : Nat) (l : Int) (iterator : Nat)
    (hl : 0 < l) (hL : l < L) (hi : (iterator : Int) < l) :
    ((toInt ((iterator : ℚ) * ((POINTDIM : ℚ) * ((L : ℚ) / (l : ℚ))))
        - (toInt ((iterator : ℚ) * ((POINTDIM : ℚ) * ((L : ℚ) / (l : ℚ))))).tmod POINTDIM).tdiv
          POINTDIM).toNat < L := by
  have hLpos : 0 < L := by omega
  rcases Nat.eq_zero_or_pos POINTDIM with hD | hD
  · subst hD
    simp [toInt, hLpos]
  · have hlq : (0 : ℚ) < (l : ℚ) := by exact_mod_cast hl
    have hq0 : (0 : ℚ) ≤ (iterator : ℚ) * ((POINTDIM : ℚ) * ((L : ℚ) / (l : ℚ))) := by positivity
    have hqlt : (iterator : ℚ) * ((POINTDIM : ℚ) * ((L : ℚ) / (l : ℚ)))
        < ((POINTDIM * L : Nat) : ℚ) := by
      have hil : (iterator : ℚ) < (l : ℚ) := by exact_mod_cast hi
      have hDL : (0 : ℚ) < (POINTDIM : ℚ) * (L : ℚ) := by positivity
      have : (iterator : ℚ) * ((POINTDIM : ℚ) * ((L : ℚ) / (l : ℚ)))
          = ((POINTDIM : ℚ) * (L : ℚ)) * ((iterator : ℚ) / (l : ℚ)) := by
        field_simp
        ring
      rw [this]
      push_cast
      have hfrac : (iterator : ℚ) / (l : ℚ) < 1 := (div_lt_one hlq).mpr hil
      nlinarith
    rw [toInt_eq_floor hq0]
    set x : Int := ⌊(iterator : ℚ) * ((POINTDIM : ℚ) * ((L : ℚ) / (l : ℚ)))⌋ with hx
    have hx0 : 0 ≤ x := Int.floor_nonneg.mpr hq0
    have hxlt : x < (L : Int) * (POINTDIM : Int) := by
      have h1 : (x : ℚ) ≤ _ := Int.floor_le ((iterator : ℚ) * ((POINTDIM : ℚ) * ((L : ℚ) / (l : ℚ))))
      have h2 : (x : ℚ) < ((POINTDIM * L : Nat) : ℚ) := lt_of_le_of_lt h1 hqlt
      have h3 : x < ((POINTDIM * L : Nat) : Int) := by exact_mod_cast h2
      push_cast at h3
      linarith [mul_comm (L : Int) (POINTDIM : Int)]
    have hDpos : (0 : Int) < (POINTDIM : Int) := by exact_mod_cast hD
    rw [Int.tmod_eq_emod hx0 hDpos.le]
    have hsub : x - x % (POINTDIM : Int) = (POINTDIM : Int) * (x / (POINTDIM : Int)) := by
      have := Int.ediv_add_emod x (POINTDIM : Int)
      linarith
    have hsub0 : 0 ≤ x - x % (POINTDIM : Int) := by
      rw [hsub]
      exact mul_nonneg hDpos.le (Int.ediv_nonneg hx0 hDpos.le)
    rw [Int.tdiv_eq_ediv hsub0 hDpos.le, hsub, Int.mul_ediv_cancel_left _ hDpos.ne']
    rw [Int.toNat_lt (Int.ediv_nonneg hx0 hDpos.le)]
    exact Int.ediv_lt_of_lt_mul hDpos hxlt

/-- The sub-sampling loop sends exactly `l` points when `0 < l < length`. -/
theorem length_strideSample (POINTDIM : Nat) (pts : List P) (l : Int)
    (hl : 0 < l) (hL : l < pts.length) :
    (strideSample POINTDIM pts l).length = l.toNat := by
  unfold strideSample
  simp only
  rw [length_flatMap_const_one, List.length_range]
  intro iterator hit
  have hi : (iterator : Int) < l := by
    have := List.mem_range.mp hit
    omega
  have hlt := strideSample_index_lt POINTDIM pts.length l iterator hl hL hi
  rw [List.getElem?_eq_getElem hlt]
  rfl

theorem length_leafPoints (ls : List (LeafCell P)) :
    (leafPoints ls).length = (ls.map fun l => l.pts.length).sum := by
  induction ls with
  | nil => rfl
  | cons a l ih =>
    rw [show a :: l = [a] ++ l from rfl, leafPoints_append, List.length_append, ih]
    simp [leafPoints]

/-- The bucket point number read at step `iterator` of the sub-sampling loop is
the integer quotient `iterator * length / l`. -/
theorem strideSample_pointNumber (POINTDIM L : Nat) (l : Int) (iterator : Nat)
    (hD : 0 < POINTDIM) (hl : 0 < l) :
    ((toInt ((iterator : ℚ) * ((POINTDIM : ℚ) * ((L : ℚ) / (l : ℚ))))
        - (toInt ((iterator : ℚ) * ((POINTDIM : ℚ) * ((L : ℚ) / (l : ℚ))))).tmod POINTDIM).tdiv
          POINTDIM).toNat = iterator * L / l.toNat := by
  obtain ⟨K, rfl⟩ : ∃ K : Nat, l = (K : Int) := ⟨l.toNat, (Int.toNat_of_nonneg hl.le).symm⟩
  have hK : 0 < K := by exact_mod_cast hl
  have hKq : (K : ℚ) ≠ 0 := by positivity
  have hq : (iterator : ℚ) * ((POINTDIM : ℚ) * ((L : ℚ) / ((K : Int) : ℚ)))
      = (((iterator * POINTDIM * L : Nat) : Int) : ℚ) / (K : ℚ) := by
    push_cast
    field_simp
    ring
  have hq0 : (0 : ℚ) ≤ (iterator : ℚ) * ((POINTDIM : ℚ) * ((L : ℚ) / ((K : Int) : ℚ))) := by
    push_cast
    positivity
  rw [toInt_eq_floor hq0, hq, Rat.floor_intCast_div_natCast]
  have hx : ((iterator * POINTDIM * L : Nat) : Int) / (K : Int)
      = ((iterator * POINTDIM * L / K : Nat) : Int) := by
    norm_cast
  rw [hx]
  set x : Nat := iterator * POINTDIM * L / K with hxdef
  have hDpos : (0 : Int) < (POINTDIM : Int) := by exact_mod_cast hD
  rw [Int.tmod_eq_emod (Int.natCast_nonneg _) hDpos.le]
  have hsub : (x : Int) - (x : Int) % (POINTDIM : Int)
      = (POINTDIM : Int) * ((x : Int) / (POINTDIM : Int)) := by
    have := Int.ediv_add_emod (x : Int) (POINTDIM : Int)
    linarith
  have hsub0 : 0 ≤ (x : Int) - (x : Int) % (POINTDIM : Int) := by
    rw [hsub]
    exact mul_nonneg hDpos.le (Int.ediv_nonneg (Int.natCast_nonneg _) hDpos.le)
  rw [Int.tdiv_eq_ediv hsub0 hDpos.le, hsub, Int.mul_ediv_cancel_left _ hDpos.ne']
  have hcast : (x : Int) / (POINTDIM : Int) = ((x / POINTDIM : Nat) : Int) := by
    norm_cast
  rw [hcast, Int.toNat_natCast, Int.toNat_natCast, hxdef, Nat.div_div_eq_div_mul]
  have : iterator * POINTDIM * L = iterator * L * POINTDIM := by ring
  rw [this, Nat.mul_div_mul_right _ _ hD]

/-- The sub-sampling loop sends the bucket points number `i * length / l`,
`i = 0 .. l - 1`. -/
theorem strideSample_eq (POINTDIM : Nat) (pts : List P) (l : Int)
    (hD : 0 < POINTDIM) (hl : 0 < l) :
    strideSample POINTDIM pts l
      = (List.range l.toNat).flatMap fun i => (pts[i * pts.length / l.toNat]?).toList := by
  unfold strideSample
  simp only
  refine flatMap_congr_mem _ _ _ fun i _ => ?_
  rw [strideSample_pointNumber POINTDIM pts.length l i hD hl]

theorem stride_index_lt (L K i : Nat) (hi : i < K) : i * L / K < L ∨ L = 0 := by
  rcases Nat.eq_zero_or_pos L with h | h
  · exact Or.inr h
  · left
    apply Nat.div_lt_of_lt_mul
    exact Nat.mul_lt_mul_of_pos_right hi h

theorem stride_index_strictMono (L K i j : Nat) (hK : 0 < K) (hKL : K < L) (hij : i < j) :
    i * L / K < j * L / K := by
  have h1 : i * L / K + 1 = (i * L + K) / K := (Nat.add_div_right _ hK).symm
  have h2 : (i * L + K) / K ≤ j * L / K := by
    apply Nat.div_le_div_right
    have : (i + 1) * L ≤ j * L := Nat.mul_le_mul_right L hij
    nlinarith
  omega

theorem getElem?_flatMap_range_toList (pts : List P) (f : Nat → Nat) (n : Nat)
    (hf : ∀ i < n, f i < pts.length) (i : Nat) (hi : i < n) :
    ((List.range n).flatMap fun i => (pts[f i]?).toList)[i]? = pts[f i]? := by
  induction n with
  | zero => omega
  | succ n ih =>
    have hlen : ((List.range n).flatMap fun i => (pts[f i]?).toList).length = n := by
      rw [length_flatMap_const_one, List.length_range]
      intro a ha
      rw [List.getElem?_eq_getElem (hf a (by have := List.mem_range.mp ha; omega))]
      rfl
    rw [List.range_succ, List.flatMap_append, List.flatMap_singleton]
    rcases Nat.lt_succ_iff_lt_or_eq.mp hi with h | h
    · rw [List.getElem?_append_left (by omega)]
      exact ih (fun a ha => hf a (by omega)) h
    · subst h
      rw [List.getElem?_append_right (by omega), hlen, Nat.sub_self]
      cases pts[f i]? <;> rfl


theorem flatMap_toList_eq_filterMap {α : Type} (l : List α) (g : α → Option P) :
    (l.flatMap fun a => (g a).toList) = l.filterMap g := by
  induction l with
  | nil => rfl
  | cons a l ih =>
    rw [List.flatMap_cons, ih, List.filterMap_cons]
    cases g a <;> rfl

theorem firstPoint_eq_take (pts : List P) : firstPoint pts = pts.take 1 := by
  cases pts <;> simp [firstPoint]

theorem tdiv_nonpos_of_nonpos (a : Int) (c : Nat) (ha : a ≤ 0) : a.tdiv c ≤ 0 := by
  have h : a.tdiv c = -((-a).tdiv c) := by
    rw [Int.neg_tdiv, neg_neg]
  rw [h]
  have := Int.tdiv_nonneg (Int.neg_nonneg_of_nonpos ha) (Int.natCast_nonneg c)
  omega

theorem floor_stride_index (L : Nat) (k : Int) (i : Nat) (hk : 0 < k) :
    (⌊(i : ℚ) * (L : ℚ) / (k : ℚ)⌋).toNat = i * L / k.toNat := by
  obtain ⟨K, rfl⟩ : ∃ K : Nat, k = (K : Int) := ⟨k.toNat, (Int.toNat_of_nonneg hk.le).symm⟩
  have hq : (i : ℚ) * (L : ℚ) / ((K : Int) : ℚ) = (((i * L : Nat) : Int) : ℚ) / (K : ℚ) := by
    push_cast
    rfl
  rw [hq, Rat.floor_intCast_div_natCast]
  have hx : ((i * L : Nat) : Int) / (K : Int) = ((i * L / K : Nat) : Int) := by
    norm_cast
  rw [hx, Int.toNat_natCast, Int.toNat_natCast]


theorem flatMap_octants_single {α : Type} (f : Fin 8 → List α) (i : Fin 8)
    (h : ∀ j, j ≠ i → f j = []) : octants.flatMap f = f i := by
  have h0 : ∀ j : Fin 8, j ≠ i → f j = [] := h
  fin_cases i <;>
    simp [octants, List.flatMap_cons, h0 0, h0 1, h0 2, h0 3, h0 4, h0 5, h0 6, h0 7]


theorem strideSample_one (POINTDIM : Nat) (pts : List P) :
    strideSample POINTDIM pts 1 = firstPoint pts := by
  have hr : List.range 1 = [0] := rfl
  simp [strideSample, toInt, firstPoint, hr]


theorem le_foldl_max (l : List Nat) (a : Nat) :
    a ≤ l.foldl max a ∧ ∀ x ∈ l, x ≤ l.foldl max a := by
  induction l generalizing a with
  | nil => simp
  | cons b l ih =>
    rw [List.foldl_cons]
    obtain ⟨h1, h2⟩ := ih (max a b)
    refine ⟨le_trans (le_max_left a b) h1, ?_⟩
    intro x hx
    rcases List.mem_cons.mp hx with rfl | hx
    · exact le_trans (le_max_right a x) h1
    · exact h2 x hx

theorem foldl_max_le (l : List Nat) (a M : Nat) (ha : a ≤ M) (h : ∀ x ∈ l, x ≤ M) :
    l.foldl max a ≤ M := by
  induction l generalizing a with
  | nil => simpa using ha
  | cons b l ih =>
    rw [List.foldl_cons]
    exact ih (max a b) (max_le ha (h b (List.mem_cons_self b l)))
      fun x hx => h x (List.mem_cons_of_mem b hx)

theorem length_flatMap_le_mul {α β : Type} (l : List α) (f : α → List β) (p : α → Bool)
    (K : Nat) (h : ∀ a ∈ l, (f a).length ≤ K) (h0 : ∀ a ∈ l, p a = false → (f a).length = 0) :
    (l.flatMap f).length ≤ (l.filter p).length * K := by
  induction l with
  | nil => simp
  | cons a l ih =>
    have ih' := ih (fun b hb => h b (List.mem_cons_of_mem a hb))
      (fun b hb => h0 b (List.mem_cons_of_mem a hb))
    rw [List.flatMap_cons, List.length_append, List.filter_cons]
    by_cases hp : p a = true
    · rw [if_pos hp, List.length_cons, Nat.succ_mul]
      have := h a (List.mem_cons_self a l)
      omega
    · rw [if_neg hp]
      have := h0 a (List.mem_cons_self a l) (by simpa using hp)
      omega

/-- With no present child the maximum over the children is 0; otherwise it is
at most the number of present children times itself. -/
theorem foldl_max_le_count_mul {α : Type} (l : List α) (g : α → Nat) (p : α → Bool)
    (h0 : ∀ a ∈ l, p a = false → g a = 0) :
    (l.map g).foldl max 0 ≤ (l.filter p).length * (l.map g).foldl max 0 := by
  rcases Nat.eq_zero_or_pos (l.filter p).length with hc | hc
  · have hnil : l.filter p = [] := List.length_eq_zero.mp hc
    have hall : ∀ x ∈ l.map g, x ≤ 0 := by
      intro x hx
      obtain ⟨a, ha, rfl⟩ := List.mem_map.mp hx
      have hpa : ¬ p a = true := List.filter_eq_nil_iff.mp hnil a ha
      rw [h0 a ha (by simpa using hpa)]
    have := foldl_max_le (l.map g) 0 0 (le_refl 0) hall
    omega
  · exact Nat.le_mul_of_pos_left _ hc

theorem log2Fuel_eq_log (fuel n : Nat) (h : n ≤ fuel) : log2Fuel fuel n = Nat.log 2 n := by
  induction fuel generalizing n with
  | zero =>
    have : n = 0 := by omega
    subst this
    simp [log2Fuel]
  | succ fuel ih =>
    rw [log2Fuel]
    by_cases h2 : 2 ≤ n
    · rw [if_pos h2, ih (n / 2) (by omega), Nat.log_of_one_lt_of_le (by norm_num) h2]
    · rw [if_neg h2, Nat.log_of_lt (by omega)]

theorem floorLog2_eq_log (n : Nat) : floorLog2 n = Nat.log 2 n :=
  log2Fuel_eq_log n n le_rfl

theorem floorLog2_spec (n : Nat) (hn : 0 < n) :
    2 ^ floorLog2 n ≤ n ∧ n < 2 ^ (floorLog2 n + 1) := by
  rw [floorLog2_eq_log]
  exact ⟨Nat.pow_log_le_self 2 hn.ne', Nat.lt_pow_succ_log_self (by norm_num) n⟩

/-- The binary exponent brackets the value. -/
theorem ilog2_spec (q : ℚ) (hq : q ≠ 0) :
    (2 : ℚ) ^ ilog2 q ≤ |q| ∧ |q| < (2 : ℚ) ^ (ilog2 q + 1) := by
  have hnum : 0 < q.num.natAbs := Int.natAbs_pos.mpr (Rat.num_ne_zero.mpr hq)
  obtain ⟨ha1, ha2⟩ := floorLog2_spec q.num.natAbs hnum
  obtain ⟨hb1, hb2⟩ := floorLog2_spec q.den q.den_pos
  set a := floorLog2 q.num.natAbs
  set b := floorLog2 q.den
  have habs : |q| = (q.num.natAbs : ℚ) / (q.den : ℚ) := by
    calc |q| = |(q.num : ℚ) / (q.den : ℚ)| := by rw [Rat.num_div_den]
      _ = |(q.num : ℚ)| / (q.den : ℚ) := by rw [abs_div, Nat.abs_cast]
      _ = (q.num.natAbs : ℚ) / (q.den : ℚ) := by rw [Nat.cast_natAbs, Int.cast_abs]
  have hden : (0 : ℚ) < (q.den : ℚ) := by exact_mod_cast q.den_pos
  have ha1q : (2 : ℚ) ^ a ≤ (q.num.natAbs : ℚ) := by exact_mod_cast ha1
  have ha2q : (q.num.natAbs : ℚ) < (2 : ℚ) ^ (a + 1) := by exact_mod_cast ha2
  have hb1q : (2 : ℚ) ^ b ≤ (q.den : ℚ) := by exact_mod_cast hb1
  have hb2q : (q.den : ℚ) < (2 : ℚ) ^ (b + 1) := by exact_mod_cast hb2
  have h2 : (0 : ℚ) < 2 := by norm_num
  have hzsub : ∀ x y : Nat, (2 : ℚ) ^ ((x : Int) - (y : Int)) = (2 : ℚ) ^ x / (2 : ℚ) ^ y := by
    intro x y
    rw [zpow_sub₀ (by norm_num), zpow_natCast, zpow_natCast]
  unfold ilog2
  by_cases hc : (2 : ℚ) ^ ((a : Int) - (b : Int)) ≤ |q|
  · rw [if_pos hc]
    refine ⟨hc, ?_⟩
    have : ((a : Int) - (b : Int) + 1) = (((a + 1 : Nat) : Int) - (b : Int)) := by push_cast; ring
    rw [this, hzsub, habs, div_lt_div_iff₀ hden (by positivity)]
    calc (q.num.natAbs : ℚ) * 2 ^ b < 2 ^ (a + 1) * 2 ^ b := by
          apply mul_lt_mul_of_pos_right ha2q (by positivity)
      _ ≤ 2 ^ (a + 1) * (q.den : ℚ) := by
          apply mul_le_mul_of_nonneg_left hb1q (by positivity)
  · rw [if_neg hc]
    refine ⟨?_, ?_⟩
    · have : ((a : Int) - (b : Int) - 1) = ((a : Int) - ((b + 1 : Nat) : Int)) := by
        push_cast; ring
      rw [this, hzsub, habs, div_le_div_iff₀ (by positivity) hden]
      calc (2 : ℚ) ^ a * (q.den : ℚ) ≤ 2 ^ a * 2 ^ (b + 1) := by
            apply mul_le_mul_of_nonneg_left hb2q.le (by positivity)
        _ ≤ (q.num.natAbs : ℚ) * 2 ^ (b + 1) := by
            apply mul_le_mul_of_nonneg_right ha1q (by positivity)
    · have : ((a : Int) - (b : Int) - 1 + 1) = (a : Int) - (b : Int) := by ring
      rw [this]
      exact not_le.mp hc

theorem roundNearestEven_intCast (m : Int) : roundNearestEven (m : ℚ) = m := by
  unfold roundNearestEven
  rw [Int.floor_intCast, sub_self, if_pos (by norm_num)]

/-- A value that is a multiple of its unit in the last place is not changed. -/
theorem roundBinary_of_multiple (p : Nat) (emin : Int) (q : ℚ) (m : Int)
    (h : q / (2 : ℚ) ^ (max (ilog2 q) emin - ((p : Int) - 1)) = m) :
    roundBinary p emin q = q := by
  unfold roundBinary
  by_cases hq : q = 0
  · rw [if_pos hq, hq]
  · rw [if_neg hq, h, roundNearestEven_intCast, ← h]
    exact div_mul_cancel₀ _ (zpow_ne_zero _ (by norm_num))

/-- A natural number below `2 ^ p` is a number of the format. -/
theorem roundBinary_natCast (p : Nat) (emin : Int) (n : Nat) (hemin : emin ≤ 0)
    (hn : n < 2 ^ p) : roundBinary p emin (n : ℚ) = n := by
  rcases Nat.eq_zero_or_pos n with h0 | hpos
  · subst h0
    simp [roundBinary]
  have hq : (n : ℚ) ≠ 0 := by positivity
  obtain ⟨h1, h2⟩ := ilog2_spec (n : ℚ) hq
  rw [Nat.abs_cast] at h1 h2
  set e := ilog2 (n : ℚ) with he
  have he0 : 0 ≤ e := by
    by_contra hneg
    have hle : e + 1 ≤ 0 := by omega
    have : (2 : ℚ) ^ (e + 1) ≤ 2 ^ (0 : Int) := zpow_le_zpow_right₀ (by norm_num) hle
    have h1n : (1 : ℚ) ≤ (n : ℚ) := by exact_mod_cast hpos
    rw [zpow_zero] at this
    linarith
  have hep : e < p := by
    by_contra hge
    have hle : (p : Int) ≤ e := by omega
    have : (2 : ℚ) ^ (p : Int) ≤ 2 ^ e := zpow_le_zpow_right₀ (by norm_num) hle
    rw [zpow_natCast] at this
    have hnp : (n : ℚ) < (2 : ℚ) ^ p := by exact_mod_cast hn
    linarith
  obtain ⟨d, hd⟩ : ∃ d : Nat, (d : Int) = (p : Int) - 1 - e := ⟨((p : Int) - 1 - e).toNat, by omega⟩
  have hexp : max e emin - ((p : Int) - 1) = -(d : Int) := by
    rw [max_eq_left (by omega)]
    omega
  apply roundBinary_of_multiple p emin (n : ℚ) ((n * 2 ^ d : Nat) : Int)
  rw [← he, hexp, zpow_neg, zpow_natCast, div_inv_eq_mul]
  push_cast
  ring

theorem roundFloat_natCast (n : Nat) (hn : n < 2 ^ 24) : roundFloat (n : ℚ) = n :=
  roundBinary_natCast 24 (-126) n (by norm_num) hn

/-- Rounding keeps the sign of a non-negative value. -/
theorem roundBinary_nonneg (p : Nat) (emin : Int) (q : ℚ) (hq : 0 ≤ q) :
    0 ≤ roundBinary p emin q := by
  unfold roundBinary
  by_cases h0 : q = 0
  · rw [if_pos h0]
  · rw [if_neg h0]
    have hpos : (0 : ℚ) < (2 : ℚ) ^ (max (ilog2 q) emin - ((p : Int) - 1)) :=
      zpow_pos (by norm_num) _
    have hx : 0 ≤ q / (2 : ℚ) ^ (max (ilog2 q) emin - ((p : Int) - 1)) :=
      div_nonneg hq hpos.le
    have hfl : 0 ≤ ⌊q / (2 : ℚ) ^ (max (ilog2 q) emin - ((p : Int) - 1))⌋ :=
      Int.floor_nonneg.mpr hx
    have hr : 0 ≤ roundNearestEven (q / (2 : ℚ) ^ (max (ilog2 q) emin - ((p : Int) - 1))) := by
      unfold roundNearestEven
      split_ifs <;> omega
    exact mul_nonneg (by exact_mod_cast hr) hpos.le

theorem roundFloat_nonneg (q : ℚ) (hq : 0 ≤ q) : 0 ≤ roundFloat q :=
  roundBinary_nonneg 24 (-126) q hq

theorem toInt_natCast (n : Nat) : toInt (n : ℚ) = n := by
  simp [toInt]

/-- The bucket point number of a non-negative `index`. -/
theorem pointNumber_eq (x : Int) (POINTDIM : Nat) (hx : 0 ≤ x) (hD : 0 < POINTDIM) :
    ((x - x.tmod POINTDIM).tdiv POINTDIM).toNat = (x / (POINTDIM : Int)).toNat := by
  have hDpos : (0 : Int) < (POINTDIM : Int) := by exact_mod_cast hD
  rw [Int.tmod_eq_emod hx hDpos.le]
  have hsub : x - x % (POINTDIM : Int) = (POINTDIM : Int) * (x / (POINTDIM : Int)) := by
    have := Int.ediv_add_emod x (POINTDIM : Int)
    linarith
  have hsub0 : 0 ≤ x - x % (POINTDIM : Int) := by
    rw [hsub]
    exact mul_nonneg hDpos.le (Int.ediv_nonneg hx hDpos.le)
  rw [Int.tdiv_eq_ediv hsub0 hDpos.le, hsub, Int.mul_ediv_cancel_left _ hDpos.ne']

/-- When every step has an `index` in `0 .. INT_MAX`, the loop reads the bucket
points number `index / POINTDIM`. -/
theorem rounded_strideSample_eq (rnd : ℚ → ℚ) (POINTDIM : Nat) (pts : List P)
    (l : Int) (hD : 0 < POINTDIM)
    (hin : ∀ j < l.toNat, 0 ≤ Show_BOctTree.Rounded.strideIndex rnd POINTDIM pts.length l j
      ∧ Show_BOctTree.Rounded.strideIndex rnd POINTDIM pts.length l j ≤ INT_MAX) :
    Show_BOctTree.Rounded.strideSample rnd POINTDIM pts l
      = (List.range l.toNat).flatMap fun j =>
          (pts[(Show_BOctTree.Rounded.strideIndex rnd POINTDIM pts.length l j
            / (POINTDIM : Int)).toNat]?).toList := by
  unfold Show_BOctTree.Rounded.strideSample
  refine flatMap_congr_mem _ _ _ fun j hj => ?_
  have h := hin j (List.mem_range.mp hj)
  rw [if_pos h, pointNumber_eq _ POINTDIM h.1 hD]

/-- In exact arithmetic the `index` of step `iterator < l` is in
`0 .. POINTDIM * length - 1`. -/
theorem exact_strideIndex_bounds (POINTDIM L : Nat) (l : Int) (iterator : Nat)
    (hD : 0 < POINTDIM) (hl : 0 < l) (hL : 0 < L) (hi : (iterator : Int) < l) :
    0 ≤ toInt ((iterator : ℚ) * ((POINTDIM : ℚ) * ((L : ℚ) / (l : ℚ))))
      ∧ toInt ((iterator : ℚ) * ((POINTDIM : ℚ) * ((L : ℚ) / (l : ℚ))))
          < (POINTDIM : Int) * (L : Int) := by
  have hlq : (0 : ℚ) < (l : ℚ) := by exact_mod_cast hl
  have hq0 : (0 : ℚ) ≤ (iterator : ℚ) * ((POINTDIM : ℚ) * ((L : ℚ) / (l : ℚ))) := by
    positivity
  have hqlt : (iterator : ℚ) * ((POINTDIM : ℚ) * ((L : ℚ) / (l : ℚ)))
      < (((POINTDIM : Int) * (L : Int) : Int) : ℚ) := by
    have hil : (iterator : ℚ) < (l : ℚ) := by exact_mod_cast hi
    have hDL : (0 : ℚ) < (POINTDIM : ℚ) * (L : ℚ) := by positivity
    have : (iterator : ℚ) * ((POINTDIM : ℚ) * ((L : ℚ) / (l : ℚ)))
        = ((POINTDIM : ℚ) * (L : ℚ)) * ((iterator : ℚ) / (l : ℚ)) := by
      field_simp
      ring
    rw [this]
    push_cast
    have hfrac : (iterator : ℚ) / (l : ℚ) < 1 := (div_lt_one hlq).mpr hil
    nlinarith
  rw [toInt_eq_floor hq0]
  exact ⟨Int.floor_nonneg.mpr hq0, Int.floor_lt.mpr hqlt⟩

/-- With exact operations (`rnd = id`) the loop in the arithmetic of `T` is the
loop over the rationals, for a bucket of less than `2^31` scalars. -/
theorem rounded_strideSample_id (POINTDIM : Nat) (pts : List P) (l : Int)
    (hD : 0 < POINTDIM) (hmax : (POINTDIM : Int) * (pts.length : Int) ≤ INT_MAX) :
    Show_BOctTree.Rounded.strideSample id POINTDIM pts l = strideSample POINTDIM pts l := by
  unfold Show_BOctTree.Rounded.strideSample strideSample
  refine flatMap_congr_mem _ _ _ fun j hj => ?_
  have hj' := List.mem_range.mp hj
  have hl : 0 < l := by omega
  have hi : (j : Int) < l := by omega
  show (if 0 ≤ toInt ((j : ℚ) * ((POINTDIM : ℚ) * ((pts.length : ℚ) / (l : ℚ))))
      ∧ toInt ((j : ℚ) * ((POINTDIM : ℚ) * ((pts.length : ℚ) / (l : ℚ)))) ≤ INT_MAX then _
    else _) = _
  rcases Nat.eq_zero_or_pos pts.length with h0 | hL
  · have hnil : pts = [] := List.length_eq_zero.mp h0
    subst hnil
    simp
  · have hb := exact_strideIndex_bounds POINTDIM pts.length l j hD hl hL hi
    rw [if_pos ⟨hb.1, by omega⟩]
    rfl

/-- When `l` divides the bucket length and `rnd` keeps the natural numbers up to
`POINTDIM * length`, every operation of the loop is exact: the `index` of step
`j < l` is `POINTDIM * (j * (length / l))`. -/
theorem rounded_strideIndex_of_dvd (rnd : ℚ → ℚ) (POINTDIM L K j : Nat)
    (hrnd : ∀ n : Nat, n ≤ POINTDIM * L → rnd (n : ℚ) = n)
    (hD : 0 < POINTDIM) (hK : 0 < K) (hL : 0 < L) (hdvd : K ∣ L) (hj : j < K) :
    Show_BOctTree.Rounded.strideIndex rnd POINTDIM L (K : Int) j
      = ((POINTDIM * (j * (L / K)) : Nat) : Int) := by
  obtain ⟨m, rfl⟩ := hdvd
  have hm : 0 < m := by
    rcases Nat.eq_zero_or_pos m with h | h
    · subst h; omega
    · exact h
  have hKm : K * m / K = m := Nat.mul_div_cancel_left m hK
  have hKq : (K : ℚ) ≠ 0 := by positivity
  have h1 : K ≤ POINTDIM * (K * m) := by nlinarith
  have h2 : POINTDIM ≤ POINTDIM * (K * m) := by nlinarith
  have h3 : K * m ≤ POINTDIM * (K * m) := by nlinarith
  have h4 : m ≤ POINTDIM * (K * m) := by nlinarith
  have h5 : POINTDIM * m ≤ POINTDIM * (K * m) := by nlinarith
  have h6 : j * (POINTDIM * m) ≤ POINTDIM * (K * m) := by
    have : j * (POINTDIM * m) ≤ K * (POINTDIM * m) := Nat.mul_le_mul_right _ hj.le
    nlinarith
  have hdiv : ((K * m : Nat) : ℚ) / (K : ℚ) = (m : ℚ) := by
    push_cast
    field_simp
  have hmul1 : (POINTDIM : ℚ) * (m : ℚ) = ((POINTDIM * m : Nat) : ℚ) := by push_cast; ring
  have hmul2 : (j : ℚ) * ((POINTDIM * m : Nat) : ℚ) = ((j * (POINTDIM * m) : Nat) : ℚ) := by
    push_cast; ring
  unfold Show_BOctTree.Rounded.strideIndex
  rw [Int.cast_natCast, hrnd j (by omega), hrnd POINTDIM h2, hrnd (K * m) h3, hrnd K h1, hdiv,
    hrnd m h4, hmul1, hrnd _ h5, hmul2, hrnd _ h6, toInt_natCast, hKm]
  congr 1
  ring

/-- When every step of the loop has its `index` in `0 .. INT_MAX` and inside the
bucket, the point sent at step `i` is the bucket point number
`index / POINTDIM`. -/
theorem rounded_strideSample_getElem? (rnd : ℚ → ℚ) (POINTDIM : Nat) (pts : List P)
    (l : Int) (hD : 0 < POINTDIM)
    (hin : ∀ j < l.toNat, 0 ≤ Show_BOctTree.Rounded.strideIndex rnd POINTDIM pts.length l j
      ∧ Show_BOctTree.Rounded.strideIndex rnd POINTDIM pts.length l j ≤ INT_MAX
      ∧ Show_BOctTree.Rounded.strideIndex rnd POINTDIM pts.length l j
          < (POINTDIM : Int) * (pts.length : Int))
    (i : Nat) (hi : i < l.toNat) :
    (Show_BOctTree.Rounded.strideIndex rnd POINTDIM pts.length l i / (POINTDIM : Int)).toNat
        < pts.length
      ∧ (Show_BOctTree.Rounded.strideSample rnd POINTDIM pts l)[i]?
        = pts[(Show_BOctTree.Rounded.strideIndex rnd POINTDIM pts.length l i
            / (POINTDIM : Int)).toNat]? := by
  have hDpos : (0 : Int) < (POINTDIM : Int) := by exact_mod_cast hD
  have hlt : ∀ j < l.toNat,
      (Show_BOctTree.Rounded.strideIndex rnd POINTDIM pts.length l j / (POINTDIM : Int)).toNat
        < pts.length := by
    intro j hj
    obtain ⟨h0, _, h2⟩ := hin j hj
    rw [Int.toNat_lt (Int.ediv_nonneg h0 hDpos.le)]
    exact Int.ediv_lt_of_lt_mul hDpos (by linarith [mul_comm (POINTDIM : Int) (pts.length : Int)])
  refine ⟨hlt i hi, ?_⟩
  rw [rounded_strideSample_eq rnd POINTDIM pts l hD fun j hj => ⟨(hin j hj).1, (hin j hj).2.1⟩]
  exact getElem?_flatMap_range_toList pts
    (fun j => (Show_BOctTree.Rounded.strideIndex rnd POINTDIM pts.length l j
      / (POINTDIM : Int)).toNat) l.toNat hlt i hi

/-- When the budget `K` divides the bucket length and `rnd` keeps the natural
numbers up to `POINTDIM * length`, the point sent at step `i` is the bucket
point number `i * length / K`. -/
theorem rounded_strideSample_of_dvd (rnd : ℚ → ℚ) (POINTDIM : Nat) (pts : List P) (K : Nat)
    (hrnd : ∀ n : Nat, n ≤ POINTDIM * pts.length → rnd (n : ℚ) = n)
    (hD : 0 < POINTDIM) (hK : 0 < K)
    (hmax : (POINTDIM : Int) * (pts.length : Int) ≤ INT_MAX) (hdvd : K ∣ pts.length)
    (hL : 0 < pts.length) (i : Nat) (hi : i < K) :
    (Show_BOctTree.Rounded.strideSample rnd POINTDIM pts (K : Int))[i]?
      = pts[i * pts.length / K]? := by
  have hidx : ∀ j < K, Show_BOctTree.Rounded.strideIndex rnd POINTDIM pts.length (K : Int) j
      = ((POINTDIM * (j * (pts.length / K)) : Nat) : Int) := fun j hj =>
    rounded_strideIndex_of_dvd rnd POINTDIM pts.length K j hrnd hD hK hL hdvd hj
  have hlt : ∀ j < K, POINTDIM * (j * (pts.length / K)) < POINTDIM * pts.length := by
    intro j hj
    apply Nat.mul_lt_mul_of_pos_left _ hD
    calc j * (pts.length / K) < K * (pts.length / K) :=
          Nat.mul_lt_mul_of_pos_right hj (Nat.div_pos (Nat.le_of_dvd hL hdvd) hK)
      _ = pts.length := Nat.mul_div_cancel' hdvd
  have hin : ∀ j < (K : Int).toNat,
      0 ≤ Show_BOctTree.Rounded.strideIndex rnd POINTDIM pts.length (K : Int) j
      ∧ Show_BOctTree.Rounded.strideIndex rnd POINTDIM pts.length (K : Int) j ≤ INT_MAX
      ∧ Show_BOctTree.Rounded.strideIndex rnd POINTDIM pts.length (K : Int) j
          < (POINTDIM : Int) * (pts.length : Int) := by
    intro j hj
    rw [Int.toNat_natCast] at hj
    have h := hlt j hj
    have hc : ((POINTDIM * (j * (pts.length / K)) : Nat) : Int)
        < (POINTDIM : Int) * (pts.length : Int) := by exact_mod_cast h
    rw [hidx j hj]
    exact ⟨Int.natCast_nonneg _, by omega, hc⟩
  rw [(rounded_strideSample_getElem? rnd POINTDIM pts (K : Int) hD hin i
    (by rw [Int.toNat_natCast]; exact hi)).2, hidx i hi]
  congr 2
  have : ((POINTDIM * (i * (pts.length / K)) : Nat) : Int) / (POINTDIM : Int)
      = ((POINTDIM * (i * (pts.length / K)) / POINTDIM : Nat) : Int) := by norm_cast
  rw [this, Int.toNat_natCast, Nat.mul_div_cancel_left _ hD, Nat.mul_div_assoc i hdvd]

/-- With exact operations the point sent at step `i` is the bucket point number
`floor (i * length / l)`. -/
theorem rounded_strideSample_of_exact (rnd : ℚ → ℚ) (POINTDIM : Nat) (pts : List P) (l : Int)
    (hrnd : ∀ x : ℚ, rnd x = x) (hD : 0 < POINTDIM) (hl : 0 < l)
    (hmax : (POINTDIM : Int) * (pts.length : Int) ≤ INT_MAX) (hL : 0 < pts.length)
    (i : Nat) (hi : (i : Int) < l) :
    (Show_BOctTree.Rounded.strideSample rnd POINTDIM pts l)[i]?
      = pts[(⌊(i : ℚ) * (pts.length : ℚ) / (l : ℚ)⌋).toNat]? := by
  have hidx : ∀ j : Nat, Show_BOctTree.Rounded.strideIndex rnd POINTDIM pts.length l j
      = toInt ((j : ℚ) * ((POINTDIM : ℚ) * ((pts.length : ℚ) / (l : ℚ)))) := by
    intro j
    unfold Show_BOctTree.Rounded.strideIndex
    simp only [hrnd]
  have hin : ∀ j < l.toNat,
      0 ≤ Show_BOctTree.Rounded.strideIndex rnd POINTDIM pts.length l j
      ∧ Show_BOctTree.Rounded.strideIndex rnd POINTDIM pts.length l j ≤ INT_MAX
      ∧ Show_BOctTree.Rounded.strideIndex rnd POINTDIM pts.length l j
          < (POINTDIM : Int) * (pts.length : Int) := by
    intro j hj
    have hb := exact_strideIndex_bounds POINTDIM pts.length l j hD hl hL (by omega)
    rw [hidx j]
    exact ⟨hb.1, by omega, hb.2⟩
  rw [(rounded_strideSample_getElem? rnd POINTDIM pts l hD hin i (by omega)).2,
    ← pointNumber_eq _ POINTDIM (hin i (by omega)).1 hD, hidx i,
    strideSample_pointNumber POINTDIM pts.length l i hD hl, floor_stride_index pts.length l i hl]

/-- A product inside the range of `int` is not changed by the wrap-around. -/
theorem wrapInt32_eq (x : Int) (h0 : -2147483648 ≤ x) (h1 : x ≤ INT_MAX) : wrapInt32 x = x := by
  unfold wrapInt32
  unfold INT_MAX at h1
  norm_num
  omega

/-- The square of an integer whose square is below `2^24` is a `float`. -/
theorem roundFloat_sq (f : Int) (h : f * f < 2 ^ 24) :
    roundFloat ((f * f : Int) : ℚ) = ((f * f : Int) : ℚ) := by
  have hnat : f * f = ((f.natAbs * f.natAbs : Nat) : Int) := by
    rw [Nat.cast_mul, Int.natAbs_mul_self']
  have hlt : f.natAbs * f.natAbs < 2 ^ 24 := by
    have : ((f.natAbs * f.natAbs : Nat) : Int) < 2 ^ 24 := by rw [← hnat]; exact h
    exact_mod_cast this
  rw [hnat, Int.cast_natCast]
  exact roundFloat_natCast _ hlt
theorem roundNearestEven_sub_le (x : ℚ) : |(roundNearestEven x : ℚ) - x| ≤ 1 / 2 := by
  have h1 := Int.floor_le x
  have h2 := Int.lt_floor_add_one x
  unfold roundNearestEven
  split_ifs with ha hb hc
  · rw [abs_le]; constructor <;> linarith
  · rw [abs_le]; push_cast; constructor <;> linarith
  · rw [abs_le]; constructor <;> linarith
  · rw [abs_le]; push_cast; constructor <;> linarith

/-- The rounding error is at most half a unit in the last place. -/
theorem roundBinary_abs_sub_le (p : Nat) (emin : Int) (q : ℚ) :
    |roundBinary p emin q - q| ≤ (2 : ℚ) ^ (max (ilog2 q) emin - ((p : Int) - 1)) / 2 := by
  have hpos : (0 : ℚ) < (2 : ℚ) ^ (max (ilog2 q) emin - ((p : Int) - 1)) :=
    zpow_pos (by norm_num) _
  unfold roundBinary
  by_cases h0 : q = 0
  · rw [if_pos h0, h0, sub_zero, abs_zero]
    positivity
  · rw [if_neg h0]
    set u := (2 : ℚ) ^ (max (ilog2 q) emin - ((p : Int) - 1)) with hu
    have h := roundNearestEven_sub_le (q / u)
    have : (roundNearestEven (q / u) : ℚ) * u - q = ((roundNearestEven (q / u) : ℚ) - q / u) * u := by
      field_simp
    rw [this, abs_mul, abs_of_pos hpos]
    calc |(roundNearestEven (q / u) : ℚ) - q / u| * u ≤ 1 / 2 * u :=
          mul_le_mul_of_nonneg_right h hpos.le
      _ = u / 2 := by ring

/-- For a non-negative value the rounding adds at most the fraction `2 ^ (-p)`
of the value and `2 ^ (emin - p)`. -/
theorem roundBinary_le (p : Nat) (emin : Int) (q : ℚ) (hq : 0 ≤ q) :
    roundBinary p emin q
      ≤ q + q * (2 : ℚ) ^ (-(p : Int)) + (2 : ℚ) ^ (emin - (p : Int)) := by
  rcases eq_or_lt_of_le hq with h0 | hpos
  · rw [← h0]
    have : roundBinary p emin 0 = 0 := by simp [roundBinary]
    rw [this]
    positivity
  have h := roundBinary_abs_sub_le p emin q
  have hle : roundBinary p emin q - q
      ≤ (2 : ℚ) ^ (max (ilog2 q) emin - ((p : Int) - 1)) / 2 :=
    le_trans (le_abs_self _) h
  have hhalf : ∀ e : Int, (2 : ℚ) ^ (e - ((p : Int) - 1)) / 2 = (2 : ℚ) ^ (e - (p : Int)) := by
    intro e
    have : e - ((p : Int) - 1) = (e - (p : Int)) + 1 := by ring
    rw [this, zpow_add_one₀ (by norm_num)]
    ring
  have hu : (2 : ℚ) ^ (max (ilog2 q) emin - ((p : Int) - 1)) / 2
      ≤ q * (2 : ℚ) ^ (-(p : Int)) + (2 : ℚ) ^ (emin - (p : Int)) := by
    rw [hhalf]
    rcases le_total (ilog2 q) emin with he | he
    · rw [max_eq_right he]
      have : 0 ≤ q * (2 : ℚ) ^ (-(p : Int)) := by positivity
      linarith
    · rw [max_eq_left he]
      have hs := (ilog2_spec q hpos.ne').1
      rw [abs_of_pos hpos] at hs
      have : (2 : ℚ) ^ (ilog2 q - (p : Int)) = (2 : ℚ) ^ (ilog2 q) * (2 : ℚ) ^ (-(p : Int)) := by
        rw [sub_eq_add_neg, zpow_add₀ (by norm_num)]
      rw [this]
      have h1 : (2 : ℚ) ^ (ilog2 q) * (2 : ℚ) ^ (-(p : Int)) ≤ q * (2 : ℚ) ^ (-(p : Int)) :=
        mul_le_mul_of_nonneg_right hs (by positivity)
      have : (0 : ℚ) ≤ (2 : ℚ) ^ (emin - (p : Int)) := by positivity
      linarith
  linarith [hle.trans hu]

/-- For a non-negative value the rounding of `float` adds at most the fraction
`2 ^ (-24)` of the value and `2 ^ (-150)`. -/
theorem roundFloat_le (q : ℚ) (hq : 0 ≤ q) :
    roundFloat q ≤ q + q * (2 : ℚ) ^ (-24 : Int) + (2 : ℚ) ^ (-150 : Int) := by
  have h := roundBinary_le 24 (-126) q hq
  have h1 : (-((24 : Nat) : Int)) = (-24 : Int) := by norm_num
  have h2 : ((-126 : Int) - ((24 : Nat) : Int)) = (-150 : Int) := by norm_num
  rw [h1, h2] at h
  exact h

theorem roundDouble_natCast (n : Nat) (hn : n < 2 ^ 24) : roundDouble (n : ℚ) = n :=
  roundBinary_natCast 53 (-1022) n (by norm_num)
    (lt_of_lt_of_le hn (Nat.pow_le_pow_right (by norm_num) (by norm_num)))

theorem roundDouble_nonneg (q : ℚ) (hq : 0 ≤ q) : 0 ≤ roundDouble q :=
  roundBinary_nonneg 53 (-1022) q hq

/-- The bound of `roundFloat_le` holds for `double` as well. -/
theorem roundDouble_le (q : ℚ) (hq : 0 ≤ q) :
    roundDouble q ≤ q + q * (2 : ℚ) ^ (-24 : Int) + (2 : ℚ) ^ (-150 : Int) := by
  have h := roundBinary_le 53 (-1022) q hq
  have h1 : (2 : ℚ) ^ (-((53 : Nat) : Int)) ≤ (2 : ℚ) ^ (-24 : Int) :=
    zpow_le_zpow_right₀ (by norm_num) (by norm_num)
  have h2 : (2 : ℚ) ^ ((-1022 : Int) - ((53 : Nat) : Int)) ≤ (2 : ℚ) ^ (-150 : Int) :=
    zpow_le_zpow_right₀ (by norm_num) (by norm_num)
  have h3 : q * (2 : ℚ) ^ (-((53 : Nat) : Int)) ≤ q * (2 : ℚ) ^ (-24 : Int) :=
    mul_le_mul_of_nonneg_left h1 hq
  unfold roundDouble
  linarith

/-- For a footprint whose square does not overflow and a ratio in `[0, 1]` the
`float` product of the mode 1 budget is in the range of `int`, so that the
conversion `(int)` is defined. -/
theorem rounded_scaledLOD2_le_INT_MAX (LOD2 : Vec3 → ℚ → Int) ( ratio : ℚ) (ccenter : Vec3)
    (size : ℚ) (hmax : LOD2 ccenter (size / 2) * LOD2 ccenter (size / 2) ≤ INT_MAX)
    (h0 : 0 ≤ ratio) (h1 : ratio ≤ 1) :
    Show_BOctTree.Rounded.scaledLOD2 LOD2 ratio ccenter size ≤ INT_MAX := by
  set f := LOD2 ccenter (size / 2) with hf
  have hsq0 : (0 : Int) ≤ f * f := mul_self_nonneg _
  have hW : f * f ≤ 2147395600 := by
    unfold INT_MAX at hmax
    by_contra hcon
    rcases le_or_lt 46341 f with h | h
    · nlinarith
    · rcases le_or_lt f (-46341) with h' | h'
      · nlinarith
      · nlinarith
  have hWq : ((f * f : Int) : ℚ) ≤ 2147395600 := by exact_mod_cast hW
  have hW0 : (0 : ℚ) ≤ ((f * f : Int) : ℚ) := by exact_mod_cast hsq0
  have ha0 := roundFloat_nonneg _ hW0
  have ha := roundFloat_le _ hW0
  have hx0 : (0 : ℚ) ≤ roundFloat ((f * f : Int) : ℚ) * ratio := mul_nonneg ha0 h0
  have hx : roundFloat ((f * f : Int) : ℚ) * ratio ≤ roundFloat ((f * f : Int) : ℚ) :=
    mul_le_of_le_one_right ha0 h1
  have hb := roundFloat_le _ hx0
  have hb0 := roundFloat_nonneg _ hx0
  have he1 : (2 : ℚ) ^ (-24 : Int) = 1 / 16777216 := by norm_num
  have he2 : (2 : ℚ) ^ (-150 : Int) ≤ 1 := by
    rw [zpow_neg]
    exact inv_le_one_of_one_le₀ (one_le_zpow₀ (by norm_num) (by norm_num))
  rw [he1] at ha hb
  unfold Show_BOctTree.Rounded.scaledLOD2
  rw [wrapInt32_eq _ (by omega) hmax, toInt_eq_floor hb0]
  apply max_le _ (by unfold INT_MAX; norm_num)
  have : ⌊roundFloat (roundFloat ((f * f : Int) : ℚ) * ratio)⌋ < 2147483648 := by
    rw [Int.floor_lt]
    push_cast
    push_cast at ha hb hWq hx
    linarith
  unfold INT_MAX
  omega

/-- For a rounding that keeps the natural numbers below `2^24`, keeps the sign
and adds at most the fraction `2 ^ (-24)` and `2 ^ (-150)` (properties of
`float`, and of `double`), a bucket of less than `2^24` scalars and a budget of
at most `2^22` below the bucket length: the `index` of every step is in
`0 .. INT_MAX` and inside the bucket. -/
theorem rounded_strideIndex_inBucket (rnd : ℚ → ℚ) (POINTDIM L K j : Nat)
    (hnat : ∀ n : Nat, n < 2 ^ 24 → rnd (n : ℚ) = n)
    (hnn : ∀ x : ℚ, 0 ≤ x → 0 ≤ rnd x)
    (hle : ∀ x : ℚ, 0 ≤ x → rnd x ≤ x + x * (2 : ℚ) ^ (-24 : Int) + (2 : ℚ) ^ (-150 : Int))
    (hD : 0 < POINTDIM) (hK : 0 < K) (hKL : K < L) (hPL : POINTDIM * L < 2 ^ 24)
    (hKmax : K ≤ 2 ^ 22) (hj : j < K) :
    0 ≤ Show_BOctTree.Rounded.strideIndex rnd POINTDIM L (K : Int) j
      ∧ Show_BOctTree.Rounded.strideIndex rnd POINTDIM L (K : Int) j ≤ INT_MAX
      ∧ Show_BOctTree.Rounded.strideIndex rnd POINTDIM L (K : Int) j
          < (POINTDIM : Int) * (L : Int) := by
  have hLlt : L < 2 ^ 24 := by nlinarith
  have hPlt : POINTDIM < 2 ^ 24 := by nlinarith
  have hKq : (0 : ℚ) < (K : ℚ) := by exact_mod_cast hK
  have hPq : (1 : ℚ) ≤ (POINTDIM : ℚ) := by exact_mod_cast hD
  have hP24 : (POINTDIM : ℚ) ≤ 16777216 := by exact_mod_cast hPlt.le
  have hK22 : (K : ℚ) ≤ 4194304 := by exact_mod_cast hKmax
  have hK1 : (1 : ℚ) ≤ (K : ℚ) := by exact_mod_cast hK
  have hj1 : (j : ℚ) + 1 ≤ (K : ℚ) := by exact_mod_cast hj
  have hj0 : (0 : ℚ) ≤ (j : ℚ) := by positivity
  have hKLq : (K : ℚ) ≤ (L : ℚ) := by exact_mod_cast hKL.le
  have he1 : (2 : ℚ) ^ (-24 : Int) = 1 / 16777216 := by norm_num
  have he2 : (2 : ℚ) ^ (-150 : Int) ≤ 1 / 1152921504606846976 := by
    rw [show (1 : ℚ) / 1152921504606846976 = (2 : ℚ) ^ (-60 : Int) by norm_num]
    exact zpow_le_zpow_right₀ (by norm_num) (by norm_num)
  have he0 : (0 : ℚ) ≤ (2 : ℚ) ^ (-150 : Int) := by positivity
  rw [he1] at hle
  set δ : ℚ := (2 : ℚ) ^ (-150 : Int) with hδ
  set r : ℚ := (L : ℚ) / (K : ℚ) with hr
  have hKr : (K : ℚ) * r = (L : ℚ) := by
    rw [hr]
    field_simp
  have hr1 : 1 ≤ r := by
    rw [hr, le_div_iff₀ hKq]
    linarith
  have hr0 : (0 : ℚ) ≤ r := by linarith
  have hA0 : 0 ≤ rnd r := hnn r hr0
  have hA : rnd r ≤ r * (16777217 / 16777216) + δ := by
    have := hle r hr0
    linarith
  have hPA0 : 0 ≤ (POINTDIM : ℚ) * rnd r := by positivity
  have hB0 : 0 ≤ rnd ((POINTDIM : ℚ) * rnd r) := hnn _ hPA0
  have hB : rnd ((POINTDIM : ℚ) * rnd r)
      ≤ (POINTDIM : ℚ) * (r * (16777217 / 16777216) + δ) * (16777217 / 16777216) + δ := by
    have h1 := hle _ hPA0
    have h2 : (POINTDIM : ℚ) * rnd r ≤ (POINTDIM : ℚ) * (r * (16777217 / 16777216) + δ) :=
      mul_le_mul_of_nonneg_left hA (by positivity)
    linarith
  have hjB0 : 0 ≤ (j : ℚ) * rnd ((POINTDIM : ℚ) * rnd r) := by positivity
  have hC0 : 0 ≤ rnd ((j : ℚ) * rnd ((POINTDIM : ℚ) * rnd r)) := hnn _ hjB0
  have hC : rnd ((j : ℚ) * rnd ((POINTDIM : ℚ) * rnd r))
      < (POINTDIM : ℚ) * (L : ℚ) := by
    have h1 := hle _ hjB0
    have h2 : (j : ℚ) * rnd ((POINTDIM : ℚ) * rnd r)
        ≤ ((K : ℚ) - 1) * ((POINTDIM : ℚ) * (r * (16777217 / 16777216) + δ)
            * (16777217 / 16777216) + δ) := by
      apply mul_le_mul (by linarith) hB hB0 (by linarith)
    have hPr1 : 1 ≤ (POINTDIM : ℚ) * r := one_le_mul_of_one_le_of_one_le hPq hr1
    have hKPr : (K : ℚ) * (POINTDIM : ℚ) * r = (POINTDIM : ℚ) * (L : ℚ) := by
      rw [← hKr]
      ring
    have hKPr_le : (K : ℚ) * (POINTDIM : ℚ) * r ≤ 4194304 * ((POINTDIM : ℚ) * r) := by
      have := mul_le_mul_of_nonneg_right hK22 (by linarith : (0 : ℚ) ≤ (POINTDIM : ℚ) * r)
      linarith
    have hKP : (K : ℚ) * (POINTDIM : ℚ) ≤ 4194304 * 16777216 := by
      apply mul_le_mul hK22 hP24 (by linarith) (by norm_num)
    have hKP0 : (0 : ℚ) ≤ (K : ℚ) * (POINTDIM : ℚ) := by positivity
    have hKδ : (K : ℚ) * (POINTDIM : ℚ) * δ ≤ 4194304 * 16777216 * (1 / 1152921504606846976) := by
      apply mul_le_mul hKP he2 he0 (by norm_num)
    have hKδ0 : (0 : ℚ) ≤ (K : ℚ) * (POINTDIM : ℚ) * δ := by positivity
    have hPδ0 : (0 : ℚ) ≤ (POINTDIM : ℚ) * δ := by positivity
    have hKδ' : (K : ℚ) * δ ≤ 4194304 * (1 / 1152921504606846976) := by
      apply mul_le_mul hK22 he2 he0 (by norm_num)
    have hKδ'0 : (0 : ℚ) ≤ (K : ℚ) * δ := by positivity
    nlinarith
  have hcj : rnd ((j : ℚ)) = j := hnat j (by omega)
  have hcP : rnd ((POINTDIM : ℚ)) = POINTDIM := hnat POINTDIM hPlt
  have hcL : rnd ((L : ℚ)) = L := hnat L hLlt
  have hcK : rnd ((K : ℚ)) = K := hnat K (by omega)
  have hidx : Show_BOctTree.Rounded.strideIndex rnd POINTDIM L (K : Int) j
      = ⌊rnd ((j : ℚ) * rnd ((POINTDIM : ℚ) * rnd r))⌋ := by
    unfold Show_BOctTree.Rounded.strideIndex
    rw [Int.cast_natCast, hcj, hcP, hcL, hcK, toInt_eq_floor hC0]
  have hlt : ⌊rnd ((j : ℚ) * rnd ((POINTDIM : ℚ) * rnd r))⌋ < (POINTDIM : Int) * (L : Int) := by
    rw [Int.floor_lt]
    push_cast
    exact hC
  have hPLi : (POINTDIM : Int) * (L : Int) < 2 ^ 24 := by exact_mod_cast hPL
  rw [hidx]
  refine ⟨Int.floor_nonneg.mpr hC0, ?_, hlt⟩
  unfold INT_MAX
  omega

end lemmas

namespace Show_BOctTree

variable {P : Type}

/-! ## Unfolding of the mutual definitions -/

/-- Line 266: when the box is fully inside, `displayOctTreeCulledLOD2` is the
call `displayOctTreeLOD2(ratio, node, center, size)`. -/
theorem displayOctTreeCulledLOD2_eq (POINTDIM : Nat) (CubeInFrustum2 : Vec3 → ℚ → Int)
    (CubeInFrustum : Vec3 → ℚ → Bool) (LOD2 : Vec3 → ℚ → Int) ( ratio : ℚ)
    (node : bitoct P) (center : Vec3) (size : ℚ) (h2 : CubeInFrustum2 center size = 2) :
    displayOctTreeCulledLOD2 POINTDIM CubeInFrustum2 CubeInFrustum LOD2 ratio node center size
      = displayOctTreeLOD2 POINTDIM CubeInFrustum2 CubeInFrustum LOD2 ratio node center size := by
  have h0 : CubeInFrustum2 center size ≠ 0 := by
    rw [h2]
    decide
  cases node with
  | mk child => rw [displayOctTreeCulledLOD2, displayOctTreeLOD2, if_neg h0, if_pos h2]

/-! ## Nearest pick (C1) -/

/-- C1 (code bug): the single-point `selectRay` does not return the point of
globally minimal ray distance.  `min` is passed by value, so the minimum found
inside a subtree is forgotten when the recursion returns: on
`nearDeepFarShallow`, with every ray test succeeding, point 0 (ray distance 200,
screen distance 0) and point 1 (ray distance 300) both pass the filters, and the
call returns point 1. -/
theorem selectRayPoint_forgets_subtree_minimum :
    selectRayPointRoot (fun _ _ => true) (fun _ => 0) rayDist200_300
        (create nearDeepFarShallow (0, 0, 0) 1 2) none = some 1
      ∧ 0 ∈ leafPoints (octLeaves nearDeepFarShallow (0, 0, 0) 1 0)
      ∧ ((0 : ℚ) < 5 ∧ rayDist200_300 0 > 100)
      ∧ rayDist200_300 0 < rayDist200_300 1 := by
  decide

/-! ## Depth gating of `selectRay` (C2, C3, C4) -/

/-- Below `max_depth` no ray test is made: a node entered at a depth
`max_depth ≤ depth` contributes all the points of all its leaves. -/
theorem selectRay_deep [DecidableEq P] (HitBoundingBox : Vec3 → ℚ → Bool) (node : bitoct P) :
    ∀ (selpoints : Finset P) (center : Vec3) (size : ℚ) (max_depth depth : Int),
      max_depth ≤ depth →
      selectRay HitBoundingBox node selpoints center size max_depth depth
        = selpoints ∪ (leafPoints (octLeaves node center size depth)).toFinset := by
  refine @bitoct.rec P
    (fun n => ∀ (selpoints : Finset P) (center : Vec3) (size : ℚ) (max_depth depth : Int),
      max_depth ≤ depth →
      selectRay HitBoundingBox n selpoints center size max_depth depth
        = selpoints ∪ (leafPoints (octLeaves n center size depth)).toFinset)
    (fun c => ∀ (selpoints : Finset P) (ccenter : Vec3) (size : ℚ) (max_depth depth : Int),
      max_depth ≤ depth →
      selectRay.child HitBoundingBox c selpoints ccenter size max_depth depth
        = selpoints ∪ (leafPoints (octLeaves.child c ccenter size depth)).toFinset)
    ?_ ?_ ?_ ?_ node
  · intro child ih sel center size md d hd
    have hlt : ¬ d < md := not_lt.mpr hd
    rw [selectRay, octLeaves, leafPoints_flatMap]
    simp only [hlt, false_and, if_false]
    exact foldl_union_flatMap octants
      (fun s i => selectRay.child HitBoundingBox (child i) s (childcenter center size i) size md d)
      (fun i => leafPoints (octLeaves.child (child i) (childcenter center size i) size d))
      (fun i s => ih i s _ _ _ _ hd) sel
  · intro sel cc size md d _
    simp [selectRay.child, octLeaves.child, leafPoints]
  · intro pts sel cc size md d hd
    have hlt : ¬ d + 1 < md := by omega
    simp [selectRay.child, octLeaves.child, leafPoints, hlt, foldl_insert_eq]
  · intro n ih sel cc size md d hd
    rw [selectRay.child, octLeaves.child]
    exact ih sel cc (size / 2) md (d + 1) (by omega)

/-- C2 (counterexample): the root, at depth 0 < 1 = max_depth, has a box that
misses the ray, and point 7 of the leaf below it is not collected. -/
theorem selectRay_shallow_miss_is_pruned :
    (0 : Int) < 1
      ∧ (fun (_ : Vec3) (_ : ℚ) => false) (0, 0, 0) 1 = false
      ∧ 7 ∈ leafPoints (octLeaves (singleOct 0 (bitunion.points [7])) (0, 0, 0) 1 0)
      ∧ 7 ∉ selectRay (fun _ _ => false) (singleOct 0 (bitunion.points [7])) ∅ (0, 0, 0) 1 1 0 := by
  decide

/-- C2 (amended): the gating goes the other way.  A node at depth
`depth < max_depth` whose box misses the ray is pruned (the set comes back
unchanged), and a node at depth `max_depth ≤ depth` is entered whatever the ray
test says: every point of every leaf below it is collected. -/
theorem selectRay_depth_gating [DecidableEq P] (HitBoundingBox : Vec3 → ℚ → Bool)
    (node : bitoct P) (selpoints : Finset P) (center : Vec3) (size : ℚ)
    (max_depth depth : Int) :
    (depth < max_depth → HitBoundingBox center size = false →
        selectRay HitBoundingBox node selpoints center size max_depth depth = selpoints)
      ∧ (max_depth ≤ depth → ∀ p ∈ leafPoints (octLeaves node center size depth),
        p ∈ selectRay HitBoundingBox node selpoints center size max_depth depth) := by
  constructor
  · intro hd hmiss
    cases node with
    | mk child => simp [selectRay, hd, hmiss]
  · intro hd p hp
    rw [selectRay_deep HitBoundingBox node selpoints center size max_depth depth hd]
    simp [hp]

/-- Witness of C2 (amended): the one-leaf tree, a ray that misses every box. -/
theorem selectRay_depth_gating_witness :
    selectRay (fun _ _ => false) (singleOct 0 (bitunion.points [7])) ∅ (0, 0, 0) 1 1 0 = ∅
      ∧ 7 ∈ selectRay (fun _ _ => false) (singleOct 0 (bitunion.points [7])) ∅ (0, 0, 0) 1 0 0 :=
  ⟨(selectRay_depth_gating (fun _ _ => false) (singleOct 0 (bitunion.points [7])) ∅
      (0, 0, 0) 1 1 0).1 (by decide) rfl,
   (selectRay_depth_gating (fun _ _ => false) (singleOct 0 (bitunion.points [7])) ∅
      (0, 0, 0) 1 0 0).2 (by decide) 7 (by decide)⟩

/-- C3 (counterexample): with `max_depth = 0` the bucket of point 7 lies two
levels below the root, and point 7 is added to the result set. -/
theorem selectRay_descends_below_max_depth :
    (∃ l ∈ octLeaves deepLeaf (0, 0, 0) 1 0, l.depth > 0 ∧ 7 ∈ l.pts)
      ∧ 7 ∈ selectRayRoot (fun _ _ => false) (create deepLeaf (0, 0, 0) 1 2) ∅ 0 := by
  decide

/-- C3 (amended): the depth bound stops the ray tests, not the descent.  A node
entered at a depth `max_depth ≤ depth` adds every point of every leaf bucket
below it, however deep, and nothing else. -/
theorem selectRay_collects_all_below_max_depth [DecidableEq P]
    (HitBoundingBox : Vec3 → ℚ → Bool) (node : bitoct P) (selpoints : Finset P)
    (center : Vec3) (size : ℚ) (max_depth depth : Int) (h : max_depth ≤ depth) :
    selectRay HitBoundingBox node selpoints center size max_depth depth
      = selpoints ∪ (leafPoints (octLeaves node center size depth)).toFinset :=
  selectRay_deep HitBoundingBox node selpoints center size max_depth depth h

/-- Witness of C3 (amended): `deepLeaf` from the root with `max_depth = 0`. -/
theorem selectRay_collects_all_below_max_depth_witness :
    (0 : Int) ≤ 0
      ∧ selectRay (fun _ _ => false) deepLeaf ∅ (0, 0, 0) 1 0 0
        = ∅ ∪ (leafPoints (octLeaves deepLeaf (0, 0, 0) 1 0)).toFinset :=
  ⟨by decide, selectRay_collects_all_below_max_depth (fun _ _ => false) deepLeaf ∅
    (0, 0, 0) 1 0 0 (by decide)⟩

/-- C4: the ray tests made at depth `max_depth` or deeper have no influence. Two
ray oracles that agree on the box of every internal node of depth below
`max_depth` and on the tested box of every leaf of depth below `max_depth`
select the same set. -/
theorem selectRay_ignores_tests_at_max_depth [DecidableEq P]
    (H₁ H₂ : Vec3 → ℚ → Bool) (node : bitoct P) (selpoints : Finset P)
    (center : Vec3) (size : ℚ) (max_depth depth : Int)
    (hnodes : ∀ b ∈ octNodes node center size depth, b.depth < max_depth →
      H₁ b.center b.size = H₂ b.center b.size)
    (hleaves : ∀ l ∈ octLeaves node center size depth, l.depth < max_depth →
      H₁ l.rayBox.1 l.rayBox.2 = H₂ l.rayBox.1 l.rayBox.2) :
    selectRay H₁ node selpoints center size max_depth depth
      = selectRay H₂ node selpoints center size max_depth depth := by
  revert selpoints center size depth
  refine @bitoct.rec P
    (fun n => ∀ (selpoints : Finset P) (center : Vec3) (size : ℚ) (depth : Int),
      (∀ b ∈ octNodes n center size depth, b.depth < max_depth →
        H₁ b.center b.size = H₂ b.center b.size) →
      (∀ l ∈ octLeaves n center size depth, l.depth < max_depth →
        H₁ l.rayBox.1 l.rayBox.2 = H₂ l.rayBox.1 l.rayBox.2) →
      selectRay H₁ n selpoints center size max_depth depth
        = selectRay H₂ n selpoints center size max_depth depth)
    (fun c => ∀ (selpoints : Finset P) (ccenter : Vec3) (size : ℚ) (depth : Int),
      (∀ b ∈ octNodes.child c ccenter size depth, b.depth < max_depth →
        H₁ b.center b.size = H₂ b.center b.size) →
      (∀ l ∈ octLeaves.child c ccenter size depth, l.depth < max_depth →
        H₁ l.rayBox.1 l.rayBox.2 = H₂ l.rayBox.1 l.rayBox.2) →
      selectRay.child H₁ c selpoints ccenter size max_depth depth
        = selectRay.child H₂ c selpoints ccenter size max_depth depth)
    ?_ ?_ ?_ ?_ node
  · intro child ih sel center size d hn hl
    have hroot : d < max_depth → H₁ center size = H₂ center size := fun h =>
      hn ⟨d, center, size⟩ (by simp [octNodes]) h
    have hbody : ∀ (i : Fin 8) (s : Finset P),
        selectRay.child H₁ (child i) s (childcenter center size i) size max_depth d
          = selectRay.child H₂ (child i) s (childcenter center size i) size max_depth d := by
      intro i s
      apply ih i
      · intro b hb
        exact hn b (by
          rw [octNodes]
          exact List.mem_cons_of_mem _ (List.mem_flatMap.mpr ⟨i, mem_octants i, hb⟩))
      · intro l hl'
        exact hl l (by
          rw [octLeaves]
          exact List.mem_flatMap.mpr ⟨i, mem_octants i, hl'⟩)
    rw [selectRay, selectRay]
    by_cases hd : d < max_depth
    · rw [hroot hd]
      simp only [hbody]
    · simp only [hd, false_and, if_false, hbody]
  · intro sel cc size d _ _
    simp [selectRay.child]
  · intro pts sel cc size d _ hl
    have h := hl ⟨d + 1, cc, size, pts⟩ (by simp [octLeaves.child])
    simp only [LeafCell.rayBox] at h
    rw [selectRay.child, selectRay.child]
    by_cases hd : d + 1 < max_depth
    · rw [h hd]
    · simp [hd]
  · intro n ih sel cc size d hn hl
    rw [selectRay.child, selectRay.child]
    exact ih sel cc (size / 2) (d + 1) (by simpa [octNodes.child] using hn)
      (by simpa [octLeaves.child] using hl)

/-- Witness of C4: on `deepLeaf` with `max_depth = 1` only the root box is
tested; an oracle that rejects every smaller box selects the same set as one
that accepts everything. -/
theorem selectRay_ignores_tests_at_max_depth_witness :
    (fun (_ : Vec3) (_ : ℚ) => true) (0, 0, 0) (1 / 2)
        ≠ (fun (_ : Vec3) (s : ℚ) => decide (s = 1)) (0, 0, 0) (1 / 2)
      ∧ selectRay (fun _ _ => true) deepLeaf ∅ (0, 0, 0) 1 1 0
        = selectRay (fun _ s => decide (s = 1)) deepLeaf ∅ (0, 0, 0) 1 1 0 :=
  ⟨by decide!, selectRay_ignores_tests_at_max_depth (fun _ _ => true) (fun _ s => decide (s = 1))
    deepLeaf ∅ (0, 0, 0) 1 1 0 (by decide) (by decide)⟩

/-! ## The leaf ray test of `selectRay` (C5) -/

/-- C5 (code bug): a leaf is ray-tested with the half-size of its parent, not
with its own.  The root `(0, 0, 0)`, half-size 4, has one leaf in octant 0; the
own box of the leaf (centre `(-2, -2, -2)`, half-size 2) misses the ray
`(t, 1, 1)`, the root box meets it, and with the default depth `INT_MAX` point 7
of the leaf is selected all the same. -/
theorem selectRay_tests_leaf_with_parent_size :
    (∀ l ∈ octLeaves (singleOct 0 (bitunion.points [7])) (0, 0, 0) 4 0,
        axisRay l.ownBox.1 l.ownBox.2 = false)
      ∧ axisRay (0, 0, 0) 4 = true
      ∧ 7 ∈ selectRayRoot axisRay (create (singleOct 0 (bitunion.points [7])) (0, 0, 0) 4 1)
          ∅ INT_MAX := by
  decide!

/-! ## Brush selection (C6) -/

/-- Membership in the result of `selectRayBS`, for the leaves listed from any depth. -/
theorem mem_selectRayBS [DecidableEq P] (HitBoundingBox : Vec3 → ℚ → Bool)
    (ScreenDist RayDist : P → ℚ) (brushsize : Int) (node : bitoct P) :
    ∀ (selpoints : Finset P) (center : Vec3) (size : ℚ) (depth : Int) (p : P),
      p ∈ selectRayBS HitBoundingBox ScreenDist RayDist node selpoints center size brushsize
        ↔ p ∈ selpoints ∨ ∃ l ∈ octLeaves node center size depth,
            HitBoundingBox l.rayBox.1 l.rayBox.2 = true ∧ p ∈ l.pts
              ∧ ScreenDist p < (brushsize : ℚ) ∧ RayDist p > 100 := by
  refine @bitoct.rec P
    (fun n => ∀ (selpoints : Finset P) (center : Vec3) (size : ℚ) (depth : Int) (p : P),
      p ∈ selectRayBS HitBoundingBox ScreenDist RayDist n selpoints center size brushsize
        ↔ p ∈ selpoints ∨ ∃ l ∈ octLeaves n center size depth,
            HitBoundingBox l.rayBox.1 l.rayBox.2 = true ∧ p ∈ l.pts
              ∧ ScreenDist p < (brushsize : ℚ) ∧ RayDist p > 100)
    (fun c => ∀ (selpoints : Finset P) (ccenter : Vec3) (size : ℚ) (depth : Int) (p : P),
      p ∈ selectRayBS.child HitBoundingBox ScreenDist RayDist c selpoints ccenter size brushsize
        ↔ p ∈ selpoints ∨ ∃ l ∈ octLeaves.child c ccenter size depth,
            HitBoundingBox l.rayBox.1 l.rayBox.2 = true ∧ p ∈ l.pts
              ∧ ScreenDist p < (brushsize : ℚ) ∧ RayDist p > 100)
    ?_ ?_ ?_ ?_ node
  · intro child ih sel center size d p
    rw [selectRayBS, octLeaves]
    rw [mem_foldl_iff octants
      (fun s i => selectRayBS.child HitBoundingBox ScreenDist RayDist (child i) s
        (childcenter center size i) size brushsize)
      (fun i p => ∃ l ∈ octLeaves.child (child i) (childcenter center size i) size d,
            HitBoundingBox l.rayBox.1 l.rayBox.2 = true ∧ p ∈ l.pts
              ∧ ScreenDist p < (brushsize : ℚ) ∧ RayDist p > 100)
      (fun i s q => ih i s _ _ d q)]
    simp only [List.mem_flatMap]
    constructor
    · rintro (h | ⟨i, hi, l, hl, h⟩)
      · exact Or.inl h
      · exact Or.inr ⟨l, ⟨i, hi, hl⟩, h⟩
    · rintro (h | ⟨l, ⟨i, hi, hl⟩, h⟩)
      · exact Or.inl h
      · exact Or.inr ⟨i, hi, l, hl, h⟩
  · intro sel cc size d p
    simp [selectRayBS.child, octLeaves.child]
  · intro pts sel cc size d p
    rw [selectRayBS.child, octLeaves.child]
    by_cases hh : HitBoundingBox cc size = true
    · rw [if_pos hh, mem_foldl_insert_if]
      simp [LeafCell.rayBox, hh]
    · simp [LeafCell.rayBox, hh]
  · intro n ih sel cc size d p
    rw [selectRayBS.child, octLeaves.child]
    exact ih sel cc (size / 2) (d + 1) p

/-- C6: brush selection.  A point is in the result of `selectRayBS` iff it was
in the set before, or it lies in a leaf bucket whose ray test succeeds and has
screen distance below `brushsize` and ray distance above 100.  The result only
depends on the ray oracle through the boxes tested for leaves (no internal node
is ray-tested), and every point already in the set stays. -/
theorem selectRayBS_characterisation [DecidableEq P] (HitBoundingBox : Vec3 → ℚ → Bool)
    (ScreenDist RayDist : P → ℚ) (node : bitoct P) (selpoints : Finset P)
    (center : Vec3) (size : ℚ) (brushsize : Int) :
    (∀ p, p ∈ selectRayBS HitBoundingBox ScreenDist RayDist node selpoints center size brushsize
        ↔ p ∈ selpoints ∨ ∃ l ∈ octLeaves node center size 0,
            HitBoundingBox l.rayBox.1 l.rayBox.2 = true ∧ p ∈ l.pts
              ∧ ScreenDist p < (brushsize : ℚ) ∧ RayDist p > 100)
      ∧ (∀ Hit' : Vec3 → ℚ → Bool,
          (∀ l ∈ octLeaves node center size 0,
            Hit' l.rayBox.1 l.rayBox.2 = HitBoundingBox l.rayBox.1 l.rayBox.2) →
          selectRayBS Hit' ScreenDist RayDist node selpoints center size brushsize
            = selectRayBS HitBoundingBox ScreenDist RayDist node selpoints center size brushsize)
      ∧ selpoints ⊆
          selectRayBS HitBoundingBox ScreenDist RayDist node selpoints center size brushsize := by
  refine ⟨fun p => mem_selectRayBS _ _ _ _ node selpoints center size 0 p, ?_, ?_⟩
  · intro Hit' hagree
    ext p
    rw [mem_selectRayBS Hit' _ _ _ node selpoints center size 0 p,
      mem_selectRayBS HitBoundingBox _ _ _ node selpoints center size 0 p]
    constructor
    · rintro (h | ⟨l, hl, hh, hrest⟩)
      · exact Or.inl h
      · exact Or.inr ⟨l, hl, by rw [← hagree l hl]; exact hh, hrest⟩
    · rintro (h | ⟨l, hl, hh, hrest⟩)
      · exact Or.inl h
      · exact Or.inr ⟨l, hl, by rw [hagree l hl]; exact hh, hrest⟩
  · intro p hp
    exact (mem_selectRayBS _ _ _ _ node selpoints center size 0 p).mpr (Or.inl hp)

/-- Witness of C6: on `deepLeaf` the oracle `s < 1` rejects the root box and
accepts the tested box of the leaf, as the oracle that accepts everything. -/
theorem selectRayBS_characterisation_witness :
    selectRayBS (fun _ s => decide (s < 1)) (fun _ => 0) (fun _ => 200) deepLeaf ∅ (0, 0, 0) 1 5
      = selectRayBS (fun _ _ => true) (fun _ => 0) (fun _ => 200) deepLeaf ∅ (0, 0, 0) 1 5 :=
  (selectRayBS_characterisation (fun _ _ => true) (fun _ => 0) (fun _ => 200) deepLeaf ∅
    (0, 0, 0) 1 5).2.1 (fun _ s => decide (s < 1)) (by decide!)

/-! ## Culling (C7) -/

/-- C7: culling.  When the visibility oracle classifies the box of the node a
culled traversal is called on as fully outside (`CubeInFrustum2` answers 0), the
traversal sends nothing, for every budget, ratio and threshold; so a root
classified fully outside yields nothing from any rendering entry point. -/
theorem culled_outside_emits_nothing (POINTDIM : Nat) (CubeInFrustum2 : Vec3 → ℚ → Int)
    (CubeInFrustum : Vec3 → ℚ → Bool) (LOD : Vec3 → ℚ → Bool) (LOD2 : Vec3 → ℚ → Int) :
    (∀ (node : bitoct P) (center : Vec3) (size : ℚ), CubeInFrustum2 center size = 0 →
        displayOctTreeAllCulled CubeInFrustum2 node center size = []
          ∧ (∀ targetpts : Int, displayOctTreeCulledLOD POINTDIM CubeInFrustum2 CubeInFrustum
              LOD node targetpts center size = [])
          ∧ (∀ ratio : ℚ, displayOctTreeCulledLOD2 POINTDIM CubeInFrustum2 CubeInFrustum
              LOD2 ratio node center size = [])
          ∧ (∀ minsize : ℚ, displayOctTreeCPAllCulled CubeInFrustum2 CubeInFrustum
              node center size minsize = [])
          ∧ (∀ minsize : ℚ, displayOctTreeCAllCulled CubeInFrustum2 CubeInFrustum
              node center size minsize = []))
      ∧ (∀ t : Show_BOctTree P, CubeInFrustum2 t.center t.size = 0 →
        draw CubeInFrustum2 t = []
          ∧ (∀ targetpts : Int, displayOctTreeCulled POINTDIM CubeInFrustum2 CubeInFrustum
              LOD t targetpts = [])
          ∧ (∀ (glee : Bool) ( ratio : ℚ), drawLOD POINTDIM glee CubeInFrustum2 CubeInFrustum
              LOD LOD2 t ratio = [])
          ∧ (∀ minsize : ℚ, displayOctTree CubeInFrustum2 CubeInFrustum t minsize = [])) := by
  have hnode : ∀ (node : bitoct P) (center : Vec3) (size : ℚ), CubeInFrustum2 center size = 0 →
        displayOctTreeAllCulled CubeInFrustum2 node center size = []
          ∧ (∀ targetpts : Int, displayOctTreeCulledLOD POINTDIM CubeInFrustum2 CubeInFrustum
              LOD node targetpts center size = [])
          ∧ (∀ ratio : ℚ, displayOctTreeCulledLOD2 POINTDIM CubeInFrustum2 CubeInFrustum
              LOD2 ratio node center size = [])
          ∧ (∀ minsize : ℚ, displayOctTreeCPAllCulled CubeInFrustum2 CubeInFrustum
              node center size minsize = [])
          ∧ (∀ minsize : ℚ, displayOctTreeCAllCulled CubeInFrustum2 CubeInFrustum
              node center size minsize = []) := by
    intro node center size hout
    cases node with
    | mk child =>
      refine ⟨?_, ?_, ?_, ?_, ?_⟩
      · simp [displayOctTreeAllCulled, hout]
      · intro targetpts
        simp [displayOctTreeCulledLOD, hout]
      · intro r
        simp [displayOctTreeCulledLOD2, hout]
      · intro minsize
        simp [displayOctTreeCPAllCulled, hout]
      · intro minsize
        simp [displayOctTreeCAllCulled, hout]
  refine ⟨hnode, ?_⟩
  intro t hout
  obtain ⟨h1, h2, h3, h4, h5⟩ := hnode t.root t.center t.size hout
  refine ⟨h1, fun targetpts => h2 targetpts, ?_, fun minsize => h5 minsize⟩
  intro glee r
  unfold drawLOD
  split_ifs
  · rw [h2]; rfl
  · rw [h3]; rfl
  · exact h4 _
  · rfl
  · rfl

/-- Witness of C7: eight sibling leaves of five points each under a root that
is fully outside; `draw`, `displayOctTreeCulled` with budget 40, `drawLOD` in
the modes 0, 1 and 2, and `displayOctTree` all yield nothing. -/
theorem culled_outside_emits_nothing_witness :
    (fun (_ : Vec3) (_ : ℚ) => (0 : Int)) (create eightLeaves (0, 0, 0) 1 1).center
        (create eightLeaves (0, 0, 0) 1 1).size = 0
      ∧ draw (fun _ _ => 0) (create eightLeaves (0, 0, 0) 1 1) = []
      ∧ displayOctTreeCulled 3 (fun _ _ => 0) (fun _ _ => true) (fun _ _ => true)
          (create eightLeaves (0, 0, 0) 1 1) 40 = []
      ∧ drawLOD 3 true (fun _ _ => 0) (fun _ _ => true) (fun _ _ => true) (fun _ _ => 1)
          (create eightLeaves (0, 0, 0) 1 1) 1 = []
      ∧ drawLOD 3 true (fun _ _ => 0) (fun _ _ => true) (fun _ _ => true) (fun _ _ => 1)
          (cycleLOD (create eightLeaves (0, 0, 0) 1 1)) 1 = []
      ∧ drawLOD 3 true (fun _ _ => 0) (fun _ _ => true) (fun _ _ => true) (fun _ _ => 1)
          (cycleLOD (cycleLOD (create eightLeaves (0, 0, 0) 1 1))) 1 = []
      ∧ displayOctTree (fun _ _ => 0) (fun _ _ => true) (create eightLeaves (0, 0, 0) 1 1) 1
          = [] :=
  ⟨rfl,
   ((culled_outside_emits_nothing 3 (fun _ _ => 0) (fun _ _ => true) (fun _ _ => true)
      (fun _ _ => 1)).2 (create eightLeaves (0, 0, 0) 1 1) rfl).1,
   ((culled_outside_emits_nothing 3 (fun _ _ => 0) (fun _ _ => true) (fun _ _ => true)
      (fun _ _ => 1)).2 (create eightLeaves (0, 0, 0) 1 1) rfl).2.1 40,
   ((culled_outside_emits_nothing 3 (fun _ _ => 0) (fun _ _ => true) (fun _ _ => true)
      (fun _ _ => 1)).2 (create eightLeaves (0, 0, 0) 1 1) rfl).2.2.1 true 1,
   ((culled_outside_emits_nothing 3 (fun _ _ => 0) (fun _ _ => true) (fun _ _ => true)
      (fun _ _ => 1)).2 (cycleLOD (create eightLeaves (0, 0, 0) 1 1)) rfl).2.2.1 true 1,
   ((culled_outside_emits_nothing 3 (fun _ _ => 0) (fun _ _ => true) (fun _ _ => true)
      (fun _ _ => 1)).2 (cycleLOD (cycleLOD (create eightLeaves (0, 0, 0) 1 1))) rfl).2.2.1 true 1,
   ((culled_outside_emits_nothing 3 (fun _ _ => 0) (fun _ _ => true) (fun _ _ => true)
      (fun _ _ => 1)).2 (create eightLeaves (0, 0, 0) 1 1) rfl).2.2.2 1⟩

/-! ## Culled and unculled traversal in mode 0 (C8) -/

/-- C8: in mode 0, when the visibility oracle answers fully outside on no
internal node of the subtree and accepts the own box of every leaf of it, the
culled traversal sends exactly the sequence of points of the unculled one, for
every budget. -/
theorem displayOctTreeCulledLOD_eq_displayOctTreeLOD (POINTDIM : Nat)
    (CubeInFrustum2 : Vec3 → ℚ → Int) (CubeInFrustum : Vec3 → ℚ → Bool)
    (LOD : Vec3 → ℚ → Bool) (node : bitoct P) (targetpts : Int) (center : Vec3) (size : ℚ)
    (hnodes : ∀ b ∈ octNodes node center size 0, CubeInFrustum2 b.center b.size ≠ 0)
    (hleaves : ∀ l ∈ octLeaves node center size 0, CubeInFrustum l.ownBox.1 l.ownBox.2 = true) :
    displayOctTreeCulledLOD POINTDIM CubeInFrustum2 CubeInFrustum LOD node targetpts center size
      = displayOctTreeLOD POINTDIM LOD node targetpts center size := by
  have key : ∀ (node : bitoct P) (targetpts : Int) (center : Vec3) (size : ℚ) (depth : Int),
      (∀ b ∈ octNodes node center size depth, CubeInFrustum2 b.center b.size ≠ 0) →
      (∀ l ∈ octLeaves node center size depth, CubeInFrustum l.ownBox.1 l.ownBox.2 = true) →
      displayOctTreeCulledLOD POINTDIM CubeInFrustum2 CubeInFrustum LOD node targetpts center size
        = displayOctTreeLOD POINTDIM LOD node targetpts center size := by
    intro node
    refine @bitoct.rec P
      (fun n => ∀ (targetpts : Int) (center : Vec3) (size : ℚ) (depth : Int),
        (∀ b ∈ octNodes n center size depth, CubeInFrustum2 b.center b.size ≠ 0) →
        (∀ l ∈ octLeaves n center size depth, CubeInFrustum l.ownBox.1 l.ownBox.2 = true) →
        displayOctTreeCulledLOD POINTDIM CubeInFrustum2 CubeInFrustum LOD n targetpts center size
          = displayOctTreeLOD POINTDIM LOD n targetpts center size)
      (fun c => ∀ (newtargetpts : Int) (ccenter : Vec3) (size : ℚ) (depth : Int),
        (∀ b ∈ octNodes.child c ccenter size depth, CubeInFrustum2 b.center b.size ≠ 0) →
        (∀ l ∈ octLeaves.child c ccenter size depth,
          CubeInFrustum l.ownBox.1 l.ownBox.2 = true) →
        displayOctTreeCulledLOD.child POINTDIM CubeInFrustum2 CubeInFrustum LOD c newtargetpts
            ccenter size
          = displayOctTreeLOD.child POINTDIM LOD c newtargetpts ccenter size)
      ?_ ?_ ?_ ?_ node
    · intro child ih targetpts center size d hn hl
      have hroot : CubeInFrustum2 center size ≠ 0 :=
        hn ⟨d, center, size⟩ (by simp [octNodes])
      have hbody : ∀ (k : Int), ∀ i ∈ octants,
          displayOctTreeCulledLOD.child POINTDIM CubeInFrustum2 CubeInFrustum LOD (child i) k
              (childcenter center size i) size
            = displayOctTreeLOD.child POINTDIM LOD (child i) k (childcenter center size i) size := by
        intro k i hi
        apply ih i k _ _ d
        · intro b hb
          exact hn b (by
            rw [octNodes]
            exact List.mem_cons_of_mem _ (List.mem_flatMap.mpr ⟨i, hi, hb⟩))
        · intro l hl'
          exact hl l (by
            rw [octLeaves]
            exact List.mem_flatMap.mpr ⟨i, hi, hl'⟩)
      rw [displayOctTreeCulledLOD]
      by_cases htp : targetpts ≤ 0
      · simp [displayOctTreeLOD, htp]
      · rw [if_neg htp, if_neg hroot]
        by_cases hin : CubeInFrustum2 center size = 2
        · rw [if_pos hin]
        · rw [if_neg hin, displayOctTreeLOD, if_neg htp]
          simp only
          split_ifs <;> first | rfl | exact flatMap_congr_mem _ _ _ (hbody _)
    · intro k cc size d _ _
      simp [displayOctTreeCulledLOD.child, displayOctTreeLOD.child]
    · intro pts k cc size d _ hl
      have h := hl ⟨d + 1, cc, size, pts⟩ (by simp [octLeaves.child])
      simp only [LeafCell.ownBox] at h
      rw [displayOctTreeCulledLOD.child, displayOctTreeLOD.child, if_pos h]
    · intro n ih k cc size d hn hl
      rw [displayOctTreeCulledLOD.child, displayOctTreeLOD.child]
      exact ih k cc (size / 2) (d + 1) (by simpa [octNodes.child] using hn)
        (by simpa [octLeaves.child] using hl)
  exact key node targetpts center size 0 hnodes hleaves

/-- Witness of C8: eight visible leaves of five points, budget 100. -/
theorem displayOctTreeCulledLOD_eq_displayOctTreeLOD_witness :
    displayOctTreeCulledLOD 3 (fun _ _ => 1) (fun _ _ => true) (fun _ _ => true) eightLeaves
        100 (0, 0, 0) 1
      = displayOctTreeLOD 3 (fun _ _ => true) eightLeaves 100 (0, 0, 0) 1 :=
  displayOctTreeCulledLOD_eq_displayOctTreeLOD 3 (fun _ _ => 1) (fun _ _ => true)
    (fun _ _ => true) eightLeaves 100 (0, 0, 0) 1 (by decide) (by decide)

/-! ## Visibility tests below a fully inside node (C9) -/

/-- C9 (code bug): after a node is classified fully inside, modes 1 and 2 still
consult the visibility oracle.  Mode 1: `displayOctTreeLOD2` recurses into the
culled traversal, so on `deepLeaf` two oracles that both answer 2 on the root
box send `[7]` and nothing.  Mode 2: `displayOctTreeCPAll` tests `CubeInFrustum`
on a cell below the size threshold, so two oracles that both answer 2 on the
root box send one sprite and nothing. -/
theorem fully_inside_still_consults_visibility :
    ((fun (_ : Vec3) (_ : ℚ) => (2 : Int)) (0, 0, 0) 1 = 2 ∧ insideRootOnly (0, 0, 0) 1 = 2
        ∧ displayOctTreeCulledLOD2 3 (fun _ _ => 2) (fun _ _ => true) (fun _ _ => 1) 1
            deepLeaf (0, 0, 0) 1 = [7]
        ∧ displayOctTreeCulledLOD2 3 insideRootOnly (fun _ _ => true) (fun _ _ => 1) 1
            deepLeaf (0, 0, 0) 1 = [])
      ∧ (displayOctTreeCPAllCulled (fun _ _ => 2) (fun _ _ => true) deepLeaf (0, 0, 0) 1 2
            = [Sprite.cell (-1 / 2, -1 / 2, -1 / 2) (1 / 2)]
        ∧ displayOctTreeCPAllCulled (fun _ _ => 2) (fun _ _ => false) deepLeaf (0, 0, 0) 1 2
            = []) := by
  decide!

/-! ## Budget monotonicity in mode 0 (C10) -/


theorem newtargetpts_mono (nc : Nat) (b₁ b₂ : Int) (h0 : 0 < b₁) (h : b₁ ≤ b₂) :
    (if nc > 0 then b₁.tdiv nc else b₁) ≤ (if nc > 0 then b₂.tdiv nc else b₂) := by
  by_cases hnc : nc > 0
  · rw [if_pos hnc, if_pos hnc, Int.tdiv_eq_ediv h0.le (Int.natCast_nonneg _),
      Int.tdiv_eq_ediv (h0.le.trans h) (Int.natCast_nonneg _)]
    exact Int.ediv_le_ediv (by exact_mod_cast hnc) h
  · rw [if_neg hnc, if_neg hnc]
    exact h

theorem length_lodLeaf_mono (POINTDIM : Nat) (pts : List P) (c : Prop) [Decidable c]
    (k₁ k₂ : Int) (h0 : 0 < k₁) (h : k₁ ≤ k₂) :
    (if c then firstPoint pts
      else if (pts.length : Int) ≤ k₁ then pts else strideSample POINTDIM pts k₁).length
    ≤ (if c then firstPoint pts
      else if (pts.length : Int) ≤ k₂ then pts else strideSample POINTDIM pts k₂).length := by
  by_cases hc : c
  · rw [if_pos hc, if_pos hc]
  · rw [if_neg hc, if_neg hc]
    by_cases h1 : (pts.length : Int) ≤ k₁
    · rw [if_pos h1, if_pos (h1.trans h)]
    · rw [if_neg h1, length_strideSample POINTDIM pts k₁ h0 (not_le.mp h1)]
      by_cases h2 : (pts.length : Int) ≤ k₂
      · rw [if_pos h2]
        omega
      · rw [if_neg h2, length_strideSample POINTDIM pts k₂ (h0.trans_le h) (not_le.mp h2)]
        exact Int.toNat_le_toNat h

/-- Budget monotonicity of both mode 0 traversals, proved together. -/
theorem length_LOD_mono (POINTDIM : Nat) (CubeInFrustum2 : Vec3 → ℚ → Int)
    (CubeInFrustum : Vec3 → ℚ → Bool) (LOD : Vec3 → ℚ → Bool) (node : bitoct P) :
    ∀ (b₁ b₂ : Int) (center : Vec3) (size : ℚ), b₁ ≤ b₂ →
      (displayOctTreeLOD POINTDIM LOD node b₁ center size).length
          ≤ (displayOctTreeLOD POINTDIM LOD node b₂ center size).length
        ∧ (displayOctTreeCulledLOD POINTDIM CubeInFrustum2 CubeInFrustum LOD node b₁
              center size).length
          ≤ (displayOctTreeCulledLOD POINTDIM CubeInFrustum2 CubeInFrustum LOD node b₂
              center size).length := by
  refine @bitoct.rec P
    (fun n => ∀ (b₁ b₂ : Int) (center : Vec3) (size : ℚ), b₁ ≤ b₂ →
      (displayOctTreeLOD POINTDIM LOD n b₁ center size).length
          ≤ (displayOctTreeLOD POINTDIM LOD n b₂ center size).length
        ∧ (displayOctTreeCulledLOD POINTDIM CubeInFrustum2 CubeInFrustum LOD n b₁
              center size).length
          ≤ (displayOctTreeCulledLOD POINTDIM CubeInFrustum2 CubeInFrustum LOD n b₂
              center size).length)
    (fun c => ∀ (k₁ k₂ : Int) (ccenter : Vec3) (size : ℚ), 0 < k₁ → k₁ ≤ k₂ →
      (displayOctTreeLOD.child POINTDIM LOD c k₁ ccenter size).length
          ≤ (displayOctTreeLOD.child POINTDIM LOD c k₂ ccenter size).length
        ∧ (displayOctTreeCulledLOD.child POINTDIM CubeInFrustum2 CubeInFrustum LOD c k₁
              ccenter size).length
          ≤ (displayOctTreeCulledLOD.child POINTDIM CubeInFrustum2 CubeInFrustum LOD c k₂
              ccenter size).length)
    ?_ ?_ ?_ ?_ node
  · intro child ih b₁ b₂ center size hb
    have hLOD : (displayOctTreeLOD POINTDIM LOD (.mk child) b₁ center size).length
          ≤ (displayOctTreeLOD POINTDIM LOD (.mk child) b₂ center size).length := by
      rw [displayOctTreeLOD, displayOctTreeLOD]
      by_cases h1 : b₁ ≤ 0
      · simp [h1]
      · have h1' : 0 < b₁ := not_le.mp h1
        have h2 : ¬ b₂ ≤ 0 := by omega
        rw [if_neg h1, if_neg h2]
        simp only
        have hk := newtargetpts_mono (POPCOUNT (bitoct.valid (.mk child))) b₁ b₂ h1' hb
        by_cases hz : POPCOUNT (bitoct.valid (.mk child)) > 0
            ∧ (if POPCOUNT (bitoct.valid (.mk child)) > 0
                then b₁.tdiv (POPCOUNT (bitoct.valid (.mk child))) else b₁) ≤ 0
        · rw [if_pos hz]
          exact Nat.zero_le _
        · rw [if_neg hz]
          have hk1 : 0 < (if POPCOUNT (bitoct.valid (.mk child)) > 0
                then b₁.tdiv (POPCOUNT (bitoct.valid (.mk child))) else b₁) := by
            by_cases hnc : POPCOUNT (bitoct.valid (.mk child)) > 0
            · exact not_le.mp fun hle => hz ⟨hnc, hle⟩
            · rw [if_neg hnc]
              exact h1'
          have hz2 : ¬ (POPCOUNT (bitoct.valid (.mk child)) > 0
            ∧ (if POPCOUNT (bitoct.valid (.mk child)) > 0
                then b₂.tdiv (POPCOUNT (bitoct.valid (.mk child))) else b₂) ≤ 0) := by
            intro hcon
            omega
          rw [if_neg hz2]
          exact length_flatMap_le _ _ _ fun i _ => (ih i _ _ _ _ hk1 hk).1
    refine ⟨hLOD, ?_⟩
    rw [displayOctTreeCulledLOD, displayOctTreeCulledLOD]
    by_cases h1 : b₁ ≤ 0
    · simp [h1]
    · have h1' : 0 < b₁ := not_le.mp h1
      have h2 : ¬ b₂ ≤ 0 := by omega
      rw [if_neg h1, if_neg h2]
      by_cases hout : CubeInFrustum2 center size = 0
      · simp [hout]
      · rw [if_neg hout, if_neg hout]
        by_cases hin : CubeInFrustum2 center size = 2
        · rw [if_pos hin, if_pos hin]
          exact hLOD
        · rw [if_neg hin, if_neg hin]
          simp only
          have hk := newtargetpts_mono (POPCOUNT (bitoct.valid (.mk child))) b₁ b₂ h1' hb
          by_cases hz : POPCOUNT (bitoct.valid (.mk child)) > 0
              ∧ (if POPCOUNT (bitoct.valid (.mk child)) > 0
                  then b₁.tdiv (POPCOUNT (bitoct.valid (.mk child))) else b₁) ≤ 0
          · rw [if_pos hz]
            exact Nat.zero_le _
          · rw [if_neg hz]
            have hk1 : 0 < (if POPCOUNT (bitoct.valid (.mk child)) > 0
                  then b₁.tdiv (POPCOUNT (bitoct.valid (.mk child))) else b₁) := by
              by_cases hnc : POPCOUNT (bitoct.valid (.mk child)) > 0
              · exact not_le.mp fun hle => hz ⟨hnc, hle⟩
              · rw [if_neg hnc]
                exact h1'
            have hz2 : ¬ (POPCOUNT (bitoct.valid (.mk child)) > 0
              ∧ (if POPCOUNT (bitoct.valid (.mk child)) > 0
                  then b₂.tdiv (POPCOUNT (bitoct.valid (.mk child))) else b₂) ≤ 0) := by
              intro hcon
              omega
            rw [if_neg hz2]
            exact length_flatMap_le _ _ _ fun i _ => (ih i _ _ _ _ hk1 hk).2
  · intro k₁ k₂ cc size _ _
    simp [displayOctTreeLOD.child, displayOctTreeCulledLOD.child]
  · intro pts k₁ k₂ cc size h0 h
    rw [displayOctTreeLOD.child, displayOctTreeLOD.child, displayOctTreeCulledLOD.child,
      displayOctTreeCulledLOD.child]
    refine ⟨length_lodLeaf_mono POINTDIM pts _ k₁ k₂ h0 h, ?_⟩
    by_cases hv : CubeInFrustum cc (size / 2) = true
    · rw [if_pos hv, if_pos hv]
      exact length_lodLeaf_mono POINTDIM pts _ k₁ k₂ h0 h
    · rw [if_neg hv, if_neg hv]
  · intro n ih k₁ k₂ cc size _ h
    rw [displayOctTreeLOD.child, displayOctTreeLOD.child, displayOctTreeCulledLOD.child,
      displayOctTreeCulledLOD.child]
    exact ih k₁ k₂ cc (size / 2) h

/-- C10: budget monotonicity in mode 0.  For a fixed tree and fixed visibility
and footprint oracles, a larger budget never makes `displayOctTreeCulledLOD`
send fewer points. -/
theorem displayOctTreeCulledLOD_budget_mono (POINTDIM : Nat) (CubeInFrustum2 : Vec3 → ℚ → Int)
    (CubeInFrustum : Vec3 → ℚ → Bool) (LOD : Vec3 → ℚ → Bool) (node : bitoct P)
    (center : Vec3) (size : ℚ) (b₁ b₂ : Int) (h : b₁ ≤ b₂) :
    (displayOctTreeCulledLOD POINTDIM CubeInFrustum2 CubeInFrustum LOD node b₁ center size).length
      ≤ (displayOctTreeCulledLOD POINTDIM CubeInFrustum2 CubeInFrustum LOD node b₂
          center size).length :=
  (length_LOD_mono POINTDIM CubeInFrustum2 CubeInFrustum LOD node b₁ b₂ center size h).2

/-- Witness of C10: budgets 3 and 10 on eight leaves of five points. -/
theorem displayOctTreeCulledLOD_budget_mono_witness :
    (3 : Int) ≤ 10
      ∧ (displayOctTreeCulledLOD 3 (fun _ _ => 1) (fun _ _ => true) (fun _ _ => true)
          eightLeaves 3 (0, 0, 0) 1).length
        ≤ (displayOctTreeCulledLOD 3 (fun _ _ => 1) (fun _ _ => true) (fun _ _ => true)
          eightLeaves 10 (0, 0, 0) 1).length :=
  ⟨by decide, displayOctTreeCulledLOD_budget_mono 3 (fun _ _ => 1) (fun _ _ => true)
    (fun _ _ => true) eightLeaves (0, 0, 0) 1 3 10 (by decide)⟩

/-! ## Leaves in mode 0 (C11, C12, C13, C14) -/

/-- The children of a node are visited with the budget `targetpts / c`, `c` the
number of present children, when that quotient is positive. -/
theorem displayOctTreeLOD_children (POINTDIM : Nat) (LOD : Vec3 → ℚ → Bool)
    (child : Fin 8 → bitunion P) (targetpts : Int) (center : Vec3) (size : ℚ)
    (hc : 0 < (octants.filter fun i => (child i).isValid).length)
    (hk : 0 < targetpts.tdiv ((octants.filter fun i => (child i).isValid).length : Int)) :
    displayOctTreeLOD POINTDIM LOD (.mk child) targetpts center size
      = octants.flatMap fun i => displayOctTreeLOD.child POINTDIM LOD (child i)
          (targetpts.tdiv ((octants.filter fun i => (child i).isValid).length : Int))
          (childcenter center size i) size := by
  have htp : ¬ targetpts ≤ 0 := by
    intro h
    have := tdiv_nonpos_of_nonpos targetpts
      (octants.filter fun i => (child i).isValid).length h
    omega
  rw [displayOctTreeLOD, if_neg htp]
  simp only
  rw [POPCOUNT_valid, if_pos hc, if_neg (by
    intro h
    exact absurd h.2 (not_le.mpr hk))]

/-- C11 (counterexample): a visible leaf of 11 points reached with the budget
100 (bucket size below the budget) and rejected by the footprint oracle sends
one point only, not its 11 points. -/
theorem mode0_far_leaf_sends_one_point :
    ((List.range 11).length : Int) ≤ 100
      ∧ (fun (_ : Vec3) (_ : ℚ) => false) (0, 0, 0) (1 / 2) = false
      ∧ displayOctTreeLOD.child 3 (fun _ _ => false) (bitunion.points (List.range 11)) 100
          (0, 0, 0) 1 = [0]
      ∧ displayOctTreeCulledLOD.child 3 (fun _ _ => 1) (fun _ _ => true) (fun _ _ => false)
          (bitunion.points (List.range 11)) 100 (0, 0, 0) 1 = [0] := by
  decide

/-- C11 (amended): a visible leaf with more than 10 points that the footprint
oracle `LOD` rejects sends its first point only, whatever the budget; a visible
leaf with at most 10 points, or accepted by `LOD`, whose size is at most the
budget sends every point of its bucket exactly once, in storage order.  Both
for `displayOctTreeLOD` and `displayOctTreeCulledLOD`. -/
theorem mode0_leaf_pass_through (POINTDIM : Nat) (CubeInFrustum2 : Vec3 → ℚ → Int)
    (CubeInFrustum : Vec3 → ℚ → Bool) (LOD : Vec3 → ℚ → Bool) (pts : List P)
    (newtargetpts : Int) (ccenter : Vec3) (size : ℚ)
    (hvis : CubeInFrustum ccenter (size / 2) = true) :
    (pts.length > 10 → LOD ccenter (size / 2) = false →
        displayOctTreeLOD.child POINTDIM LOD (.points pts) newtargetpts ccenter size
            = pts.take 1
          ∧ displayOctTreeCulledLOD.child POINTDIM CubeInFrustum2 CubeInFrustum LOD
              (.points pts) newtargetpts ccenter size = pts.take 1)
      ∧ ((pts.length ≤ 10 ∨ LOD ccenter (size / 2) = true) →
          (pts.length : Int) ≤ newtargetpts →
        displayOctTreeLOD.child POINTDIM LOD (.points pts) newtargetpts ccenter size = pts
          ∧ displayOctTreeCulledLOD.child POINTDIM CubeInFrustum2 CubeInFrustum LOD
              (.points pts) newtargetpts ccenter size = pts) := by
  constructor
  · intro hL hlod
    rw [displayOctTreeLOD.child, displayOctTreeCulledLOD.child, if_pos hvis,
      if_pos ⟨hL, by simp [hlod]⟩, firstPoint_eq_take]
    exact ⟨rfl, rfl⟩
  · intro hor hle
    have hnot : ¬ (pts.length > 10 ∧ ¬ LOD ccenter (size / 2) = true) := by
      rintro ⟨h1, h2⟩
      rcases hor with h | h
      · omega
      · exact h2 h
    rw [displayOctTreeLOD.child, displayOctTreeCulledLOD.child, if_pos hvis,
      if_neg hnot, if_pos hle]
    exact ⟨rfl, rfl⟩

/-- Witness of C11 (amended): a leaf of 11 points with budget 100, rejected and
accepted by the footprint oracle. -/
theorem mode0_leaf_pass_through_witness :
    (displayOctTreeLOD.child 3 (fun _ _ => false) (bitunion.points (List.range 11)) 100
          (0, 0, 0) 1 = (List.range 11).take 1
        ∧ displayOctTreeCulledLOD.child 3 (fun _ _ => 1) (fun _ _ => true) (fun _ _ => false)
            (bitunion.points (List.range 11)) 100 (0, 0, 0) 1 = (List.range 11).take 1)
      ∧ (displayOctTreeLOD.child 3 (fun _ _ => true) (bitunion.points (List.range 11)) 100
          (0, 0, 0) 1 = List.range 11
        ∧ displayOctTreeCulledLOD.child 3 (fun _ _ => 1) (fun _ _ => true) (fun _ _ => true)
            (bitunion.points (List.range 11)) 100 (0, 0, 0) 1 = List.range 11) :=
  ⟨(mode0_leaf_pass_through 3 (fun _ _ => 1) (fun _ _ => true) (fun _ _ => false)
      (List.range 11) 100 (0, 0, 0) 1 rfl).1 (by decide) rfl,
   (mode0_leaf_pass_through 3 (fun _ _ => 1) (fun _ _ => true) (fun _ _ => true)
      (List.range 11) 100 (0, 0, 0) 1 rfl).2 (Or.inr rfl) (by decide)⟩

/-- On the sampling branch a leaf sends the sub-sample of its bucket. -/
theorem mode0_leaf_sampling (POINTDIM : Nat) (CubeInFrustum2 : Vec3 → ℚ → Int)
    (CubeInFrustum : Vec3 → ℚ → Bool) (LOD : Vec3 → ℚ → Bool) (pts : List P)
    (k : Int) (ccenter : Vec3) (size : ℚ)
    (hkL : k < pts.length) (hvis : CubeInFrustum ccenter (size / 2) = true)
    (hbranch : pts.length ≤ 10 ∨ LOD ccenter (size / 2) = true) :
    displayOctTreeLOD.child POINTDIM LOD (.points pts) k ccenter size
        = strideSample POINTDIM pts k
      ∧ displayOctTreeCulledLOD.child POINTDIM CubeInFrustum2 CubeInFrustum LOD
          (.points pts) k ccenter size = strideSample POINTDIM pts k := by
  have hnot : ¬ (pts.length > 10 ∧ ¬ LOD ccenter (size / 2) = true) := by
    rintro ⟨h1, h2⟩
    rcases hbranch with h | h
    · omega
    · exact h2 h
  rw [displayOctTreeLOD.child, displayOctTreeCulledLOD.child, if_pos hvis,
    if_neg hnot, if_neg (not_le.mpr hkL)]
  exact ⟨rfl, rfl⟩

/-- C12: stride sampling in mode 0.  A visible leaf of size `L` reached with a
budget `k`, `1 ≤ k < L`, on the sampling branch sends exactly `k` points: the
bucket points at `k` strictly increasing indices, all below `L`. -/
theorem mode0_stride_sampling (POINTDIM : Nat) (CubeInFrustum2 : Vec3 → ℚ → Int)
    (CubeInFrustum : Vec3 → ℚ → Bool) (LOD : Vec3 → ℚ → Bool) (pts : List P)
    (k : Int) (ccenter : Vec3) (size : ℚ) (hD : 0 < POINTDIM)
    (hk : 1 ≤ k) (hkL : k < pts.length) (hvis : CubeInFrustum ccenter (size / 2) = true)
    (hbranch : pts.length ≤ 10 ∨ LOD ccenter (size / 2) = true) :
    ∃ idx : List Nat, idx.length = k.toNat ∧ idx.Pairwise (fun a b => a < b)
      ∧ (∀ n ∈ idx, n < pts.length)
      ∧ displayOctTreeLOD.child POINTDIM LOD (.points pts) k ccenter size
          = idx.filterMap (fun n => pts[n]?)
      ∧ displayOctTreeCulledLOD.child POINTDIM CubeInFrustum2 CubeInFrustum LOD
          (.points pts) k ccenter size = idx.filterMap (fun n => pts[n]?)
      ∧ (displayOctTreeLOD.child POINTDIM LOD (.points pts) k ccenter size).length = k.toNat
      ∧ (displayOctTreeCulledLOD.child POINTDIM CubeInFrustum2 CubeInFrustum LOD
          (.points pts) k ccenter size).length = k.toNat := by
  have hk0 : 0 < k := by omega
  have hK : 0 < k.toNat := by omega
  have hKL : k.toNat < pts.length := by omega
  obtain ⟨h1, h2⟩ := mode0_leaf_sampling POINTDIM CubeInFrustum2 CubeInFrustum LOD pts k
    ccenter size hkL hvis hbranch
  have hs : strideSample POINTDIM pts k
      = ((List.range k.toNat).map fun i => i * pts.length / k.toNat).filterMap
          (fun n => pts[n]?) := by
    rw [strideSample_eq POINTDIM pts k hD hk0, List.filterMap_map]
    exact flatMap_toList_eq_filterMap _ _
  refine ⟨(List.range k.toNat).map fun i => i * pts.length / k.toNat, ?_, ?_, ?_, ?_, ?_, ?_, ?_⟩
  · rw [List.length_map, List.length_range]
  · rw [List.pairwise_map]
    exact (List.pairwise_lt_range k.toNat).imp fun {a b} hab =>
      stride_index_strictMono pts.length k.toNat a b hK hKL hab
  · intro n hn
    obtain ⟨i, hi, rfl⟩ := List.mem_map.mp hn
    rcases stride_index_lt pts.length k.toNat i (List.mem_range.mp hi) with h | h
    · exact h
    · omega
  · rw [h1, hs]
  · rw [h2, hs]
  · rw [h1, length_strideSample POINTDIM pts k hk0 hkL]
  · rw [h2, length_strideSample POINTDIM pts k hk0 hkL]

/-- Witness of C12: a leaf of 7 points with budget 3. -/
theorem mode0_stride_sampling_witness :
    ∃ idx : List Nat, idx.length = (3 : Int).toNat ∧ idx.Pairwise (fun a b => a < b)
      ∧ (∀ n ∈ idx, n < (List.range 7).length)
      ∧ displayOctTreeLOD.child 3 (fun _ _ => true) (bitunion.points (List.range 7)) 3
          (0, 0, 0) 1 = idx.filterMap (fun n => (List.range 7)[n]?)
      ∧ displayOctTreeCulledLOD.child 3 (fun _ _ => 1) (fun _ _ => true) (fun _ _ => true)
          (bitunion.points (List.range 7)) 3 (0, 0, 0) 1
            = idx.filterMap (fun n => (List.range 7)[n]?)
      ∧ (displayOctTreeLOD.child 3 (fun _ _ => true) (bitunion.points (List.range 7)) 3
          (0, 0, 0) 1).length = (3 : Int).toNat
      ∧ (displayOctTreeCulledLOD.child 3 (fun _ _ => 1) (fun _ _ => true) (fun _ _ => true)
          (bitunion.points (List.range 7)) 3 (0, 0, 0) 1).length = (3 : Int).toNat :=
  mode0_stride_sampling 3 (fun _ _ => 1) (fun _ _ => true) (fun _ _ => true) (List.range 7) 3
    (0, 0, 0) 1 (by decide) (by decide) (by decide) rfl (Or.inl (by decide))

/-- With exact operations (`rnd = id`) and buckets of less than `2^31` scalars,
`displayOctTreeLOD` in the arithmetic of `T` is the traversal over the
rationals. -/
theorem rounded_displayOctTreeLOD_id (POINTDIM : Nat) (LOD : Vec3 → ℚ → Bool)
    (hD : 0 < POINTDIM) (node : bitoct P) :
    ∀ (targetpts : Int) (center : Vec3) (size : ℚ) (depth : Int),
      (∀ l ∈ octLeaves node center size depth,
        (POINTDIM : Int) * (l.pts.length : Int) ≤ INT_MAX) →
      Rounded.displayOctTreeLOD id POINTDIM LOD node targetpts center size
        = displayOctTreeLOD POINTDIM LOD node targetpts center size := by
  refine @bitoct.rec P
    (fun n => ∀ (targetpts : Int) (center : Vec3) (size : ℚ) (depth : Int),
      (∀ l ∈ octLeaves n center size depth,
        (POINTDIM : Int) * (l.pts.length : Int) ≤ INT_MAX) →
      Rounded.displayOctTreeLOD id POINTDIM LOD n targetpts center size
        = displayOctTreeLOD POINTDIM LOD n targetpts center size)
    (fun c => ∀ (k : Int) (ccenter : Vec3) (size : ℚ) (depth : Int),
      (∀ l ∈ octLeaves.child c ccenter size depth,
        (POINTDIM : Int) * (l.pts.length : Int) ≤ INT_MAX) →
      Rounded.displayOctTreeLOD.child id POINTDIM LOD c k ccenter size
        = displayOctTreeLOD.child POINTDIM LOD c k ccenter size)
    ?_ ?_ ?_ ?_ node
  · intro child ih targetpts center size d hl
    have hchild : ∀ k : Int,
        (octants.flatMap fun i => Rounded.displayOctTreeLOD.child id POINTDIM LOD (child i) k
          (childcenter center size i) size)
        = octants.flatMap fun i => displayOctTreeLOD.child POINTDIM LOD (child i) k
          (childcenter center size i) size := by
      intro k
      refine flatMap_congr_mem _ _ _ fun i hi => ih i k _ _ d fun l hl' => hl l ?_
      rw [octLeaves]
      exact List.mem_flatMap.mpr ⟨i, hi, hl'⟩
    rw [Rounded.displayOctTreeLOD, displayOctTreeLOD]
    simp only [hchild]
  · intro k cc size d _
    rfl
  · intro pts k cc size d hl
    have hmax : (POINTDIM : Int) * (pts.length : Int) ≤ INT_MAX :=
      hl ⟨d + 1, cc, size, pts⟩ (by simp [octLeaves.child])
    rw [Rounded.displayOctTreeLOD.child, displayOctTreeLOD.child,
      rounded_strideSample_id POINTDIM pts k hD hmax]
  · intro n ih k cc size d hl
    rw [Rounded.displayOctTreeLOD.child, displayOctTreeLOD.child]
    exact ih k cc (size / 2) (d + 1) (by simpa [octLeaves.child] using hl)

/-- With exact operations (`rnd = id`) and buckets of less than `2^31` scalars,
`displayOctTreeCulledLOD` in the arithmetic of `T` is the traversal over the
rationals. -/
theorem rounded_displayOctTreeCulledLOD_id (POINTDIM : Nat) (CubeInFrustum2 : Vec3 → ℚ → Int)
    (CubeInFrustum : Vec3 → ℚ → Bool) (LOD : Vec3 → ℚ → Bool)
    (hD : 0 < POINTDIM) (node : bitoct P) :
    ∀ (targetpts : Int) (center : Vec3) (size : ℚ) (depth : Int),
      (∀ l ∈ octLeaves node center size depth,
        (POINTDIM : Int) * (l.pts.length : Int) ≤ INT_MAX) →
      Rounded.displayOctTreeCulledLOD id POINTDIM CubeInFrustum2 CubeInFrustum LOD node
          targetpts center size
        = displayOctTreeCulledLOD POINTDIM CubeInFrustum2 CubeInFrustum LOD node
            targetpts center size := by
  refine @bitoct.rec P
    (fun n => ∀ (targetpts : Int) (center : Vec3) (size : ℚ) (depth : Int),
      (∀ l ∈ octLeaves n center size depth,
        (POINTDIM : Int) * (l.pts.length : Int) ≤ INT_MAX) →
      Rounded.displayOctTreeCulledLOD id POINTDIM CubeInFrustum2 CubeInFrustum LOD n
          targetpts center size
        = displayOctTreeCulledLOD POINTDIM CubeInFrustum2 CubeInFrustum LOD n
            targetpts center size)
    (fun c => ∀ (k : Int) (ccenter : Vec3) (size : ℚ) (depth : Int),
      (∀ l ∈ octLeaves.child c ccenter size depth,
        (POINTDIM : Int) * (l.pts.length : Int) ≤ INT_MAX) →
      Rounded.displayOctTreeCulledLOD.child id POINTDIM CubeInFrustum2 CubeInFrustum LOD c k
          ccenter size
        = displayOctTreeCulledLOD.child POINTDIM CubeInFrustum2 CubeInFrustum LOD c k
            ccenter size)
    ?_ ?_ ?_ ?_ node
  · intro child ih targetpts center size d hl
    have hchild : ∀ k : Int,
        (octants.flatMap fun i => Rounded.displayOctTreeCulledLOD.child id POINTDIM
          CubeInFrustum2 CubeInFrustum LOD (child i) k (childcenter center size i) size)
        = octants.flatMap fun i => displayOctTreeCulledLOD.child POINTDIM CubeInFrustum2
          CubeInFrustum LOD (child i) k (childcenter center size i) size := by
      intro k
      refine flatMap_congr_mem _ _ _ fun i hi => ih i k _ _ d fun l hl' => hl l ?_
      rw [octLeaves]
      exact List.mem_flatMap.mpr ⟨i, hi, hl'⟩
    rw [Rounded.displayOctTreeCulledLOD, displayOctTreeCulledLOD,
      rounded_displayOctTreeLOD_id POINTDIM LOD hD (.mk child) targetpts center size d hl]
    simp only [hchild]
  · intro k cc size d _
    rfl
  · intro pts k cc size d hl
    have hmax : (POINTDIM : Int) * (pts.length : Int) ≤ INT_MAX :=
      hl ⟨d + 1, cc, size, pts⟩ (by simp [octLeaves.child])
    rw [Rounded.displayOctTreeCulledLOD.child, displayOctTreeCulledLOD.child,
      rounded_strideSample_id POINTDIM pts k hD hmax]
  · intro n ih k cc size d hl
    rw [Rounded.displayOctTreeCulledLOD.child, displayOctTreeCulledLOD.child]
    exact ih k cc (size / 2) (d + 1) (by simpa [octLeaves.child] using hl)

/-- On the sampling branch a leaf sends the sub-sample of its bucket, computed
in the arithmetic of `T`. -/
theorem rounded_mode0_leaf_sampling (rnd : ℚ → ℚ) (POINTDIM : Nat)
    (CubeInFrustum2 : Vec3 → ℚ → Int) (CubeInFrustum : Vec3 → ℚ → Bool)
    (LOD : Vec3 → ℚ → Bool) (pts : List P) (k : Int) (ccenter : Vec3) (size : ℚ)
    (hkL : k < pts.length) (hvis : CubeInFrustum ccenter (size / 2) = true)
    (hbranch : pts.length ≤ 10 ∨ LOD ccenter (size / 2) = true) :
    Rounded.displayOctTreeLOD.child rnd POINTDIM LOD (.points pts) k ccenter size
        = Rounded.strideSample rnd POINTDIM pts k
      ∧ Rounded.displayOctTreeCulledLOD.child rnd POINTDIM CubeInFrustum2 CubeInFrustum LOD
          (.points pts) k ccenter size = Rounded.strideSample rnd POINTDIM pts k := by
  have hnot : ¬ (pts.length > 10 ∧ ¬ LOD ccenter (size / 2) = true) := by
    rintro ⟨h1, h2⟩
    rcases hbranch with h | h
    · omega
    · exact h2 h
  rw [Rounded.displayOctTreeLOD.child, Rounded.displayOctTreeCulledLOD.child, if_pos hvis,
    if_neg hnot, if_neg (not_le.mpr hkL)]
  exact ⟨rfl, rfl⟩

/-- In `float` arithmetic, or any arithmetic with the three properties below, a
visible leaf of size `L` with `POINTDIM * L < 2^24` reached with a budget `k`,
`1 ≤ k < L`, `k ≤ 2^22`, on the sampling branch sends exactly `k` points, each a
point of its bucket. -/
theorem rounded_mode0_stride_count (rnd : ℚ → ℚ) (POINTDIM : Nat)
    (CubeInFrustum2 : Vec3 → ℚ → Int) (CubeInFrustum : Vec3 → ℚ → Bool)
    (LOD : Vec3 → ℚ → Bool) (pts : List P) (k : Int) (ccenter : Vec3) (size : ℚ)
    (hnat : ∀ n : Nat, n < 2 ^ 24 → rnd (n : ℚ) = n)
    (hnn : ∀ x : ℚ, 0 ≤ x → 0 ≤ rnd x)
    (hle : ∀ x : ℚ, 0 ≤ x → rnd x ≤ x + x * (2 : ℚ) ^ (-24 : Int) + (2 : ℚ) ^ (-150 : Int))
    (hD : 0 < POINTDIM) (hk : 1 ≤ k) (hkL : k < pts.length)
    (hPL : POINTDIM * pts.length < 2 ^ 24) (hkmax : k ≤ 2 ^ 22)
    (hvis : CubeInFrustum ccenter (size / 2) = true)
    (hbranch : pts.length ≤ 10 ∨ LOD ccenter (size / 2) = true) :
    (Rounded.displayOctTreeLOD.child rnd POINTDIM LOD (.points pts) k ccenter size).length
        = k.toNat
      ∧ (Rounded.displayOctTreeCulledLOD.child rnd POINTDIM CubeInFrustum2 CubeInFrustum LOD
          (.points pts) k ccenter size).length = k.toNat
      ∧ ∀ p ∈ Rounded.displayOctTreeLOD.child rnd POINTDIM LOD (.points pts) k ccenter size,
          p ∈ pts := by
  have hk0 : 0 < k := by omega
  have hkK : k = ((k.toNat : Nat) : Int) := (Int.toNat_of_nonneg hk0.le).symm
  have hDpos : (0 : Int) < (POINTDIM : Int) := by exact_mod_cast hD
  have hin : ∀ j < k.toNat, 0 ≤ Rounded.strideIndex rnd POINTDIM pts.length k j
        ∧ Rounded.strideIndex rnd POINTDIM pts.length k j ≤ INT_MAX
        ∧ Rounded.strideIndex rnd POINTDIM pts.length k j
            < (POINTDIM : Int) * (pts.length : Int) := by
    intro j hj
    have := rounded_strideIndex_inBucket rnd POINTDIM pts.length k.toNat j hnat hnn hle hD
      (by omega) (by omega) hPL (by omega) hj
    rw [← hkK] at this
    exact this
  have hlt : ∀ j < k.toNat,
      (Rounded.strideIndex rnd POINTDIM pts.length k j / (POINTDIM : Int)).toNat
        < pts.length := fun j hj =>
    (rounded_strideSample_getElem? rnd POINTDIM pts k hD hin j hj).1
  obtain ⟨h1, h2⟩ := rounded_mode0_leaf_sampling rnd POINTDIM CubeInFrustum2 CubeInFrustum LOD
    pts k ccenter size hkL hvis hbranch
  have hs := rounded_strideSample_eq rnd POINTDIM pts k hD
    fun j hj => ⟨(hin j hj).1, (hin j hj).2.1⟩
  have hlen : (Rounded.strideSample rnd POINTDIM pts k).length = k.toNat := by
    rw [hs, length_flatMap_const_one, List.length_range]
    intro j hj
    rw [List.getElem?_eq_getElem (hlt j (List.mem_range.mp hj))]
    rfl
  rw [h1, h2]
  refine ⟨hlen, hlen, ?_⟩
  intro p hp
  rw [hs] at hp
  obtain ⟨j, hj, hpj⟩ := List.mem_flatMap.mp hp
  have hget : pts[(Rounded.strideIndex rnd POINTDIM pts.length k j
      / (POINTDIM : Int)).toNat]? = some p := by
    cases h : pts[(Rounded.strideIndex rnd POINTDIM pts.length k j
      / (POINTDIM : Int)).toNat]? with
    | none => rw [h] at hpj; simp at hpj
    | some q => rw [h] at hpj; simp at hpj; rw [hpj]
  exact List.getElem?_mem hget

/-- C13 (counterexample): in `float` arithmetic, and in `double` arithmetic as
well, a leaf of 7 points with budget 3 sends at step 2 the bucket point 4, while
`round (2 * 7 / 3) = 5`.  In `float` arithmetic a leaf of 18 points with budget
10 sends the bucket points 0, 1, 3, 5, 7, 8, 10, 12, 14, 16: at step 5 the
point 8, while `5 * 18 / 10 = 9` exactly. -/
theorem mode0_stride_index_is_not_round :
    (Rounded.displayOctTreeLOD.child roundFloat 3 (fun _ _ => true)
        (bitunion.points (List.range 7)) 3 (0, 0, 0) 1)[2]? = some 4
      ∧ (Rounded.displayOctTreeLOD.child roundDouble 3 (fun _ _ => true)
        (bitunion.points (List.range 7)) 3 (0, 0, 0) 1)[2]? = some 4
      ∧ round ((2 : ℚ) * 7 / 3) = 5
      ∧ (List.range 7)[(round ((2 : ℚ) * 7 / 3)).toNat]? = some 5
      ∧ Rounded.displayOctTreeLOD.child roundFloat 3 (fun _ _ => true)
          (bitunion.points (List.range 18)) 10 (0, 0, 0) 1
          = [0, 1, 3, 5, 7, 8, 10, 12, 14, 16]
      ∧ round ((5 : ℚ) * 18 / 10) = 9 := by
  decide!

/-- C13 (amended): on the sampling branch, for bucket size `L` and budget `k`
with `1 ≤ k < L`, the point sent at step `i < k` is the bucket point at index
`trunc (fl (fl i * each)) / POINTDIM` (integer quotient), where
`each = fl (fl POINTDIM * fl (fl L / fl k))` and `fl` is the rounding of one
operation of the scalar type, provided every step has its `index` in
`0 .. INT_MAX` and inside the bucket.  That proviso holds when
`POINTDIM * L < 2^24`, `k ≤ 2^22` and `fl` keeps the natural numbers below
`2^24`, keeps the sign and adds at most the fraction `2 ^ (-24)` and
`2 ^ (-150)`, as the roundings of `float` and `double` do.  The conversion
truncates and nothing rounds to nearest.  When `k` divides `L` and `fl` keeps
the natural numbers up to `POINTDIM * L`, every operation is exact and the index
is `i * L / k`; with exact operations throughout the index is
`floor (i * L / k)`. -/
theorem mode0_stride_index_truncated (rnd : ℚ → ℚ) (POINTDIM : Nat)
    (CubeInFrustum2 : Vec3 → ℚ → Int) (CubeInFrustum : Vec3 → ℚ → Bool)
    (LOD : Vec3 → ℚ → Bool) (pts : List P) (k : Int) (ccenter : Vec3) (size : ℚ)
    (hD : 0 < POINTDIM) (hk : 1 ≤ k) (hkL : k < pts.length)
    (hvis : CubeInFrustum ccenter (size / 2) = true)
    (hbranch : pts.length ≤ 10 ∨ LOD ccenter (size / 2) = true)
    (i : Nat) (hi : (i : Int) < k) :
    ((∀ j < k.toNat, 0 ≤ Rounded.strideIndex rnd POINTDIM pts.length k j
          ∧ Rounded.strideIndex rnd POINTDIM pts.length k j ≤ INT_MAX
          ∧ Rounded.strideIndex rnd POINTDIM pts.length k j
              < (POINTDIM : Int) * (pts.length : Int)) →
        (Rounded.strideIndex rnd POINTDIM pts.length k i / (POINTDIM : Int)).toNat < pts.length
        ∧ (Rounded.displayOctTreeLOD.child rnd POINTDIM LOD (.points pts) k ccenter size)[i]?
            = pts[(Rounded.strideIndex rnd POINTDIM pts.length k i / (POINTDIM : Int)).toNat]?
        ∧ (Rounded.displayOctTreeCulledLOD.child rnd POINTDIM CubeInFrustum2 CubeInFrustum LOD
            (.points pts) k ccenter size)[i]?
            = pts[(Rounded.strideIndex rnd POINTDIM pts.length k i / (POINTDIM : Int)).toNat]?)
      ∧ ((∀ n : Nat, n < 2 ^ 24 → rnd (n : ℚ) = n) → (∀ x : ℚ, 0 ≤ x → 0 ≤ rnd x) →
          (∀ x : ℚ, 0 ≤ x →
            rnd x ≤ x + x * (2 : ℚ) ^ (-24 : Int) + (2 : ℚ) ^ (-150 : Int)) →
          POINTDIM * pts.length < 2 ^ 24 → k ≤ 2 ^ 22 →
        0 ≤ Rounded.strideIndex rnd POINTDIM pts.length k i
        ∧ Rounded.strideIndex rnd POINTDIM pts.length k i < (POINTDIM : Int) * (pts.length : Int)
        ∧ (Rounded.strideIndex rnd POINTDIM pts.length k i / (POINTDIM : Int)).toNat < pts.length
        ∧ (Rounded.displayOctTreeLOD.child rnd POINTDIM LOD (.points pts) k ccenter size)[i]?
            = pts[(Rounded.strideIndex rnd POINTDIM pts.length k i / (POINTDIM : Int)).toNat]?
        ∧ (Rounded.displayOctTreeCulledLOD.child rnd POINTDIM CubeInFrustum2 CubeInFrustum LOD
            (.points pts) k ccenter size)[i]?
            = pts[(Rounded.strideIndex rnd POINTDIM pts.length k i / (POINTDIM : Int)).toNat]?)
      ∧ ((∀ n : Nat, n ≤ POINTDIM * pts.length → rnd (n : ℚ) = n) →
          (POINTDIM : Int) * (pts.length : Int) ≤ INT_MAX → k.toNat ∣ pts.length →
        (Rounded.displayOctTreeLOD.child rnd POINTDIM LOD (.points pts) k ccenter size)[i]?
            = pts[i * pts.length / k.toNat]?
        ∧ (Rounded.displayOctTreeCulledLOD.child rnd POINTDIM CubeInFrustum2 CubeInFrustum LOD
            (.points pts) k ccenter size)[i]? = pts[i * pts.length / k.toNat]?)
      ∧ ((∀ x : ℚ, rnd x = x) → (POINTDIM : Int) * (pts.length : Int) ≤ INT_MAX →
        (Rounded.displayOctTreeLOD.child rnd POINTDIM LOD (.points pts) k ccenter size)[i]?
            = pts[(⌊(i : ℚ) * (pts.length : ℚ) / (k : ℚ)⌋).toNat]?
        ∧ (Rounded.displayOctTreeCulledLOD.child rnd POINTDIM CubeInFrustum2 CubeInFrustum LOD
            (.points pts) k ccenter size)[i]?
            = pts[(⌊(i : ℚ) * (pts.length : ℚ) / (k : ℚ)⌋).toNat]?) := by
  have hk0 : 0 < k := by omega
  have hiK : i < k.toNat := by omega
  have hL : 0 < pts.length := by omega
  have hkK : k = ((k.toNat : Nat) : Int) := (Int.toNat_of_nonneg hk0.le).symm
  obtain ⟨h1, h2⟩ := rounded_mode0_leaf_sampling rnd POINTDIM CubeInFrustum2 CubeInFrustum LOD
    pts k ccenter size hkL hvis hbranch
  rw [h1, h2]
  refine ⟨fun hin => ?_, fun hnat hnn hle hPL hkmax => ?_, fun hrnd hmax hdvd => ?_,
    fun hrnd hmax => ?_⟩
  · obtain ⟨ha, hb⟩ := rounded_strideSample_getElem? rnd POINTDIM pts k hD hin i hiK
    exact ⟨ha, hb, hb⟩
  · have hin : ∀ j < k.toNat, 0 ≤ Rounded.strideIndex rnd POINTDIM pts.length k j
          ∧ Rounded.strideIndex rnd POINTDIM pts.length k j ≤ INT_MAX
          ∧ Rounded.strideIndex rnd POINTDIM pts.length k j
              < (POINTDIM : Int) * (pts.length : Int) := by
      intro j hj
      have := rounded_strideIndex_inBucket rnd POINTDIM pts.length k.toNat j hnat hnn hle hD
        (by omega) (by omega) hPL (by omega) hj
      rw [← hkK] at this
      exact this
    obtain ⟨ha, hb⟩ := rounded_strideSample_getElem? rnd POINTDIM pts k hD hin i hiK
    exact ⟨(hin i hiK).1, (hin i hiK).2.2, ha, hb, hb⟩
  · have hget := rounded_strideSample_of_dvd rnd POINTDIM pts k.toNat hrnd hD (by omega) hmax
      hdvd hL i hiK
    rw [← hkK] at hget
    exact ⟨hget, hget⟩
  · have hget := rounded_strideSample_of_exact rnd POINTDIM pts k hrnd hD hk0 hmax hL i hi
    exact ⟨hget, hget⟩

/-- Witness of C13 (amended).  In `float` arithmetic: a leaf of 18 points with
budget 10 at step 5, where `index = 26` and the point sent is number
`26 / 3 = 8`; a leaf of 100 points with budget 10 at step 7, where 10 divides
100 and the point sent is number `7 * 100 / 10 = 70`.  In `double` arithmetic: a
leaf of 7 points with budget 3 at step 2, every step being inside the bucket.
With exact operations: the same leaf, where the point sent is number
`floor (2 * 7 / 3)`. -/
theorem mode0_stride_index_truncated_witness :
    (Rounded.strideIndex roundFloat 3 (List.range 18).length 10 5 = 26
      ∧ (Rounded.displayOctTreeLOD.child roundFloat 3 (fun _ _ => true)
          (bitunion.points (List.range 18)) 10 (0, 0, 0) 1)[5]?
          = (List.range 18)[(Rounded.strideIndex roundFloat 3 (List.range 18).length 10 5
              / ((3 : Nat) : Int)).toNat]?
      ∧ (List.range 18)[(Rounded.strideIndex roundFloat 3 (List.range 18).length 10 5
              / ((3 : Nat) : Int)).toNat]? = some 8)
      ∧ (Rounded.displayOctTreeCulledLOD.child roundFloat 3 (fun _ _ => 1) (fun _ _ => true)
          (fun _ _ => true) (bitunion.points (List.range 100)) 10 (0, 0, 0) 1)[7]?
          = (List.range 100)[7 * (List.range 100).length / (10 : Int).toNat]?
      ∧ (Rounded.displayOctTreeLOD.child roundDouble 3 (fun _ _ => true)
          (bitunion.points (List.range 7)) 3 (0, 0, 0) 1)[2]?
          = (List.range 7)[(Rounded.strideIndex roundDouble 3 (List.range 7).length 3 2
              / ((3 : Nat) : Int)).toNat]?
      ∧ (Rounded.displayOctTreeLOD.child id 3 (fun _ _ => true)
          (bitunion.points (List.range 7)) 3 (0, 0, 0) 1)[2]?
          = (List.range 7)[(⌊((2 : Nat) : ℚ) * ((List.range 7).length : ℚ)
              / ((3 : Int) : ℚ)⌋).toNat]? :=
  ⟨⟨by decide!,
    ((mode0_stride_index_truncated roundFloat 3 (fun _ _ => 1) (fun _ _ => true)
      (fun _ _ => true) (List.range 18) 10 (0, 0, 0) 1 (by decide) (by decide) (by decide) rfl
      (Or.inr rfl) 5 (by decide)).2.1 roundFloat_natCast roundFloat_nonneg roundFloat_le
        (by decide) (by decide)).2.2.2.1,
    by decide!⟩,
   ((mode0_stride_index_truncated roundFloat 3 (fun _ _ => 1) (fun _ _ => true)
      (fun _ _ => true) (List.range 100) 10 (0, 0, 0) 1 (by decide) (by decide) (by decide) rfl
      (Or.inr rfl) 7 (by decide)).2.2.1
        (fun n hn => roundFloat_natCast n (lt_of_le_of_lt hn (by decide)))
        (by decide) (by decide)).2,
   ((mode0_stride_index_truncated roundDouble 3 (fun _ _ => 1) (fun _ _ => true)
      (fun _ _ => true) (List.range 7) 3 (0, 0, 0) 1 (by decide) (by decide) (by decide) rfl
      (Or.inr rfl) 2 (by decide)).1 (by decide!)).2.1,
   ((mode0_stride_index_truncated id 3 (fun _ _ => 1) (fun _ _ => true)
      (fun _ _ => true) (List.range 7) 3 (0, 0, 0) 1 (by decide) (by decide) (by decide) rfl
      (Or.inr rfl) 2 (by decide)).2.2.2 (fun _ => rfl) (by decide)).1⟩

/-- C14 (counterexample): the root with one leaf of 100 points, budget 10,
visibility always fully inside; with a footprint oracle that rejects the leaf
one point is sent, not ten. -/
theorem single_leaf_budget_ten_far :
    displayOctTreeCulled 3 (fun _ _ => 2) (fun _ _ => true) (fun _ _ => false)
      (create (singleOct 0 (bitunion.points (List.range 100))) (0, 0, 0) 1 1) 10 = [0] := by
  decide

/-- C14 (amended): the root has a single child, a leaf of 100 points (point `j`
at index `j`), the budget is 10 and the visibility oracle always answers fully
inside.  When the footprint oracle `LOD` accepts the leaf box, exactly the ten
points at the indices 0, 10, ..., 90 are sent; when it rejects it, the point at
index 0 only. -/
theorem single_leaf_budget_ten (POINTDIM : Nat) (hD : 0 < POINTDIM)
    (CubeInFrustum : Vec3 → ℚ → Bool) (LOD : Vec3 → ℚ → Bool) (i : Fin 8)
    (center : Vec3) (size : ℚ) (max_depth : Int) :
    displayOctTreeCulled POINTDIM (fun _ _ => 2) CubeInFrustum LOD
        (create (singleOct i (bitunion.points (List.range 100))) center size max_depth) 10
      = if LOD (childcenter center size i) (size / 2) = true
          then [0, 10, 20, 30, 40, 50, 60, 70, 80, 90] else [0] := by
  have hc : ∀ i : Fin 8, (octants.filter fun j =>
      (if j = i then bitunion.points (List.range 100) else bitunion.absent).isValid).length
        = 1 := by
    decide
  have hnode : displayOctTreeLOD POINTDIM LOD
      (singleOct i (bitunion.points (List.range 100))) 10 center size
      = displayOctTreeLOD.child POINTDIM LOD (bitunion.points (List.range 100)) 10
          (childcenter center size i) size := by
    rw [singleOct, displayOctTreeLOD_children POINTDIM LOD _ 10 center size
      (by rw [hc i]; decide) (by rw [hc i]; decide), hc i]
    rw [flatMap_octants_single _ i]
    · simp
    · intro j hj
      simp [hj, displayOctTreeLOD.child]
  have hroot : displayOctTreeCulled POINTDIM (fun _ _ => 2) CubeInFrustum LOD
        (create (singleOct i (bitunion.points (List.range 100))) center size max_depth) 10
      = displayOctTreeLOD POINTDIM LOD
          (singleOct i (bitunion.points (List.range 100))) 10 center size := by
    simp [displayOctTreeCulled, create, singleOct, displayOctTreeCulledLOD]
  rw [hroot, hnode]
  by_cases hlod : LOD (childcenter center size i) (size / 2) = true
  · rw [if_pos hlod, (mode0_leaf_sampling POINTDIM (fun _ _ => 2) (fun _ _ => true) LOD
      (List.range 100) 10 (childcenter center size i) size (by decide) rfl (Or.inr hlod)).1,
      strideSample_eq POINTDIM (List.range 100) 10 hD (by decide)]
    decide
  · rw [if_neg hlod, displayOctTreeLOD.child, if_pos ⟨by decide, hlod⟩]
    rfl

/-- Witness of C14 (amended): three coordinates per point, leaf in octant 0,
footprint oracle that accepts every box. -/
theorem single_leaf_budget_ten_witness :
    displayOctTreeCulled 3 (fun _ _ => 2) (fun _ _ => true) (fun _ _ => true)
        (create (singleOct 0 (bitunion.points (List.range 100))) (0, 0, 0) 1 1) 10
      = if (fun (_ : Vec3) (_ : ℚ) => true) (childcenter (0, 0, 0) 1 0) (1 / 2) = true
          then [0, 10, 20, 30, 40, 50, 60, 70, 80, 90] else [0] :=
  single_leaf_budget_ten 3 (by decide) (fun _ _ => true) (fun _ _ => true) 0 (0, 0, 0) 1 1

/-! ## Degenerate budgets in mode 0 (C15) -/

/-- C15: in mode 0 a budget `targetpts ≤ 0`, or a budget `0 < targetpts < c` on
a node with `c > 0` present children (so that `targetpts / c = 0`), makes both
`displayOctTreeLOD` and `displayOctTreeCulledLOD` return at once: nothing is
sent, whatever the children are. -/
theorem mode0_degenerate_budget (POINTDIM : Nat) (CubeInFrustum2 : Vec3 → ℚ → Int)
    (CubeInFrustum : Vec3 → ℚ → Bool) (LOD : Vec3 → ℚ → Bool)
    (child : Fin 8 → bitunion P) (targetpts : Int) (center : Vec3) (size : ℚ)
    (h : targetpts ≤ 0
      ∨ (0 < (octants.filter fun i => (child i).isValid).length
        ∧ 0 < targetpts
        ∧ targetpts < ((octants.filter fun i => (child i).isValid).length : Int))) :
    displayOctTreeLOD POINTDIM LOD (.mk child) targetpts center size = []
      ∧ displayOctTreeCulledLOD POINTDIM CubeInFrustum2 CubeInFrustum LOD (.mk child)
          targetpts center size = [] := by
  have hLOD : displayOctTreeLOD POINTDIM LOD (.mk child) targetpts center size = [] := by
    rw [displayOctTreeLOD]
    rcases h with h | ⟨hc, h0, hlt⟩
    · rw [if_pos h]
    · rw [if_neg (not_le.mpr h0)]
      simp only
      rw [POPCOUNT_valid]
      have hdiv : targetpts.tdiv ((octants.filter fun i => (child i).isValid).length : Int)
          = 0 := by
        rw [Int.tdiv_eq_ediv h0.le (Int.natCast_nonneg _)]
        exact Int.ediv_eq_zero_of_lt h0.le hlt
      rw [if_pos hc, hdiv, if_pos ⟨hc, le_refl 0⟩]
  refine ⟨hLOD, ?_⟩
  rw [displayOctTreeCulledLOD]
  by_cases htp : targetpts ≤ 0
  · rw [if_pos htp]
  · rw [if_neg htp]
    by_cases hout : CubeInFrustum2 center size = 0
    · rw [if_pos hout]
    · rw [if_neg hout]
      by_cases hin : CubeInFrustum2 center size = 2
      · rw [if_pos hin]
        exact hLOD
      · rw [if_neg hin]
        rcases h with h | ⟨hc, h0, hlt⟩
        · exact absurd h htp
        · simp only
          rw [POPCOUNT_valid]
          have hdiv : targetpts.tdiv ((octants.filter fun i => (child i).isValid).length : Int)
              = 0 := by
            rw [Int.tdiv_eq_ediv h0.le (Int.natCast_nonneg _)]
            exact Int.ediv_eq_zero_of_lt h0.le hlt
          rw [if_pos hc, hdiv, if_pos ⟨hc, le_refl 0⟩]

/-- Witness of C15: budget 7 on eight leaves, and budget 0. -/
theorem mode0_degenerate_budget_witness :
    (displayOctTreeLOD 3 (fun _ _ => true) eightLeaves 7 (0, 0, 0) 1 = []
        ∧ displayOctTreeCulledLOD 3 (fun _ _ => 1) (fun _ _ => true) (fun _ _ => true)
            eightLeaves 7 (0, 0, 0) 1 = [])
      ∧ (displayOctTreeLOD 3 (fun _ _ => true) eightLeaves 0 (0, 0, 0) 1 = []
        ∧ displayOctTreeCulledLOD 3 (fun _ _ => 1) (fun _ _ => true) (fun _ _ => true)
            eightLeaves 0 (0, 0, 0) 1 = []) :=
  ⟨mode0_degenerate_budget 3 (fun _ _ => 1) (fun _ _ => true) (fun _ _ => true)
      (fun i => bitunion.points
        [5 * i.val, 5 * i.val + 1, 5 * i.val + 2, 5 * i.val + 3, 5 * i.val + 4])
      7 (0, 0, 0) 1 (Or.inr (by decide)),
   mode0_degenerate_budget 3 (fun _ _ => 1) (fun _ _ => true) (fun _ _ => true)
      (fun i => bitunion.points
        [5 * i.val, 5 * i.val + 1, 5 * i.val + 2, 5 * i.val + 3, 5 * i.val + 4])
      0 (0, 0, 0) 1 (Or.inl (by decide))⟩

/-! ## Exhaustiveness of the unculled traversal (C16, C17) -/

/-- The vertices sent by `displayOctTreeAll` are the buckets of the leaves, one
after the other, whatever frame the leaves are listed in. -/
theorem displayOctTreeAll_eq_leafPoints (node : bitoct P) :
    ∀ (center : Vec3) (size : ℚ) (depth : Int),
      displayOctTreeAll node = leafPoints (octLeaves node center size depth) := by
  refine @bitoct.rec P
    (fun n => ∀ (center : Vec3) (size : ℚ) (depth : Int),
      displayOctTreeAll n = leafPoints (octLeaves n center size depth))
    (fun c => ∀ (ccenter : Vec3) (size : ℚ) (depth : Int),
      displayOctTreeAll.child c = leafPoints (octLeaves.child c ccenter size depth))
    ?_ ?_ ?_ ?_ node
  · intro child ih center size d
    rw [displayOctTreeAll, octLeaves, leafPoints_flatMap]
    exact flatMap_congr_mem _ _ _ fun i _ => ih i _ _ _
  · intro cc size d
    rfl
  · intro pts cc size d
    simp [displayOctTreeAll.child, octLeaves.child, leafPoints]
  · intro n ih cc size d
    rw [displayOctTreeAll.child, octLeaves.child]
    exact ih cc (size / 2) (d + 1)

/-- C16: `displayOctTreeAll` sends every point of every leaf bucket exactly
once: the sequence sent is the concatenation of the buckets of the leaves in
depth-first, increasing-octant order, and its length is the total number of
stored points. -/
theorem displayOctTreeAll_exhaustive (node : bitoct P) (center : Vec3) (size : ℚ) :
    displayOctTreeAll node = leafPoints (octLeaves node center size 0)
      ∧ (displayOctTreeAll node).length
          = ((octLeaves node center size 0).map fun l => l.pts.length).sum := by
  have h := displayOctTreeAll_eq_leafPoints node center size 0
  exact ⟨h, by rw [h, length_leafPoints]⟩

/-- C17 (counterexample): `draw()` depends on the visibility oracle.  On eight
leaves of five points an oracle that answers fully outside makes it send
nothing, one that answers fully inside makes it send the forty points. -/
theorem draw_depends_on_visibility :
    draw (fun _ _ => 0) (create eightLeaves (0, 0, 0) 1 1) = []
      ∧ (draw (fun _ _ => 2) (create eightLeaves (0, 0, 0) 1 1)).length = 40
      ∧ (leafPoints (octLeaves eightLeaves (0, 0, 0) 1 0)).length = 40 := by
  decide

/-- C17 (amended): `draw()` is culled at internal nodes.  When the visibility
oracle classifies no internal node of the tree fully outside, it sends every
point of the tree exactly once, in depth-first, increasing-octant order. -/
theorem draw_exhaustive_of_not_outside (CubeInFrustum2 : Vec3 → ℚ → Int)
    (t : Show_BOctTree P)
    (hnodes : ∀ b ∈ octNodes t.root t.center t.size 0, CubeInFrustum2 b.center b.size ≠ 0) :
    draw CubeInFrustum2 t = leafPoints (octLeaves t.root t.center t.size 0) := by
  have key : ∀ (node : bitoct P) (center : Vec3) (size : ℚ) (depth : Int),
      (∀ b ∈ octNodes node center size depth, CubeInFrustum2 b.center b.size ≠ 0) →
      displayOctTreeAllCulled CubeInFrustum2 node center size
        = leafPoints (octLeaves node center size depth) := by
    intro node
    refine @bitoct.rec P
      (fun n => ∀ (center : Vec3) (size : ℚ) (depth : Int),
        (∀ b ∈ octNodes n center size depth, CubeInFrustum2 b.center b.size ≠ 0) →
        displayOctTreeAllCulled CubeInFrustum2 n center size
          = leafPoints (octLeaves n center size depth))
      (fun c => ∀ (ccenter : Vec3) (size : ℚ) (depth : Int),
        (∀ b ∈ octNodes.child c ccenter size depth, CubeInFrustum2 b.center b.size ≠ 0) →
        displayOctTreeAllCulled.child CubeInFrustum2 c ccenter size
          = leafPoints (octLeaves.child c ccenter size depth))
      ?_ ?_ ?_ ?_ node
    · intro child ih center size d hn
      have hroot : CubeInFrustum2 center size ≠ 0 :=
        hn ⟨d, center, size⟩ (by simp [octNodes])
      rw [displayOctTreeAllCulled, if_neg hroot]
      by_cases hin : CubeInFrustum2 center size = 2
      · rw [if_pos hin]
        exact displayOctTreeAll_eq_leafPoints _ center size d
      · rw [if_neg hin, octLeaves, leafPoints_flatMap]
        refine flatMap_congr_mem _ _ _ fun i hi => ih i _ _ d ?_
        intro b hb
        exact hn b (by
          rw [octNodes]
          exact List.mem_cons_of_mem _ (List.mem_flatMap.mpr ⟨i, hi, hb⟩))
    · intro cc size d _
      rfl
    · intro pts cc size d _
      simp [displayOctTreeAllCulled.child, octLeaves.child, leafPoints]
    · intro n ih cc size d hn
      rw [displayOctTreeAllCulled.child, octLeaves.child]
      exact ih cc (size / 2) (d + 1) (by simpa [octNodes.child] using hn)
  exact key t.root t.center t.size 0 hnodes

/-- Witness of C17 (amended): `nearDeepFarShallow` under an oracle that answers
partially inside everywhere. -/
theorem draw_exhaustive_of_not_outside_witness :
    draw (fun _ _ => 1) (create nearDeepFarShallow (0, 0, 0) 1 2)
      = leafPoints (octLeaves (create nearDeepFarShallow (0, 0, 0) 1 2).root
          (create nearDeepFarShallow (0, 0, 0) 1 2).center
          (create nearDeepFarShallow (0, 0, 0) 1 2).size 0) :=
  draw_exhaustive_of_not_outside (fun _ _ => 1) (create nearDeepFarShallow (0, 0, 0) 1 2)
    (by decide)

/-! ## Mode 1: the scaled footprint (C18, C19, C20) -/

/-- C18 (counterexample): footprint 3 and ratio 1/2 (a `float`).  The budget
used by the code is 4, the truncation of `3 * 3 * (1/2)`, and a visible leaf of
9 points sends 4 of them; the truncation of `3 * (1/2) * (1/2)` is 0.  With
footprint 10 and the `float` nearest to 0.7 the budget is 70, with footprint
46341 and ratio 1 it is 0 (the `int` product `46341 * 46341` wraps around to a
negative value). -/
theorem mode1_budget_is_not_ratio_squared :
    Rounded.scaledLOD2 (fun _ _ => 3) (1 / 2) (0, 0, 0) 1 = 4
      ∧ roundFloat (1 / 2) = 1 / 2
      ∧ max (toInt ((3 : ℚ) * (1 / 2) * (1 / 2))) 0 = 0
      ∧ (Rounded.displayOctTreeCulledLOD2.child roundFloat 3 (fun _ _ => 1) (fun _ _ => true)
          (fun _ _ => 3) (1 / 2) (bitunion.points (List.range 9)) (0, 0, 0) 1).length = 4
      ∧ (Rounded.displayOctTreeLOD2.child roundFloat 3 (fun _ _ => 1) (fun _ _ => true)
          (fun _ _ => 3) (1 / 2) (bitunion.points (List.range 9)) (0, 0, 0) 1).length = 4
      ∧ Rounded.scaledLOD2 (fun _ _ => 10) (roundFloat (7 / 10)) (0, 0, 0) 1 = 70
      ∧ max (toInt ((10 : ℚ) * roundFloat (7 / 10) * roundFloat (7 / 10))) 0 = 4
      ∧ Rounded.scaledLOD2 (fun _ _ => 46341) 1 (0, 0, 0) 1 = 0
      ∧ max (toInt ((46341 : ℚ) * 1 * 1)) 0 = 46341 := by
  decide!

/-- C18 (amended): at a leaf, the point budget `l` of mode 1 is
`max (trunc (fl (fl (w) * ratio))) 0`, where `w` is the 32-bit `int` product
`footprint * footprint` (the footprint is squared, not the ratio) and `fl` is
the rounding of `float`.  For a footprint whose square is at most `INT_MAX` and
a ratio `≥ 0` this is `floor (fl (fl (footprint ^ 2) * ratio))`, a value of the
range of `int` when the ratio is at most 1; for a
footprint whose square is below `2^24` the square is a `float` and
`l = max (trunc (fl (footprint ^ 2 * ratio))) 0`, which is
`floor (footprint ^ 2 * ratio)` when the product is a `float` and the ratio is
`≥ 0`.  Both leaf bodies branch on that `l`. -/
theorem mode1_leaf_budget (rnd : ℚ → ℚ) (POINTDIM : Nat) (CubeInFrustum2 : Vec3 → ℚ → Int)
    (CubeInFrustum : Vec3 → ℚ → Bool) (LOD2 : Vec3 → ℚ → Int) ( ratio : ℚ)
    (pts : List P) (ccenter : Vec3) (size : ℚ) :
    Rounded.scaledLOD2 LOD2 ratio ccenter size
        = max (toInt (roundFloat (roundFloat
            ((wrapInt32 (LOD2 ccenter (size / 2) * LOD2 ccenter (size / 2)) : Int) : ℚ)
              * ratio))) 0
      ∧ 0 ≤ Rounded.scaledLOD2 LOD2 ratio ccenter size
      ∧ (LOD2 ccenter (size / 2) * LOD2 ccenter (size / 2) ≤ INT_MAX → 0 ≤ ratio →
          ratio ≤ 1 → Rounded.scaledLOD2 LOD2 ratio ccenter size ≤ INT_MAX)
      ∧ (LOD2 ccenter (size / 2) * LOD2 ccenter (size / 2) ≤ INT_MAX → 0 ≤ ratio →
          Rounded.scaledLOD2 LOD2 ratio ccenter size
            = ⌊roundFloat (roundFloat ((LOD2 ccenter (size / 2) : ℚ) ^ 2) * ratio)⌋)
      ∧ (LOD2 ccenter (size / 2) * LOD2 ccenter (size / 2) < 2 ^ 24 →
          Rounded.scaledLOD2 LOD2 ratio ccenter size
            = max (toInt (roundFloat ((LOD2 ccenter (size / 2) : ℚ) ^ 2 * ratio))) 0)
      ∧ (LOD2 ccenter (size / 2) * LOD2 ccenter (size / 2) < 2 ^ 24 → 0 ≤ ratio →
          roundFloat ((LOD2 ccenter (size / 2) : ℚ) ^ 2 * ratio)
            = (LOD2 ccenter (size / 2) : ℚ) ^ 2 * ratio →
          Rounded.scaledLOD2 LOD2 ratio ccenter size
            = ⌊(LOD2 ccenter (size / 2) : ℚ) ^ 2 * ratio⌋)
      ∧ Rounded.displayOctTreeLOD2.child rnd POINTDIM CubeInFrustum2 CubeInFrustum LOD2 ratio
          (.points pts) ccenter size
        = (if Rounded.scaledLOD2 LOD2 ratio ccenter size > 1 then
            if (pts.length : Int) > Rounded.scaledLOD2 LOD2 ratio ccenter size then
              Rounded.strideSample rnd POINTDIM pts (Rounded.scaledLOD2 LOD2 ratio ccenter size)
            else pts
          else firstPoint pts)
      ∧ (CubeInFrustum ccenter (size / 2) = true →
        Rounded.displayOctTreeCulledLOD2.child rnd POINTDIM CubeInFrustum2 CubeInFrustum LOD2
          ratio (.points pts) ccenter size
        = (if Rounded.scaledLOD2 LOD2 ratio ccenter size = 0 then []
          else if (pts.length : Int) > Rounded.scaledLOD2 LOD2 ratio ccenter size then
              Rounded.strideSample rnd POINTDIM pts (Rounded.scaledLOD2 LOD2 ratio ccenter size)
          else pts)) := by
  have hsq : ((LOD2 ccenter (size / 2) * LOD2 ccenter (size / 2) : Int) : ℚ)
      = (LOD2 ccenter (size / 2) : ℚ) ^ 2 := by
    push_cast
    ring
  have hsq0 : (0 : Int) ≤ LOD2 ccenter (size / 2) * LOD2 ccenter (size / 2) :=
    mul_self_nonneg _
  have hsmall : LOD2 ccenter (size / 2) * LOD2 ccenter (size / 2) < 2 ^ 24 →
      Rounded.scaledLOD2 LOD2 ratio ccenter size
        = max (toInt (roundFloat ((LOD2 ccenter (size / 2) : ℚ) ^ 2 * ratio))) 0 := by
    intro h
    rw [Rounded.scaledLOD2, wrapInt32_eq _ (by omega) (by unfold INT_MAX; omega),
      roundFloat_sq _ h, hsq]
  refine ⟨rfl, le_max_right _ _,
    fun hmax h0 h1 => rounded_scaledLOD2_le_INT_MAX LOD2 ratio ccenter size hmax h0 h1,
    ?_, hsmall, ?_, ?_, ?_⟩
  · intro hmax hr
    have hq : (0 : ℚ) ≤ roundFloat (roundFloat ((LOD2 ccenter (size / 2) : ℚ) ^ 2) * ratio) :=
      roundFloat_nonneg _ (mul_nonneg (roundFloat_nonneg _ (sq_nonneg _)) hr)
    rw [Rounded.scaledLOD2, wrapInt32_eq _ (by omega) hmax, hsq, toInt_eq_floor hq,
      max_eq_left (Int.floor_nonneg.mpr hq)]
  · intro h hr hex
    have hq : (0 : ℚ) ≤ (LOD2 ccenter (size / 2) : ℚ) ^ 2 * ratio :=
      mul_nonneg (sq_nonneg _) hr
    rw [hsmall h, hex, toInt_eq_floor hq, max_eq_left (Int.floor_nonneg.mpr hq)]
  · rw [Rounded.displayOctTreeLOD2.child]
    by_cases h1 : Rounded.scaledLOD2 LOD2 ratio ccenter size > 1
    · simp only [if_pos h1]
      by_cases h2 : (pts.length : Int) > Rounded.scaledLOD2 LOD2 ratio ccenter size
      · rw [if_pos h2, if_pos h2]
      · rw [if_neg h2, if_pos (not_lt.mp h2), if_neg h2]
    · simp only [if_neg h1]
  · intro hvis
    rw [Rounded.displayOctTreeCulledLOD2.child, if_pos hvis]
    by_cases h1 : Rounded.scaledLOD2 LOD2 ratio ccenter size = 0
    · simp only [h1, ne_eq, not_true_eq_false, if_false, if_true]
    · simp only [ne_eq, h1, not_false_eq_true, if_true, if_false]
      by_cases h2 : (pts.length : Int) > Rounded.scaledLOD2 LOD2 ratio ccenter size
      · rw [if_pos h2, if_pos h2]
      · rw [if_neg h2, if_pos (not_lt.mp h2), if_neg h2]

/-- Witness of C18 (amended): footprint 10 and the `float` nearest to 0.7 give
the budget `trunc (fl (100 * ratio)) = floor (fl (fl 100 * ratio)) = 70` (the
exact product is below 70); footprint 3 and ratio 1/2 give the budget
`floor (9 / 2)`; footprint 46340 and ratio 1 give a budget in the range of
`int`. -/
theorem mode1_leaf_budget_witness :
    (Rounded.scaledLOD2 (fun _ _ => 10) (roundFloat (7 / 10)) (0, 0, 0) 1
        = max (toInt (roundFloat ((((fun (_ : Vec3) (_ : ℚ) => (10 : Int)) (0, 0, 0)
            ((1 : ℚ) / 2) : Int) : ℚ) ^ 2 * roundFloat (7 / 10)))) 0
      ∧ max (toInt (roundFloat ((10 : ℚ) ^ 2 * roundFloat (7 / 10)))) 0 = 70
      ∧ toInt ((10 : ℚ) ^ 2 * roundFloat (7 / 10)) = 69)
      ∧ Rounded.scaledLOD2 (fun _ _ => 10) (roundFloat (7 / 10)) (0, 0, 0) 1
        = ⌊roundFloat (roundFloat ((((fun (_ : Vec3) (_ : ℚ) => (10 : Int)) (0, 0, 0)
            ((1 : ℚ) / 2) : Int) : ℚ) ^ 2) * roundFloat (7 / 10))⌋
      ∧ Rounded.scaledLOD2 (fun _ _ => 3) (1 / 2) (0, 0, 0) 1
        = ⌊(((fun (_ : Vec3) (_ : ℚ) => (3 : Int)) (0, 0, 0) ((1 : ℚ) / 2) : Int) : ℚ) ^ 2
            * (1 / 2)⌋
      ∧ Rounded.scaledLOD2 (fun _ _ => 46340) 1 (0, 0, 0) 1 ≤ INT_MAX :=
  ⟨⟨(mode1_leaf_budget roundFloat 3 (fun _ _ => 1) (fun _ _ => true) (fun _ _ => 10)
      (roundFloat (7 / 10)) ([] : List Nat) (0, 0, 0) 1).2.2.2.2.1 (by decide),
    by decide!, by decide!⟩,
   (mode1_leaf_budget roundFloat 3 (fun _ _ => 1) (fun _ _ => true) (fun _ _ => 10)
      (roundFloat (7 / 10)) ([] : List Nat) (0, 0, 0) 1).2.2.2.1 (by decide)
      (roundFloat_nonneg _ (by norm_num)),
   (mode1_leaf_budget roundFloat 3 (fun _ _ => 1) (fun _ _ => true) (fun _ _ => 3) (1 / 2)
      ([] : List Nat) (0, 0, 0) 1).2.2.2.2.2.1 (by decide) (by norm_num) (by decide!),
   (mode1_leaf_budget roundFloat 3 (fun _ _ => 1) (fun _ _ => true) (fun _ _ => 46340) 1
      ([] : List Nat) (0, 0, 0) 1).2.2.1 (by decide) (by norm_num) (by norm_num)⟩

/-- C19 (code bug): in the unculled traversal a leaf whose scaled footprint is 0
sends its first point.  With a footprint oracle that answers 0 everywhere the
leaf body of `displayOctTreeLOD2` sends point 7 of the bucket `[7, 8]` where the
leaf body of `displayOctTreeCulledLOD2` sends nothing, and `drawLOD` in mode 1
on a root that is fully inside draws point 7. -/
theorem mode1_unculled_zero_footprint_sends_point :
    scaledLOD2 (fun _ _ => 0) 1 (0, 0, 0) 1 = 0
      ∧ displayOctTreeLOD2.child 3 (fun _ _ => 2) (fun _ _ => true) (fun _ _ => 0) 1
          (bitunion.points [7, 8]) (0, 0, 0) 1 = [7]
      ∧ displayOctTreeCulledLOD2.child 3 (fun _ _ => 2) (fun _ _ => true) (fun _ _ => 0) 1
          (bitunion.points [7, 8]) (0, 0, 0) 1 = []
      ∧ drawLOD 3 true (fun _ _ => 2) (fun _ _ => true) (fun _ _ => true) (fun _ _ => 0)
          (cycleLOD (create (singleOct 0 (bitunion.points [7, 8])) (0, 0, 0) 1 1)) 1
          = [Sprite.point 7] := by
  decide!

/-- C20 (code bug): the culled traversal recurses into an internal child whose
scaled footprint is 0.  On `deepLeaf` (root of half-size 1, every box partially
visible) the internal child has the scaled footprint 0 under
`footprintZeroAtHalf`; `displayOctTreeCulledLOD2` still sends point 7 from below
it, where `displayOctTreeLOD2` sends nothing. -/
theorem mode1_culled_recurses_at_zero_footprint :
    scaledLOD2 footprintZeroAtHalf 1 (childcenter (0, 0, 0) 1 0) 1 = 0
      ∧ displayOctTreeCulledLOD2 3 (fun _ _ => 1) (fun _ _ => true) footprintZeroAtHalf 1
          deepLeaf (0, 0, 0) 1 = [7]
      ∧ displayOctTreeLOD2 3 (fun _ _ => 1) (fun _ _ => true) footprintZeroAtHalf 1
          deepLeaf (0, 0, 0) 1 = [] := by
  decide!

/-! ## Mode 1: the number of points of a leaf (C21) -/

/-- C21: in mode 1 a non-empty visible leaf of size `L` whose scaled footprint
is `l ≥ 1` sends, in both traversals, the `l` sub-sampled points of its bucket
when `L > l` and its whole bucket otherwise: `min l L` points. -/
theorem mode1_leaf_count (POINTDIM : Nat) (CubeInFrustum2 : Vec3 → ℚ → Int)
    (CubeInFrustum : Vec3 → ℚ → Bool) (LOD2 : Vec3 → ℚ → Int) ( ratio : ℚ)
    (pts : List P) (ccenter : Vec3) (size : ℚ) (hne : pts ≠ [])
    (hvis : CubeInFrustum ccenter (size / 2) = true)
    (hl : 1 ≤ scaledLOD2 LOD2 ratio ccenter size) :
    displayOctTreeLOD2.child POINTDIM CubeInFrustum2 CubeInFrustum LOD2 ratio (.points pts)
          ccenter size
        = (if (pts.length : Int) > scaledLOD2 LOD2 ratio ccenter size
            then strideSample POINTDIM pts (scaledLOD2 LOD2 ratio ccenter size) else pts)
      ∧ displayOctTreeCulledLOD2.child POINTDIM CubeInFrustum2 CubeInFrustum LOD2 ratio
          (.points pts) ccenter size
        = (if (pts.length : Int) > scaledLOD2 LOD2 ratio ccenter size
            then strideSample POINTDIM pts (scaledLOD2 LOD2 ratio ccenter size) else pts)
      ∧ (displayOctTreeLOD2.child POINTDIM CubeInFrustum2 CubeInFrustum LOD2 ratio
          (.points pts) ccenter size).length
        = min (scaledLOD2 LOD2 ratio ccenter size).toNat pts.length
      ∧ (displayOctTreeCulledLOD2.child POINTDIM CubeInFrustum2 CubeInFrustum LOD2 ratio
          (.points pts) ccenter size).length
        = min (scaledLOD2 LOD2 ratio ccenter size).toNat pts.length := by
  have hLpos : 0 < pts.length := List.length_pos.mpr hne
  have hlen : (if (pts.length : Int) > scaledLOD2 LOD2 ratio ccenter size
      then strideSample POINTDIM pts (scaledLOD2 LOD2 ratio ccenter size) else pts).length
      = min (scaledLOD2 LOD2 ratio ccenter size).toNat pts.length := by
    by_cases h : (pts.length : Int) > scaledLOD2 LOD2 ratio ccenter size
    · rw [if_pos h, length_strideSample POINTDIM pts _ (by omega) h]
      omega
    · rw [if_neg h]
      omega
  have h1 : displayOctTreeLOD2.child POINTDIM CubeInFrustum2 CubeInFrustum LOD2 ratio
      (.points pts) ccenter size
      = (if (pts.length : Int) > scaledLOD2 LOD2 ratio ccenter size
          then strideSample POINTDIM pts (scaledLOD2 LOD2 ratio ccenter size) else pts) := by
    rw [displayOctTreeLOD2.child]
    by_cases hbig : scaledLOD2 LOD2 ratio ccenter size > 1
    · rw [if_pos hbig]
      split_ifs <;> first | rfl | omega
    · have hone : scaledLOD2 LOD2 ratio ccenter size = 1 := by omega
      rw [if_neg hbig, hone]
      by_cases hL : (pts.length : Int) > 1
      · rw [if_pos hL, strideSample_one]
      · rw [if_neg hL]
        match pts, hne, hL with
        | [a], _, _ => rfl
        | a :: b :: r, _, hL =>
          exfalso
          apply hL
          rw [List.length_cons, List.length_cons]
          push_cast
          omega
  have h2 : displayOctTreeCulledLOD2.child POINTDIM CubeInFrustum2 CubeInFrustum LOD2 ratio
      (.points pts) ccenter size
      = (if (pts.length : Int) > scaledLOD2 LOD2 ratio ccenter size
          then strideSample POINTDIM pts (scaledLOD2 LOD2 ratio ccenter size) else pts) := by
    rw [displayOctTreeCulledLOD2.child, if_pos hvis]
    rw [if_pos (by omega)]
    split_ifs <;> first | rfl | omega
  exact ⟨h1, h2, by rw [h1, hlen], by rw [h2, hlen]⟩

/-- Witness of C21: a leaf of 9 points with footprint 2 and ratio 1 (`l = 4`). -/
theorem mode1_leaf_count_witness :
    (displayOctTreeLOD2.child 3 (fun _ _ => 1) (fun _ _ => true) (fun _ _ => 2) 1
        (bitunion.points (List.range 9)) (0, 0, 0) 1).length
      = min (scaledLOD2 (fun _ _ => 2) 1 (0, 0, 0) 1).toNat (List.range 9).length
    ∧ (displayOctTreeCulledLOD2.child 3 (fun _ _ => 1) (fun _ _ => true) (fun _ _ => 2) 1
        (bitunion.points (List.range 9)) (0, 0, 0) 1).length
      = min (scaledLOD2 (fun _ _ => 2) 1 (0, 0, 0) 1).toNat (List.range 9).length :=
  (mode1_leaf_count 3 (fun _ _ => 1) (fun _ _ => true) (fun _ _ => 2) 1 (List.range 9)
    (0, 0, 0) 1 (by decide) rfl (by decide!)).2.2

/-! ## Mode 2: leaves below the size threshold (C22) -/

/-- C22 (counterexample): a visible leaf reached below the size threshold
(`minsize = 2 > size = 1`) sends one sprite at its cell centre and none of its
two points, in both traversals. -/
theorem mode2_small_leaf_sends_sprite :
    displayOctTreeCPAll.child (fun _ _ => true) (bitunion.points [7, 8]) (0, 0, 0) 1 2
        = [Sprite.cell (0, 0, 0) (1 / 2)]
      ∧ displayOctTreeCPAllCulled.child (fun _ _ => 1) (fun _ _ => true)
          (bitunion.points [7, 8]) (0, 0, 0) 1 2 = [Sprite.cell (0, 0, 0) (1 / 2)] := by
  decide!

/-- C22 (amended): in mode 2 the size threshold is tested before the leaf bit.
A present child of a node of half-size `size < minsize`, leaf or not, sends one
sprite at its cell centre when `CubeInFrustum` accepts its box and nothing
otherwise; when `minsize ≤ size`, a leaf child sends all the points of its
bucket (in the culled traversal only if `CubeInFrustum` accepts its box). -/
theorem mode2_leaf_rule (CubeInFrustum2 : Vec3 → ℚ → Int) (CubeInFrustum : Vec3 → ℚ → Bool)
    (pts : List P) (n : bitoct P) (ccenter : Vec3) (size minsize : ℚ) :
    (minsize > size →
        displayOctTreeCPAll.child CubeInFrustum (.points pts) ccenter size minsize
            = (if CubeInFrustum ccenter (size / 2) = true
                then [Sprite.cell ccenter (size / 2)] else [])
          ∧ displayOctTreeCPAllCulled.child CubeInFrustum2 CubeInFrustum (.points pts)
              ccenter size minsize
            = (if CubeInFrustum ccenter (size / 2) = true
                then [Sprite.cell ccenter (size / 2)] else [])
          ∧ displayOctTreeCPAll.child CubeInFrustum (.node n) ccenter size minsize
            = (if CubeInFrustum ccenter (size / 2) = true
                then [Sprite.cell ccenter (size / 2)] else [])
          ∧ displayOctTreeCPAllCulled.child CubeInFrustum2 CubeInFrustum (.node n)
              ccenter size minsize
            = (if CubeInFrustum ccenter (size / 2) = true
                then [Sprite.cell ccenter (size / 2)] else []))
      ∧ (minsize ≤ size →
        displayOctTreeCPAll.child CubeInFrustum (.points pts) ccenter size minsize
            = pts.map Sprite.point
          ∧ displayOctTreeCPAllCulled.child CubeInFrustum2 CubeInFrustum (.points pts)
              ccenter size minsize
            = (if CubeInFrustum ccenter (size / 2) = true then pts.map Sprite.point else [])) := by
  constructor
  · intro h
    simp [displayOctTreeCPAll.child, displayOctTreeCPAllCulled.child, h]
  · intro h
    simp [displayOctTreeCPAll.child, displayOctTreeCPAllCulled.child, not_lt.mpr h]

/-- Witness of C22 (amended): the leaf `[7, 8]` below and above the threshold. -/
theorem mode2_leaf_rule_witness :
    displayOctTreeCPAll.child (fun _ _ => true) (bitunion.points [7, 8]) (0, 0, 0) 1 2
        = (if (fun (_ : Vec3) (_ : ℚ) => true) (0, 0, 0) ((1 : ℚ) / 2) = true
            then [Sprite.cell (0, 0, 0) (1 / 2)] else [])
      ∧ displayOctTreeCPAll.child (fun _ _ => true) (bitunion.points [7, 8]) (0, 0, 0) 1 1
        = [7, 8].map Sprite.point :=
  ⟨((mode2_leaf_rule (fun _ _ => 1) (fun _ _ => true) [7, 8] emptyOct (0, 0, 0) 1 2).1
      (by decide)).1,
   ((mode2_leaf_rule (fun _ _ => 1) (fun _ _ => true) [7, 8] emptyOct (0, 0, 0) 1 1).2
      (by decide)).1⟩

/-! ## The calibration bound (C23, C24) -/


theorem isValid_false_of_value {c : bitunion P} (h : c.isValid = false) :
    maxTargetPointsNat.child c = 0 ∧ (displayOctTreeAll.child c).length = 0 := by
  cases c with
  | absent => exact ⟨rfl, rfl⟩
  | points pts => simp [bitunion.isValid] at h
  | node n => simp [bitunion.isValid] at h

/-- Over unbounded naturals the bound is at least the number of stored points. -/
theorem length_displayOctTreeAll_le (node : bitoct P) :
    (displayOctTreeAll node).length ≤ maxTargetPointsNat node := by
  refine @bitoct.rec P
    (fun n => (displayOctTreeAll n).length ≤ maxTargetPointsNat n)
    (fun c => (displayOctTreeAll.child c).length ≤ maxTargetPointsNat.child c)
    ?_ ?_ ?_ ?_ node
  · intro child ih
    rw [displayOctTreeAll, maxTargetPointsNat]
    refine length_flatMap_le_mul octants _ (fun i => (child i).isValid) _ ?_ ?_
    · intro i hi
      exact le_trans (ih i) ((le_foldl_max _ 0).2 _
        (List.mem_map.mpr ⟨i, hi, rfl⟩))
    · intro i _ hv
      exact (isValid_false_of_value hv).2
  · exact le_refl 0
  · intro pts
    exact le_refl _
  · intro n ih
    exact ih

/-- The 64-bit computation of the source returns the bound when the bound is
below `2 ^ 64`. -/
theorem maxTargetPoints_eq_nat (node : bitoct P) :
    maxTargetPointsNat node < 2 ^ 64 → maxTargetPoints node = maxTargetPointsNat node := by
  refine @bitoct.rec P
    (fun n => maxTargetPointsNat n < 2 ^ 64 → maxTargetPoints n = maxTargetPointsNat n)
    (fun c => maxTargetPointsNat.child c < 2 ^ 64 →
      ∀ mx : Nat, maxTargetPoints.child c mx = max mx (maxTargetPointsNat.child c))
    ?_ ?_ ?_ ?_ node
  · intro child ih hlt
    rw [maxTargetPointsNat] at hlt
    have hm : (octants.map fun i => maxTargetPointsNat.child (child i)).foldl max 0 < 2 ^ 64 :=
      lt_of_le_of_lt (foldl_max_le_count_mul octants
        (fun i => maxTargetPointsNat.child (child i)) (fun i => (child i).isValid)
        (fun i _ hv => (isValid_false_of_value hv).1)) hlt
    have hfold : octants.foldl (fun mx i => maxTargetPoints.child (child i) mx) 0
        = (octants.map fun i => maxTargetPointsNat.child (child i)).foldl max 0 := by
      rw [List.foldl_map]
      apply List.foldl_ext
      intro mx i hi
      exact ih i (lt_of_le_of_lt ((le_foldl_max _ 0).2 _ (List.mem_map.mpr ⟨i, hi, rfl⟩)) hm) mx
    rw [maxTargetPoints, maxTargetPointsNat, hfold, POPCOUNT_valid, Nat.mul_comm]
    exact Nat.mod_eq_of_lt hlt
  · intro _ mx
    simp [maxTargetPoints.child, maxTargetPointsNat.child]
  · intro pts _ mx
    rw [maxTargetPoints.child, maxTargetPointsNat.child]
    split_ifs with h
    · exact (max_eq_right (le_of_lt h)).symm
    · exact (max_eq_left (not_lt.mp h)).symm
  · intro n ih hlt mx
    rw [maxTargetPoints.child, maxTargetPointsNat.child]
    rw [maxTargetPointsNat.child] at hlt
    rw [ih hlt]
    split_ifs with h
    · exact (max_eq_right (le_of_lt h)).symm
    · exact (max_eq_left (not_lt.mp h)).symm

/-- C23: `maxTargetPoints` is an upper bound.  Over unbounded naturals the
value `popcount(presence) * max over present children (bucket size if leaf,
else the value of the child)` is at least the number of points stored in the
leaf buckets of the subtree, and it is what the 64-bit computation of the
source returns whenever it is below `2 ^ 64`. -/
theorem maxTargetPoints_upper_bound (node : bitoct P) (center : Vec3) (size : ℚ) :
    ((octLeaves node center size 0).map fun l => l.pts.length).sum ≤ maxTargetPointsNat node
      ∧ (maxTargetPointsNat node < 2 ^ 64 →
          maxTargetPoints node = maxTargetPointsNat node
            ∧ ((octLeaves node center size 0).map fun l => l.pts.length).sum
                ≤ maxTargetPoints node) := by
  have h : ((octLeaves node center size 0).map fun l => l.pts.length).sum
      ≤ maxTargetPointsNat node := by
    rw [← length_leafPoints, ← displayOctTreeAll_eq_leafPoints node center size 0]
    exact length_displayOctTreeAll_le node
  refine ⟨h, fun hlt => ⟨maxTargetPoints_eq_nat node hlt, ?_⟩⟩
  rw [maxTargetPoints_eq_nat node hlt]
  exact h

/-- Witness of C23: on `twoLevelOct` the bound is 12 for 7 stored points. -/
theorem maxTargetPoints_upper_bound_witness :
    maxTargetPoints twoLevelOct = maxTargetPointsNat twoLevelOct
      ∧ ((octLeaves twoLevelOct (0, 0, 0) 1 0).map fun l => l.pts.length).sum
          ≤ maxTargetPoints twoLevelOct :=
  (maxTargetPoints_upper_bound twoLevelOct (0, 0, 0) 1).2 (by decide)


theorem leafSize_le_value (c : bitunion P) : c.leafSize ≤ maxTargetPointsNat.child c := by
  cases c with
  | absent => exact le_refl 0
  | points pts => exact le_refl _
  | node n => exact Nat.zero_le _

/-- The value the data model describes is at most the recursive bound. -/
theorem maxLeafProduct_le (node : bitoct P) : maxLeafProduct node ≤ maxTargetPointsNat node := by
  refine @bitoct.rec P
    (fun n => maxLeafProduct n ≤ maxTargetPointsNat n)
    (fun c => maxLeafProduct.child c ≤ maxTargetPointsNat.child c)
    ?_ ?_ ?_ ?_ node
  · intro child ih
    rw [maxLeafProduct, maxTargetPointsNat]
    have hmem : ∀ i ∈ octants, maxTargetPointsNat.child (child i)
        ≤ (octants.map fun i => maxTargetPointsNat.child (child i)).foldl max 0 :=
      fun i hi => (le_foldl_max _ 0).2 _ (List.mem_map.mpr ⟨i, hi, rfl⟩)
    apply max_le
    · rw [Nat.mul_comm]
      apply Nat.mul_le_mul_left
      apply foldl_max_le _ _ _ (Nat.zero_le _)
      intro x hx
      obtain ⟨i, hi, rfl⟩ := List.mem_map.mp hx
      exact le_trans (leafSize_le_value (child i)) (hmem i hi)
    · refine le_trans ?_ (foldl_max_le_count_mul octants
        (fun i => maxTargetPointsNat.child (child i)) (fun i => (child i).isValid)
        (fun i _ hv => (isValid_false_of_value hv).1))
      apply foldl_max_le _ _ _ (Nat.zero_le _)
      intro x hx
      obtain ⟨i, hi, rfl⟩ := List.mem_map.mp hx
      exact le_trans (ih i) (hmem i hi)
  · exact le_refl 0
  · intro pts
    exact Nat.zero_le _
  · intro n ih
    exact ih

/-- C24 (counterexample): on `twoLevelOct` the value stored at construction is
12, while the maximum over the internal nodes of (largest leaf bucket among the
node's children) times (number of present children) is 6. -/
theorem calibration_is_not_max_leaf_product :
    (create twoLevelOct (0, 0, 0) 1 2).maxtargetpoints = 12
      ∧ maxLeafProduct twoLevelOct = 6 := by
  decide

/-- C24 (amended): the value stored at construction is `maxTargetPoints(root)`,
the recursive bound of C23; when that bound does not overflow 64 bits it is at
least the maximum over all internal nodes of (largest leaf-bucket size among the
node's own children) times (the node's number of present children). -/
theorem calibration_ge_max_leaf_product (root : bitoct P) (center : Vec3) (size : ℚ)
    (max_depth : Int) :
    (create root center size max_depth).maxtargetpoints = maxTargetPoints root
      ∧ (maxTargetPointsNat root < 2 ^ 64 →
          (create root center size max_depth).maxtargetpoints = maxTargetPointsNat root
            ∧ maxLeafProduct root ≤ (create root center size max_depth).maxtargetpoints) := by
  refine ⟨rfl, fun hlt => ?_⟩
  have h : (create root center size max_depth).maxtargetpoints = maxTargetPointsNat root :=
    maxTargetPoints_eq_nat root hlt
  exact ⟨h, by rw [h]; exact maxLeafProduct_le root⟩

/-- Witness of C24 (amended): `twoLevelOct`. -/
theorem calibration_ge_max_leaf_product_witness :
    (create twoLevelOct (0, 0, 0) 1 2).maxtargetpoints = maxTargetPointsNat twoLevelOct
      ∧ maxLeafProduct twoLevelOct ≤ (create twoLevelOct (0, 0, 0) 1 2).maxtargetpoints :=
  (calibration_ge_max_leaf_product twoLevelOct (0, 0, 0) 1 2).2 (by decide)

/-! ## The LOD mode (C25) -/

/-- C25: the LOD mode is a selector in `{0, 1, 2}` cycled modulo 3.
Construction sets it to 0; in the state reached after `n` calls of `cycleLOD` it
is `n mod 3`; one more call sets it to `(old + 1) mod 3` and changes no other
member; three more calls give the same state back. -/
theorem cycleLOD_mod_three (root : bitoct P) (center : Vec3) (size : ℚ) (max_depth : Int)
    (n : Nat) :
    (create root center size max_depth).current_lod_mode = 0
      ∧ (cycleLOD^[n] (create root center size max_depth)).current_lod_mode = n % 3
      ∧ (cycleLOD^[n] (create root center size max_depth)).current_lod_mode < 3
      ∧ (cycleLOD (cycleLOD^[n] (create root center size max_depth))).current_lod_mode
          = ((cycleLOD^[n] (create root center size max_depth)).current_lod_mode + 1) % 3
      ∧ (cycleLOD (cycleLOD^[n] (create root center size max_depth))).maxtargetpoints
          = (cycleLOD^[n] (create root center size max_depth)).maxtargetpoints
      ∧ (cycleLOD (cycleLOD^[n] (create root center size max_depth))).root
          = (cycleLOD^[n] (create root center size max_depth)).root
      ∧ (cycleLOD (cycleLOD^[n] (create root center size max_depth))).center
          = (cycleLOD^[n] (create root center size max_depth)).center
      ∧ (cycleLOD (cycleLOD^[n] (create root center size max_depth))).size
          = (cycleLOD^[n] (create root center size max_depth)).size
      ∧ (cycleLOD (cycleLOD^[n] (create root center size max_depth))).max_depth
          = (cycleLOD^[n] (create root center size max_depth)).max_depth
      ∧ cycleLOD (cycleLOD (cycleLOD (cycleLOD^[n] (create root center size max_depth))))
          = cycleLOD^[n] (create root center size max_depth) := by
  have hmode : ∀ m : Nat,
      (cycleLOD^[m] (create root center size max_depth)).current_lod_mode = m % 3 := by
    intro m
    induction m with
    | zero => rfl
    | succ m ih =>
      rw [Function.iterate_succ_apply']
      show (((cycleLOD^[m] (create root center size max_depth)).current_lod_mode + 1)
        % 2 ^ 32) % 3 = (m + 1) % 3
      rw [ih]
      have : m % 3 < 3 := Nat.mod_lt _ (by decide)
      omega
  have hlt : (cycleLOD^[n] (create root center size max_depth)).current_lod_mode < 3 := by
    rw [hmode n]
    exact Nat.mod_lt _ (by decide)
  have hstep : ∀ t : Show_BOctTree P, t.current_lod_mode < 3 →
      (cycleLOD t).current_lod_mode = (t.current_lod_mode + 1) % 3 := by
    intro t ht
    show ((t.current_lod_mode + 1) % 2 ^ 32) % 3 = (t.current_lod_mode + 1) % 3
    omega
  refine ⟨rfl, hmode n, hlt, hstep _ hlt, rfl, rfl, rfl, rfl, rfl, ?_⟩
  generalize cycleLOD^[n] (create root center size max_depth) = t at hlt
  cases t with
  | mk r c s d mt mode =>
    simp only [cycleLOD] at hlt ⊢
    congr 1
    omega

/-! ## Cell outlines (C26) -/

/-- C26 (counterexample): root of half-size 1, threshold 3/4.  The internal
child has the own half-size 1/2, below the threshold, yet no cube is drawn for
it: the traversal recurses and draws the cube of the leaf below it. -/
theorem outline_threshold_uses_parent_size :
    ((1 : ℚ) / 2 < 3 / 4)
      ∧ displayOctTreeCAll deepLeaf (0, 0, 0) 1 (3 / 4)
          = [((-3 / 4, -3 / 4, -3 / 4), 1 / 4)]
      ∧ ((childcenter (0, 0, 0) 1 0, (1 : ℚ) / 2) : Cube)
          ∉ displayOctTreeCAll deepLeaf (0, 0, 0) 1 (3 / 4) := by
  decide!

/-- C26 (amended): in `displayOctTreeCAll` a present child is drawn as a cube
at its own centre with its own half-size `size / 2` exactly when it is a leaf or
the half-size `size` of its parent is below the threshold; otherwise the
traversal recurses into it.  The bucket of a leaf plays no part. -/
theorem outline_rule (pts pts' : List P) (n : bitoct P) (ccenter : Vec3)
    (size minsize : ℚ) :
    displayOctTreeCAll.child (.points pts) ccenter size minsize = [(ccenter, size / 2)]
      ∧ displayOctTreeCAll.child (.points pts) ccenter size minsize
          = displayOctTreeCAll.child (.points pts') ccenter size minsize
      ∧ (minsize > size →
          displayOctTreeCAll.child (.node n) ccenter size minsize = [(ccenter, size / 2)])
      ∧ (minsize ≤ size →
          displayOctTreeCAll.child (.node n) ccenter size minsize
            = displayOctTreeCAll n ccenter (size / 2) minsize) := by
  refine ⟨rfl, rfl, ?_, ?_⟩
  · intro h
    rw [displayOctTreeCAll.child, if_pos h]
  · intro h
    rw [displayOctTreeCAll.child, if_neg (not_lt.mpr h)]

/-- Witness of C26 (amended): an internal child above and below the threshold. -/
theorem outline_rule_witness :
    displayOctTreeCAll.child (bitunion.node (singleOct 0 (bitunion.points [7]))) (0, 0, 0) 1 2
        = [((0, 0, 0), 1 / 2)]
      ∧ displayOctTreeCAll.child (bitunion.node (singleOct 0 (bitunion.points [7])))
          (0, 0, 0) 1 (3 / 4)
        = displayOctTreeCAll (singleOct 0 (bitunion.points [7])) (0, 0, 0) (1 / 2) (3 / 4) :=
  ⟨(outline_rule [7] [7] (singleOct 0 (bitunion.points [7])) (0, 0, 0) 1 2).2.2.1 (by decide),
   (outline_rule [7] [7] (singleOct 0 (bitunion.points [7])) (0, 0, 0) 1 (3 / 4)).2.2.2
    (by decide!)⟩

/-! ## The budget of mode 0 (C27, C28) -/


theorem length_firstPoint_le (pts : List P) : (firstPoint pts).length ≤ 1 := by
  cases pts <;> simp [firstPoint]

theorem length_lodLeaf_le (POINTDIM : Nat) (pts : List P) (c : Prop) [Decidable c]
    (k : Int) (hk : 0 < k) :
    ((if c then firstPoint pts
      else if (pts.length : Int) ≤ k then pts else strideSample POINTDIM pts k).length : Int)
      ≤ k := by
  split_ifs with h1 h2
  · have := length_firstPoint_le pts
    omega
  · exact h2
  · rw [length_strideSample POINTDIM pts k hk (not_le.mp h2)]
    omega

theorem count_mul_newtargetpts_le (cnt : Nat) (b : Int) (hb : 0 < b) :
    (cnt : Int) * (if cnt > 0 then b.tdiv cnt else b) ≤ b := by
  by_cases hc : cnt > 0
  · rw [if_pos hc, Int.tdiv_eq_ediv hb.le (Int.natCast_nonneg _)]
    exact Int.mul_ediv_self_le (by exact_mod_cast hc.ne')
  · have : cnt = 0 := by omega
    subst this
    simp
    exact hb.le

/-- Both mode 0 traversals stay within a budget `0 ≤ b`. -/
theorem length_LOD_le_budget (POINTDIM : Nat) (CubeInFrustum2 : Vec3 → ℚ → Int)
    (CubeInFrustum : Vec3 → ℚ → Bool) (LOD : Vec3 → ℚ → Bool) (node : bitoct P) :
    ∀ (b : Int) (center : Vec3) (size : ℚ), 0 ≤ b →
      ((displayOctTreeLOD POINTDIM LOD node b center size).length : Int) ≤ b
        ∧ ((displayOctTreeCulledLOD POINTDIM CubeInFrustum2 CubeInFrustum LOD node b
              center size).length : Int) ≤ b := by
  refine @bitoct.rec P
    (fun n => ∀ (b : Int) (center : Vec3) (size : ℚ), 0 ≤ b →
      ((displayOctTreeLOD POINTDIM LOD n b center size).length : Int) ≤ b
        ∧ ((displayOctTreeCulledLOD POINTDIM CubeInFrustum2 CubeInFrustum LOD n b
              center size).length : Int) ≤ b)
    (fun c => ∀ (k : Int) (ccenter : Vec3) (size : ℚ), 0 < k →
      (((displayOctTreeLOD.child POINTDIM LOD c k ccenter size).length : Int) ≤ k
        ∧ ((displayOctTreeCulledLOD.child POINTDIM CubeInFrustum2 CubeInFrustum LOD c k
              ccenter size).length : Int) ≤ k)
        ∧ (c.isValid = false →
          (displayOctTreeLOD.child POINTDIM LOD c k ccenter size).length = 0
            ∧ (displayOctTreeCulledLOD.child POINTDIM CubeInFrustum2 CubeInFrustum LOD c k
                ccenter size).length = 0))
    ?_ ?_ ?_ ?_ node
  · intro child ih b center size hb
    have hloop : ∀ (f : Fin 8 → List P) (k : Int), 0 < k →
        (∀ i, ((f i).length : Int) ≤ k) → (∀ i, (child i).isValid = false → (f i).length = 0) →
        ((octants.flatMap f).length : Int)
          ≤ ((octants.filter fun i => (child i).isValid).length : Int) * k := by
      intro f k hk h1 h2
      have hnat := length_flatMap_le_mul octants f (fun i => (child i).isValid) k.toNat
        (fun i _ => by have := h1 i; omega) (fun i _ hv => h2 i hv)
      have hcast : (((octants.filter fun i => (child i).isValid).length * k.toNat : Nat) : Int)
          = ((octants.filter fun i => (child i).isValid).length : Int) * k := by
        rw [Nat.cast_mul, Int.toNat_of_nonneg hk.le]
      rw [← hcast]
      exact_mod_cast hnat
    have hLOD : ((displayOctTreeLOD POINTDIM LOD (.mk child) b center size).length : Int)
        ≤ b := by
      rw [displayOctTreeLOD]
      by_cases h0 : b ≤ 0
      · rw [if_pos h0]
        exact hb
      · rw [if_neg h0]
        simp only
        rw [POPCOUNT_valid]
        by_cases hz : (octants.filter fun i => (child i).isValid).length > 0
            ∧ (if (octants.filter fun i => (child i).isValid).length > 0
              then b.tdiv ((octants.filter fun i => (child i).isValid).length : Int)
              else b) ≤ 0
        · rw [if_pos hz]
          exact hb
        · rw [if_neg hz]
          have hk : 0 < (if (octants.filter fun i => (child i).isValid).length > 0
              then b.tdiv ((octants.filter fun i => (child i).isValid).length : Int)
              else b) := by
            by_cases hc : (octants.filter fun i => (child i).isValid).length > 0
            · exact not_le.mp fun hle => hz ⟨hc, hle⟩
            · rw [if_neg hc]
              omega
          refine le_trans (hloop _ _ hk (fun i => (ih i _ _ _ hk).1.1)
            (fun i hv => ((ih i _ _ _ hk).2 hv).1)) ?_
          exact count_mul_newtargetpts_le _ b (by omega)
    refine ⟨hLOD, ?_⟩
    rw [displayOctTreeCulledLOD]
    by_cases h0 : b ≤ 0
    · rw [if_pos h0]
      exact hb
    · rw [if_neg h0]
      by_cases hout : CubeInFrustum2 center size = 0
      · rw [if_pos hout]
        exact hb
      · rw [if_neg hout]
        by_cases hin : CubeInFrustum2 center size = 2
        · rw [if_pos hin]
          exact hLOD
        · rw [if_neg hin]
          simp only
          rw [POPCOUNT_valid]
          by_cases hz : (octants.filter fun i => (child i).isValid).length > 0
              ∧ (if (octants.filter fun i => (child i).isValid).length > 0
                then b.tdiv ((octants.filter fun i => (child i).isValid).length : Int)
                else b) ≤ 0
          · rw [if_pos hz]
            exact hb
          · rw [if_neg hz]
            have hk : 0 < (if (octants.filter fun i => (child i).isValid).length > 0
                then b.tdiv ((octants.filter fun i => (child i).isValid).length : Int)
                else b) := by
              by_cases hc : (octants.filter fun i => (child i).isValid).length > 0
              · exact not_le.mp fun hle => hz ⟨hc, hle⟩
              · rw [if_neg hc]
                omega
            refine le_trans (hloop _ _ hk (fun i => (ih i _ _ _ hk).1.2)
              (fun i hv => ((ih i _ _ _ hk).2 hv).2)) ?_
            exact count_mul_newtargetpts_le _ b (by omega)
  · intro k cc size hk
    simp [displayOctTreeLOD.child, displayOctTreeCulledLOD.child]
    exact hk.le
  · intro pts k cc size hk
    refine ⟨⟨?_, ?_⟩, fun hv => by simp [bitunion.isValid] at hv⟩
    · rw [displayOctTreeLOD.child]
      exact length_lodLeaf_le POINTDIM pts _ k hk
    · rw [displayOctTreeCulledLOD.child]
      by_cases hv : CubeInFrustum cc (size / 2) = true
      · rw [if_pos hv]
        exact length_lodLeaf_le POINTDIM pts _ k hk
      · rw [if_neg hv]
        simp
        exact hk.le
  · intro n ih k cc size hk
    refine ⟨?_, fun hv => by simp [bitunion.isValid] at hv⟩
    rw [displayOctTreeLOD.child, displayOctTreeCulledLOD.child]
    exact ih k cc (size / 2) hk.le

/-- C27: mode 0 never exceeds its budget.  For every tree, every visibility and
footprint oracle and every budget `b ≥ 0`, `displayOctTreeCulledLOD` and
`displayOctTreeLOD` send at most `b` points. -/
theorem mode0_within_budget (POINTDIM : Nat) (CubeInFrustum2 : Vec3 → ℚ → Int)
    (CubeInFrustum : Vec3 → ℚ → Bool) (LOD : Vec3 → ℚ → Bool) (node : bitoct P)
    (b : Int) (center : Vec3) (size : ℚ) (hb : 0 ≤ b) :
    ((displayOctTreeCulledLOD POINTDIM CubeInFrustum2 CubeInFrustum LOD node b
        center size).length : Int) ≤ b
      ∧ ((displayOctTreeLOD POINTDIM LOD node b center size).length : Int) ≤ b :=
  ⟨(length_LOD_le_budget POINTDIM CubeInFrustum2 CubeInFrustum LOD node b center size hb).2,
   (length_LOD_le_budget POINTDIM CubeInFrustum2 CubeInFrustum LOD node b center size hb).1⟩

/-- Witness of C27: eight leaves of five points with budget 24. -/
theorem mode0_within_budget_witness :
    ((displayOctTreeCulledLOD 3 (fun _ _ => 1) (fun _ _ => true) (fun _ _ => true) eightLeaves
        24 (0, 0, 0) 1).length : Int) ≤ 24
      ∧ ((displayOctTreeLOD 3 (fun _ _ => true) eightLeaves 24 (0, 0, 0) 1).length : Int) ≤ 24 :=
  mode0_within_budget 3 (fun _ _ => 1) (fun _ _ => true) (fun _ _ => true) eightLeaves 24
    (0, 0, 0) 1 (by decide)


theorem displayOctTreeAll_nil_of_bound_zero (node : bitoct P)
    (h : maxTargetPointsNat node = 0) : displayOctTreeAll node = [] := by
  have := length_displayOctTreeAll_le node
  exact List.length_eq_zero.mp (by omega)

/-- With a budget at least the bound (over unbounded naturals) and no leaf on
the one-point branch, `displayOctTreeLOD` sends every point. -/
theorem displayOctTreeLOD_eq_all_of_nat_bound (POINTDIM : Nat) (LOD : Vec3 → ℚ → Bool)
    (node : bitoct P) :
    ∀ (b : Int) (center : Vec3) (size : ℚ) (depth : Int),
      (maxTargetPointsNat node : Int) ≤ b →
      (∀ l ∈ octLeaves node center size depth,
        l.pts.length ≤ 10 ∨ LOD l.ownBox.1 l.ownBox.2 = true) →
      displayOctTreeLOD POINTDIM LOD node b center size = displayOctTreeAll node := by
  refine @bitoct.rec P
    (fun n => ∀ (b : Int) (center : Vec3) (size : ℚ) (depth : Int),
      (maxTargetPointsNat n : Int) ≤ b →
      (∀ l ∈ octLeaves n center size depth,
        l.pts.length ≤ 10 ∨ LOD l.ownBox.1 l.ownBox.2 = true) →
      displayOctTreeLOD POINTDIM LOD n b center size = displayOctTreeAll n)
    (fun c => ∀ (k : Int) (ccenter : Vec3) (size : ℚ) (depth : Int),
      0 < k → (maxTargetPointsNat.child c : Int) ≤ k →
      (∀ l ∈ octLeaves.child c ccenter size depth,
        l.pts.length ≤ 10 ∨ LOD l.ownBox.1 l.ownBox.2 = true) →
      displayOctTreeLOD.child POINTDIM LOD c k ccenter size = displayOctTreeAll.child c)
    ?_ ?_ ?_ ?_ node
  · intro child ih b center size d hb hl
    have hmem : ∀ i ∈ octants, maxTargetPointsNat.child (child i)
        ≤ (octants.map fun i => maxTargetPointsNat.child (child i)).foldl max 0 :=
      fun i hi => (le_foldl_max _ 0).2 _ (List.mem_map.mpr ⟨i, hi, rfl⟩)
    have hm0 := foldl_max_le_count_mul octants
      (fun i => maxTargetPointsNat.child (child i)) (fun i => (child i).isValid)
      (fun i _ hv => (isValid_false_of_value hv).1)
    have hbound : maxTargetPointsNat (.mk child)
        = (octants.filter fun i => (child i).isValid).length
          * (octants.map fun i => maxTargetPointsNat.child (child i)).foldl max 0 := by
      rw [maxTargetPointsNat]
    have hchild : ∀ (k : Int), 0 < k →
        (((octants.map fun i => maxTargetPointsNat.child (child i)).foldl max 0 : Nat) : Int) ≤ k →
        octants.flatMap (fun i => displayOctTreeLOD.child POINTDIM LOD (child i) k
          (childcenter center size i) size)
          = displayOctTreeAll (.mk child) := by
      intro k hk hmk
      rw [displayOctTreeAll]
      refine flatMap_congr_mem _ _ _ fun i hi => ih i k _ _ d hk ?_ ?_
      · have := hmem i hi
        omega
      · intro l hl'
        exact hl l (by
          rw [octLeaves]
          exact List.mem_flatMap.mpr ⟨i, hi, hl'⟩)
    have hzero : (octants.map fun i => maxTargetPointsNat.child (child i)).foldl max 0 = 0 →
        displayOctTreeAll (.mk child) = [] := by
      intro h0
      apply displayOctTreeAll_nil_of_bound_zero
      rw [hbound, h0, Nat.mul_zero]
    rw [displayOctTreeLOD]
    by_cases h0 : b ≤ 0
    · rw [if_pos h0]
      have : maxTargetPointsNat (.mk child) = 0 := by omega
      exact (displayOctTreeAll_nil_of_bound_zero _ this).symm
    · rw [if_neg h0]
      simp only
      rw [POPCOUNT_valid]
      by_cases hc : (octants.filter fun i => (child i).isValid).length > 0
      · have hmk : (((octants.map fun i => maxTargetPointsNat.child (child i)).foldl max 0
            : Nat) : Int)
            ≤ b.tdiv ((octants.filter fun i => (child i).isValid).length : Int) := by
          rw [Int.tdiv_eq_ediv (by omega) (Int.natCast_nonneg _)]
          apply Int.le_ediv_of_mul_le (by exact_mod_cast hc)
          rw [hbound] at hb
          push_cast at hb
          linarith [mul_comm
            (((octants.map fun i => maxTargetPointsNat.child (child i)).foldl max 0 : Nat) : Int)
            ((octants.filter fun i => (child i).isValid).length : Int)]
        rw [if_pos hc]
        by_cases hk : b.tdiv ((octants.filter fun i => (child i).isValid).length : Int) ≤ 0
        · rw [if_pos ⟨hc, hk⟩]
          exact (hzero (by omega)).symm
        · rw [if_neg (fun h => hk h.2)]
          exact hchild _ (not_le.mp hk) hmk
      · rw [if_neg hc, if_neg (fun h => hc h.1)]
        refine hchild b (not_le.mp h0) ?_
        have hc0 : (octants.filter fun i => (child i).isValid).length = 0 := by omega
        rw [hc0, Nat.zero_mul] at hm0
        omega
  · intro k cc size d _ _ _
    rfl
  · intro pts k cc size d _ hk hl
    have h := hl ⟨d + 1, cc, size, pts⟩ (by simp [octLeaves.child])
    simp only [LeafCell.ownBox] at h
    have hnot : ¬ (pts.length > 10 ∧ ¬ LOD cc (size / 2) = true) := by
      rintro ⟨h1, h2⟩
      rcases h with h | h
      · omega
      · exact h2 h
    rw [maxTargetPointsNat.child] at hk
    rw [displayOctTreeLOD.child, displayOctTreeAll.child, if_neg hnot, if_pos hk]
  · intro n ih k cc size d _ hk hl
    rw [displayOctTreeLOD.child, displayOctTreeAll.child]
    exact ih k cc (size / 2) (d + 1) hk (by simpa [octLeaves.child] using hl)

/-- C28 (code bug): the calibration value overflows.  On the chain
`fullChain 21` (22 levels of eight children, 155 points) the 64-bit product of
`maxTargetPoints` wraps to 0, and the budget 1000, which is above it, draws 21
of the 155 points although no leaf has more than 10 points. -/
theorem calibration_overflows :
    maxTargetPoints (fullChain 21) = 0
      ∧ ((maxTargetPoints (fullChain 21) : Int) ≤ 1000)
      ∧ (∀ l ∈ octLeaves (fullChain 21) (0, 0, 0) 1 0, l.pts.length ≤ 10)
      ∧ (displayOctTreeLOD 3 (fun _ _ => true) (fullChain 21) 1000 (0, 0, 0) 1).length = 21
      ∧ (displayOctTreeAll (fullChain 21)).length = 155 := by
  decide!

/-- Calibration of mode 0 when the bound does not overflow.  For
every node whose bound, computed over unbounded naturals, is below `2 ^ 64` and
every budget `b ≥ maxTargetPoints(node)`, if every leaf of the subtree has at
most 10 points or is accepted by `LOD`, `displayOctTreeLOD` with budget `b`
sends the same sequence as `displayOctTreeAll`; and `drawLOD(1)` in mode 0 on a
root that is fully inside draws the full cloud, the budget product
`maxtargetpoints * ratio` being taken exactly (as a `float` product it can fall
below `maxtargetpoints`, see `float_budget_below_calibration`). -/
theorem mode0_calibration (POINTDIM : Nat) (LOD : Vec3 → ℚ → Bool) (node : bitoct P)
    (b : Int) (center : Vec3) (size : ℚ)
    (hover : maxTargetPointsNat node < 2 ^ 64)
    (hb : (maxTargetPoints node : Int) ≤ b)
    (hleaves : ∀ l ∈ octLeaves node center size 0,
      l.pts.length ≤ 10 ∨ LOD l.ownBox.1 l.ownBox.2 = true) :
    displayOctTreeLOD POINTDIM LOD node b center size = displayOctTreeAll node
      ∧ ∀ (glee : Bool) (CubeInFrustum2 : Vec3 → ℚ → Int) (CubeInFrustum : Vec3 → ℚ → Bool)
          (LOD2 : Vec3 → ℚ → Int) (max_depth : Int), CubeInFrustum2 center size = 2 →
          drawLOD POINTDIM glee CubeInFrustum2 CubeInFrustum LOD LOD2
              (create node center size max_depth) 1
            = (displayOctTreeAll node).map Sprite.point := by
  have heq := maxTargetPoints_eq_nat node hover
  have hmain : ∀ b' : Int, (maxTargetPoints node : Int) ≤ b' →
      displayOctTreeLOD POINTDIM LOD node b' center size = displayOctTreeAll node := by
    intro b' hb'
    rw [heq] at hb'
    exact displayOctTreeLOD_eq_all_of_nat_bound POINTDIM LOD node b' center size 0 hb' hleaves
  refine ⟨hmain b hb, ?_⟩
  intro glee V2 V LOD2 md hin
  have hbudget : toInt (((create node center size md).maxtargetpoints : ℚ) * 1)
      = (maxTargetPoints node : Int) := by
    rw [mul_one, toInt_eq_floor (Nat.cast_nonneg _), Int.floor_natCast]
    rfl
  have hculled : displayOctTreeCulledLOD POINTDIM V2 V LOD node (maxTargetPoints node : Int)
      center size = displayOctTreeLOD POINTDIM LOD node (maxTargetPoints node : Int)
        center size := by
    cases node with
    | mk child =>
      rw [displayOctTreeCulledLOD]
      by_cases h0 : (maxTargetPoints (bitoct.mk child) : Int) ≤ 0
      · rw [if_pos h0, displayOctTreeLOD, if_pos h0]
      · rw [if_neg h0, if_neg (by rw [hin]; decide), if_pos hin]
  have hmode : (create node center size md).current_lod_mode = 0 := rfl
  unfold drawLOD
  rw [if_pos hmode, hbudget]
  show (displayOctTreeCulledLOD POINTDIM V2 V LOD node (maxTargetPoints node : Int)
    center size).map Sprite.point = _
  rw [hculled, hmain _ (le_refl _)]

/-- The mode 0 budget of `drawLOD(1)` as a `float` product: for
`maxtargetpoints = 3 ^ 16` it is `3 ^ 16 - 1`. -/
theorem float_budget_below_calibration :
    toInt (roundFloat (roundFloat (((3 ^ 16 : Nat) : ℚ)) * 1)) = 3 ^ 16 - 1 := by
  decide!

/-- The calibration on `twoLevelOct` with budget 12. -/
theorem mode0_calibration_witness :
    displayOctTreeLOD 3 (fun _ _ => true) twoLevelOct 12 (0, 0, 0) 1
      = displayOctTreeAll twoLevelOct :=
  (mode0_calibration 3 (fun _ _ => true) twoLevelOct 12 (0, 0, 0) 1 (by decide) (by decide)
    (by decide)).1

end Show_BOctTree
